import Mathlib

/-!
# Rubik's cube engine (`rubics_cube.c`): shallow embedding and verified properties

The cube of `rubics_cube.h` is six faces of `N × N` coloured blocks plus a row/column
cursor.  `CUBE_SIZE` is a compile-time constant of the C code (3, admissible range 2..255);
the embedding takes the side length as the parameter `N` so that every statement is proved
for all sizes at once, and `CUBE_SIZE` is the value the repository ships.

Conventions of the embedding

* `CubeBlocks_t N` is the C array `CubeColor_t[N][N]`: a total function on `Fin N × Fin N`.
* `CubeDirection_t` is a C `enum`, i.e. an integer; directions are kept as `Int` so that
  values outside the enumeration are inputs like any other.
* `uint8_t` cursor fields are `Nat`, with `% 256` where the C code can wrap.
* In-place loops are folds over the loop counter that perform the assignments of the loop
  body in source order.
* `rotate_row` / `rotate_column` receive the index as a `uint8_t`; when that index is not
  below `N` the C code would index outside `blocks[][]` (undefined behaviour), which the
  embedding reports as `none`.
* A C array has at least one element, so the C code only exists for `N ≥ 1`.
* Loop counters are `uint8_t`; for the admissible sizes they stay below 256, and the
  embedding runs them over the natural numbers.
* `rand()` is a parameter: the function `rand : Nat → Nat` gives the value of the `k`-th
  call after `srand`.  The drivers of the game layer are called through function pointers;
  their calls are recorded in a list, and what they return (the control, the time) is a
  parameter.
-/

set_option autoImplicit false

namespace RubicsCube

/-! ## Data model (`rubics_cube.h`) -/

/-- Cube size in blocks per side, as shipped (`#define CUBE_SIZE 3`). -/
def CUBE_SIZE : Nat := 3

/-- Colours of cube blocks (`CubeColor_t`). -/
inductive CubeColor_t where
  | CUBE_COLOR_BLUE
  | CUBE_COLOR_GREEN
  | CUBE_COLOR_RED
  | CUBE_COLOR_ORANGE
  | CUBE_COLOR_YELLOW
  | CUBE_COLOR_WHITE
  deriving DecidableEq, Repr, Fintype

/-- Sides of the positioned cube (`CubeSide_t`), in the order of the C enumeration. -/
inductive CubeSide_t where
  | CUBE_SIDE_FRONT
  | CUBE_SIDE_BACK
  | CUBE_SIDE_TOP
  | CUBE_SIDE_BOTTOM
  | CUBE_SIDE_LEFT
  | CUBE_SIDE_RIGHT
  deriving DecidableEq, Repr, Fintype

open CubeColor_t CubeSide_t

/-- Number of sides (`CUBE_SIDE_COUNT`). -/
def CUBE_SIDE_COUNT : Nat := 6

/-- The sides in enumeration order: the values `0 .. CUBE_SIDE_COUNT-1` a loop
`for(i=0;i<CUBE_SIDE_COUNT;i++)` runs through. -/
def allSides : List CubeSide_t :=
  [CUBE_SIDE_FRONT, CUBE_SIDE_BACK, CUBE_SIDE_TOP, CUBE_SIDE_BOTTOM, CUBE_SIDE_LEFT,
    CUBE_SIDE_RIGHT]

/-- Rotating directions (`CubeDirection_t`): a C enumeration, hence an integer. -/
abbrev CubeDirection_t := Int

def CUBE_DIRECTION_LEFT : CubeDirection_t := 0
def CUBE_DIRECTION_RIGHT : CubeDirection_t := 1
def CUBE_DIRECTION_UP : CubeDirection_t := 2
def CUBE_DIRECTION_DOWN : CubeDirection_t := 3
def CUBE_DIRECTION_CW : CubeDirection_t := 4
def CUBE_DIRECTION_CCW : CubeDirection_t := 5
def CUBE_DIRECTION_COUNT : CubeDirection_t := 6

/-- Colours of the face blocks (`CubeBlocks_t`, the array `CubeColor_t[N][N]`). -/
abbrev CubeBlocks_t (N : Nat) := Fin N → Fin N → CubeColor_t

/-- Cube face (`CubeFace_t`). -/
@[ext]
structure CubeFace_t (N : Nat) where
  blocks : CubeBlocks_t N

/-- The cube (`Cube_t`): six faces and the `uint8_t` cursor. -/
@[ext]
structure Cube_t (N : Nat) where
  face : CubeSide_t → CubeFace_t N
  row : Nat
  col : Nat

variable {N : Nat}

/-- The index `CUBE_SIZE-1-i` of the C code. -/
def mirror (i : Fin N) : Fin N := ⟨N - 1 - i.val, by have := i.isLt; omega⟩

/-- A facelet position: side and the two block indices. -/
abbrev Pos (N : Nat) := CubeSide_t × Fin N × Fin N

/-- Read `cube->face[s].blocks[i][j]`. -/
def Cube_t.get (cube : Cube_t N) (s : CubeSide_t) (i j : Fin N) : CubeColor_t :=
  (cube.face s).blocks i j

/-- Assignment `cube->face[s].blocks[i][j] = c`. -/
def Cube_t.set (cube : Cube_t N) (s : CubeSide_t) (i j : Fin N) (c : CubeColor_t) :
    Cube_t N :=
  { cube with
    face := fun t =>
      if t = s then ⟨fun a b => if a = i ∧ b = j then c else (cube.face t).blocks a b⟩
      else cube.face t }

/-- Assignment of a whole face, `cube->face[s] = f` (what `memcpy` onto a face does). -/
def Cube_t.setFace (cube : Cube_t N) (s : CubeSide_t) (f : CubeFace_t N) : Cube_t N :=
  { cube with face := fun t => if t = s then f else cube.face t }

/-- The colour at a facelet position. -/
def Cube_t.colorAt (cube : Cube_t N) (p : Pos N) : CubeColor_t :=
  cube.get p.1 p.2.1 p.2.2

/-! ## Local functions of `rubics_cube.c` -/

/-- Cube colours on reset, side by side (`resetColors`). -/
def resetColors : CubeSide_t → CubeColor_t
  | CUBE_SIDE_FRONT => CUBE_COLOR_WHITE
  | CUBE_SIDE_BACK => CUBE_COLOR_YELLOW
  | CUBE_SIDE_TOP => CUBE_COLOR_RED
  | CUBE_SIDE_BOTTOM => CUBE_COLOR_ORANGE
  | CUBE_SIDE_LEFT => CUBE_COLOR_BLUE
  | CUBE_SIDE_RIGHT => CUBE_COLOR_GREEN

/-- Rotates a face (`rotate_face`).  The C code fills a scratch face `f` with
`f.blocks[i][j]=face->blocks[j][CUBE_SIZE-i-1]` (clockwise) or
`f.blocks[i][j]=face->blocks[CUBE_SIZE-j-1][i]` (counter-clockwise) for all `i`, `j` and
copies it over the face; any other direction returns at once. -/
def rotate_face (face : CubeFace_t N) (dir : CubeDirection_t) : CubeFace_t N :=
  if dir = CUBE_DIRECTION_CW then
    ⟨fun i j => face.blocks j ⟨N - i.val - 1, by have := i.isLt; omega⟩⟩
  else if dir = CUBE_DIRECTION_CCW then
    ⟨fun i j => face.blocks ⟨N - j.val - 1, by have := j.isLt; omega⟩ i⟩
  else face

/-- The call `rotate_face(&cube->face[s],dir)`: the face `s` of the cube is rotated in
place. -/
def Cube_t.rotateFaceAt (cube : Cube_t N) (s : CubeSide_t) (dir : CubeDirection_t) :
    Cube_t N :=
  cube.setFace s (rotate_face (cube.face s) dir)

/-- Loop body of `rotate_row`, case `CUBE_DIRECTION_LEFT`, for loop counter `i`. -/
def rotate_row_left_body (row : Fin N) (cube : Cube_t N) (i : Fin N) : Cube_t N :=
  let c := cube.get CUBE_SIDE_LEFT i row
  let cube := cube.set CUBE_SIDE_LEFT i row (cube.get CUBE_SIDE_FRONT i row)
  let cube := cube.set CUBE_SIDE_FRONT i row (cube.get CUBE_SIDE_RIGHT i row)
  let cube := cube.set CUBE_SIDE_RIGHT i row (cube.get CUBE_SIDE_BACK (mirror i) (mirror row))
  cube.set CUBE_SIDE_BACK (mirror i) (mirror row) c

/-- Loop body of `rotate_row`, case `CUBE_DIRECTION_RIGHT`, for loop counter `i`. -/
def rotate_row_right_body (row : Fin N) (cube : Cube_t N) (i : Fin N) : Cube_t N :=
  let c := cube.get CUBE_SIDE_RIGHT i row
  let cube := cube.set CUBE_SIDE_RIGHT i row (cube.get CUBE_SIDE_FRONT i row)
  let cube := cube.set CUBE_SIDE_FRONT i row (cube.get CUBE_SIDE_LEFT i row)
  let cube := cube.set CUBE_SIDE_LEFT i row (cube.get CUBE_SIDE_BACK (mirror i) (mirror row))
  cube.set CUBE_SIDE_BACK (mirror i) (mirror row) c

/-- Rotates a row (`rotate_row`).  For `CUBE_DIRECTION_LEFT` / `CUBE_DIRECTION_RIGHT` the
top face is rotated when `row` is 0, the bottom face when `row` is `CUBE_SIZE-1`, and the
loop over `i` cycles the blocks `[i][row]` of the four side faces.  Any other direction
returns at once.  `none` stands for the out-of-bounds access of an index `row ≥ N`. -/
def rotate_row (cube : Cube_t N) (row : Nat) (dir : CubeDirection_t) : Option (Cube_t N) :=
  if dir = CUBE_DIRECTION_LEFT then
    if h : row < N then
      let cube := if row = 0 then cube.rotateFaceAt CUBE_SIDE_TOP CUBE_DIRECTION_CW else cube
      let cube :=
        if row = N - 1 then cube.rotateFaceAt CUBE_SIDE_BOTTOM CUBE_DIRECTION_CCW else cube
      some ((List.finRange N).foldl (rotate_row_left_body ⟨row, h⟩) cube)
    else none
  else if dir = CUBE_DIRECTION_RIGHT then
    if h : row < N then
      let cube := if row = 0 then cube.rotateFaceAt CUBE_SIDE_TOP CUBE_DIRECTION_CCW else cube
      let cube :=
        if row = N - 1 then cube.rotateFaceAt CUBE_SIDE_BOTTOM CUBE_DIRECTION_CW else cube
      some ((List.finRange N).foldl (rotate_row_right_body ⟨row, h⟩) cube)
    else none
  else some cube

/-- Loop body of `rotate_column`, case `CUBE_DIRECTION_UP`, for loop counter `i`. -/
def rotate_column_up_body (col : Fin N) (cube : Cube_t N) (i : Fin N) : Cube_t N :=
  let c := cube.get CUBE_SIDE_TOP col i
  let cube := cube.set CUBE_SIDE_TOP col i (cube.get CUBE_SIDE_FRONT col i)
  let cube := cube.set CUBE_SIDE_FRONT col i (cube.get CUBE_SIDE_BOTTOM col i)
  let cube := cube.set CUBE_SIDE_BOTTOM col i (cube.get CUBE_SIDE_BACK col i)
  cube.set CUBE_SIDE_BACK col i c

/-- Loop body of `rotate_column`, case `CUBE_DIRECTION_DOWN`, for loop counter `i`. -/
def rotate_column_down_body (col : Fin N) (cube : Cube_t N) (i : Fin N) : Cube_t N :=
  let c := cube.get CUBE_SIDE_BOTTOM col i
  let cube := cube.set CUBE_SIDE_BOTTOM col i (cube.get CUBE_SIDE_FRONT col i)
  let cube := cube.set CUBE_SIDE_FRONT col i (cube.get CUBE_SIDE_TOP col i)
  let cube := cube.set CUBE_SIDE_TOP col i (cube.get CUBE_SIDE_BACK col i)
  cube.set CUBE_SIDE_BACK col i c

/-- Rotates a column (`rotate_column`).  For `CUBE_DIRECTION_UP` / `CUBE_DIRECTION_DOWN` the
left face is rotated when `col` is 0, the right face when `col` is `CUBE_SIZE-1`, and the
loop over `i` cycles the blocks `[col][i]` of top, front, bottom and back.  Any other
direction returns at once.  `none` stands for the out-of-bounds access of an index
`col ≥ N`. -/
def rotate_column (cube : Cube_t N) (col : Nat) (dir : CubeDirection_t) :
    Option (Cube_t N) :=
  if dir = CUBE_DIRECTION_UP then
    if h : col < N then
      let cube := if col = 0 then cube.rotateFaceAt CUBE_SIDE_LEFT CUBE_DIRECTION_CCW else cube
      let cube :=
        if col = N - 1 then cube.rotateFaceAt CUBE_SIDE_RIGHT CUBE_DIRECTION_CW else cube
      some ((List.finRange N).foldl (rotate_column_up_body ⟨col, h⟩) cube)
    else none
  else if dir = CUBE_DIRECTION_DOWN then
    if h : col < N then
      let cube := if col = 0 then cube.rotateFaceAt CUBE_SIDE_LEFT CUBE_DIRECTION_CW else cube
      let cube :=
        if col = N - 1 then cube.rotateFaceAt CUBE_SIDE_RIGHT CUBE_DIRECTION_CCW else cube
      some ((List.finRange N).foldl (rotate_column_down_body ⟨col, h⟩) cube)
    else none
  else some cube

/-- Checks whether a face is solved (`check_face`): every block equals `blocks[0][0]`; the
first block that differs makes the C loops return `false`. -/
def check_face (face : CubeFace_t N) : Bool :=
  if h : 0 < N then
    (List.finRange N).all fun i =>
      (List.finRange N).all fun j => decide (face.blocks i j = face.blocks ⟨0, h⟩ ⟨0, h⟩)
  else true

/-! ## API functions of `rubics_cube.c` -/

/-- Resets a cube (`cube_reset`): the three nested loops assign `resetColors[i]` to every
block `[j][k]` of every face `i`, then the cursor is zeroed. -/
def cube_reset (cube : Cube_t N) : Cube_t N :=
  let cube :=
    allSides.foldl
      (fun cube i =>
        (List.finRange N).foldl
          (fun cube j =>
            (List.finRange N).foldl (fun cube k => cube.set i j k (resetColors i)) cube)
          cube)
      cube
  { cube with row := 0, col := 0 }

/-- Rotates the whole cube (`cube_rotate`).  `copy_face(src,dest)` is the face assignment
`dest = src`; `f` is the scratch face of the C code. -/
def cube_rotate (cube : Cube_t N) (dir : CubeDirection_t) : Cube_t N :=
  if dir = CUBE_DIRECTION_UP then
    let f := cube.face CUBE_SIDE_TOP
    let cube := cube.setFace CUBE_SIDE_TOP (cube.face CUBE_SIDE_FRONT)
    let cube := cube.setFace CUBE_SIDE_FRONT (cube.face CUBE_SIDE_BOTTOM)
    let cube := cube.setFace CUBE_SIDE_BOTTOM (cube.face CUBE_SIDE_BACK)
    let cube := cube.setFace CUBE_SIDE_BACK f
    let cube := cube.rotateFaceAt CUBE_SIDE_RIGHT CUBE_DIRECTION_CW
    cube.rotateFaceAt CUBE_SIDE_LEFT CUBE_DIRECTION_CCW
  else if dir = CUBE_DIRECTION_DOWN then
    let f := cube.face CUBE_SIDE_BOTTOM
    let cube := cube.setFace CUBE_SIDE_BOTTOM (cube.face CUBE_SIDE_FRONT)
    let cube := cube.setFace CUBE_SIDE_FRONT (cube.face CUBE_SIDE_TOP)
    let cube := cube.setFace CUBE_SIDE_TOP (cube.face CUBE_SIDE_BACK)
    let cube := cube.setFace CUBE_SIDE_BACK f
    let cube := cube.rotateFaceAt CUBE_SIDE_RIGHT CUBE_DIRECTION_CCW
    cube.rotateFaceAt CUBE_SIDE_LEFT CUBE_DIRECTION_CW
  else if dir = CUBE_DIRECTION_LEFT then
    let f := cube.face CUBE_SIDE_LEFT
    let cube := cube.setFace CUBE_SIDE_LEFT (cube.face CUBE_SIDE_FRONT)
    let cube := cube.setFace CUBE_SIDE_FRONT (cube.face CUBE_SIDE_RIGHT)
    let cube := cube.rotateFaceAt CUBE_SIDE_BACK CUBE_DIRECTION_CW
    let cube := cube.rotateFaceAt CUBE_SIDE_BACK CUBE_DIRECTION_CW
    let cube := cube.setFace CUBE_SIDE_RIGHT (cube.face CUBE_SIDE_BACK)
    let cube := cube.setFace CUBE_SIDE_BACK f
    let cube := cube.rotateFaceAt CUBE_SIDE_BACK CUBE_DIRECTION_CW
    let cube := cube.rotateFaceAt CUBE_SIDE_BACK CUBE_DIRECTION_CW
    let cube := cube.rotateFaceAt CUBE_SIDE_TOP CUBE_DIRECTION_CW
    cube.rotateFaceAt CUBE_SIDE_BOTTOM CUBE_DIRECTION_CCW
  else if dir = CUBE_DIRECTION_RIGHT then
    let f := cube.face CUBE_SIDE_RIGHT
    let cube := cube.setFace CUBE_SIDE_RIGHT (cube.face CUBE_SIDE_FRONT)
    let cube := cube.setFace CUBE_SIDE_FRONT (cube.face CUBE_SIDE_LEFT)
    let cube := cube.rotateFaceAt CUBE_SIDE_BACK CUBE_DIRECTION_CW
    let cube := cube.rotateFaceAt CUBE_SIDE_BACK CUBE_DIRECTION_CW
    let cube := cube.setFace CUBE_SIDE_LEFT (cube.face CUBE_SIDE_BACK)
    let cube := cube.setFace CUBE_SIDE_BACK f
    let cube := cube.rotateFaceAt CUBE_SIDE_BACK CUBE_DIRECTION_CW
    let cube := cube.rotateFaceAt CUBE_SIDE_BACK CUBE_DIRECTION_CW
    let cube := cube.rotateFaceAt CUBE_SIDE_TOP CUBE_DIRECTION_CCW
    cube.rotateFaceAt CUBE_SIDE_BOTTOM CUBE_DIRECTION_CW
  else cube

/-- Rotates the row under the cursor (`cube_rotate_row`). -/
def cube_rotate_row (cube : Cube_t N) (dir : CubeDirection_t) : Option (Cube_t N) :=
  rotate_row cube cube.row dir

/-- Rotates the column under the cursor (`cube_rotate_column`). -/
def cube_rotate_column (cube : Cube_t N) (dir : CubeDirection_t) : Option (Cube_t N) :=
  rotate_column cube cube.col dir

/-- Loop body of `cube_rotate_front_face`, case `CUBE_DIRECTION_CCW`, for loop counter
`i`; `lo` is the index `0` and `hi` the index `CUBE_SIZE-1`. -/
def cube_rotate_front_face_ccw_body (cube : Cube_t N) (i : Fin N) : Cube_t N :=
  let lo : Fin N := ⟨0, by have := i.isLt; omega⟩
  let hi : Fin N := ⟨N - 1, by have := i.isLt; omega⟩
  let c := cube.get CUBE_SIDE_TOP i hi
  let cube := cube.set CUBE_SIDE_TOP i hi (cube.get CUBE_SIDE_RIGHT lo i)
  let cube := cube.set CUBE_SIDE_RIGHT lo i (cube.get CUBE_SIDE_BOTTOM (mirror i) lo)
  let cube := cube.set CUBE_SIDE_BOTTOM (mirror i) lo (cube.get CUBE_SIDE_LEFT hi (mirror i))
  cube.set CUBE_SIDE_LEFT hi (mirror i) c

/-- Loop body of `cube_rotate_front_face`, case `CUBE_DIRECTION_CW`, for loop counter `i`;
`lo` is the index `0` and `hi` the index `CUBE_SIZE-1`. -/
def cube_rotate_front_face_cw_body (cube : Cube_t N) (i : Fin N) : Cube_t N :=
  let lo : Fin N := ⟨0, by have := i.isLt; omega⟩
  let hi : Fin N := ⟨N - 1, by have := i.isLt; omega⟩
  let c := cube.get CUBE_SIDE_TOP i hi
  let cube := cube.set CUBE_SIDE_TOP i hi (cube.get CUBE_SIDE_LEFT hi (mirror i))
  let cube := cube.set CUBE_SIDE_LEFT hi (mirror i) (cube.get CUBE_SIDE_BOTTOM (mirror i) lo)
  let cube := cube.set CUBE_SIDE_BOTTOM (mirror i) lo (cube.get CUBE_SIDE_RIGHT lo i)
  cube.set CUBE_SIDE_RIGHT lo i c

/-- Rotates the front face (`cube_rotate_front_face`): the loop cycles the ring of blocks
around the front face, then the front face itself is rotated; any direction other than
clockwise / counter-clockwise returns at once. -/
def cube_rotate_front_face (cube : Cube_t N) (dir : CubeDirection_t) : Cube_t N :=
  if dir = CUBE_DIRECTION_CCW then
    let cube := (List.finRange N).foldl cube_rotate_front_face_ccw_body cube
    cube.rotateFaceAt CUBE_SIDE_FRONT dir
  else if dir = CUBE_DIRECTION_CW then
    let cube := (List.finRange N).foldl cube_rotate_front_face_cw_body cube
    cube.rotateFaceAt CUBE_SIDE_FRONT dir
  else cube

/-- Checks if the cube is solved (`cube_is_solved`): the first face that fails `check_face`
makes the loop return `false`. -/
def cube_is_solved (cube : Cube_t N) : Bool :=
  allSides.all fun i => check_face (cube.face i)

/-- Moves the row and column cursors (`cube_move_cursor`).  `row` and `col` are `uint8_t`,
so the increment is taken modulo 256. -/
def cube_move_cursor (cube : Cube_t N) (dir : CubeDirection_t) : Cube_t N :=
  if dir = CUBE_DIRECTION_UP then
    if cube.row = 0 then cube else { cube with row := cube.row - 1 }
  else if dir = CUBE_DIRECTION_DOWN then
    if cube.row = N - 1 then cube else { cube with row := (cube.row + 1) % 256 }
  else if dir = CUBE_DIRECTION_LEFT then
    if cube.col = 0 then cube else { cube with col := cube.col - 1 }
  else if dir = CUBE_DIRECTION_RIGHT then
    if cube.col = N - 1 then cube else { cube with col := (cube.col + 1) % 256 }
  else cube

/-! ## Facelet positions moved by the operations

Every operation of the engine moves colours between facelet positions.  The functions
below name, for each position of the result, the position its colour comes from. -/

/-- Assignment to the block at a position. -/
def Cube_t.put (cube : Cube_t N) (p : Pos N) (c : CubeColor_t) : Cube_t N :=
  cube.set p.1 p.2.1 p.2.2 c

/-- The five assignments `c=p0; p0=p1; p1=p2; p2=p3; p3=c` shared by every loop body. -/
def Cube_t.cycle4 (cube : Cube_t N) (p0 p1 p2 p3 : Pos N) : Cube_t N :=
  let c := cube.colorAt p0
  let cube := cube.put p0 (cube.colorAt p1)
  let cube := cube.put p1 (cube.colorAt p2)
  let cube := cube.put p2 (cube.colorAt p3)
  cube.put p3 c

/-- Moves a position `d` slots along a ring of blocks: `pos k i` is the block of slot `k`
visited by loop counter `i`, and `slot` recovers `(k, i)` from a position on the ring. -/
def ringShift (pos : Fin 4 → Fin N → Pos N) (slot : Pos N → Option (Fin 4 × Fin N))
    (d : Fin 4) (q : Pos N) : Pos N :=
  match slot q with
  | some (k, i) => pos (k + d) i
  | none => q

/-- The same move restricted to the loop counters in `l`: the state of a loop that has so
far run through `l`. -/
def ringShiftOn (pos : Fin 4 → Fin N → Pos N) (slot : Pos N → Option (Fin 4 × Fin N))
    (l : List (Fin N)) (d : Fin 4) (q : Pos N) : Pos N :=
  match slot q with
  | some (k, i) => if i ∈ l then pos (k + d) i else q
  | none => q

/-- The ring of `rotate_row`: `Left[i][row]`, `Front[i][row]`, `Right[i][row]`,
`Back[N-1-i][N-1-row]`. -/
def rowPos (row : Fin N) (k : Fin 4) (i : Fin N) : Pos N :=
  match k with
  | 0 => (CUBE_SIDE_LEFT, i, row)
  | 1 => (CUBE_SIDE_FRONT, i, row)
  | 2 => (CUBE_SIDE_RIGHT, i, row)
  | 3 => (CUBE_SIDE_BACK, mirror i, mirror row)

/-- Slot and loop counter of a position on the ring of `rotate_row`. -/
def rowSlot (row : Fin N) (q : Pos N) : Option (Fin 4 × Fin N) :=
  match q.1 with
  | CUBE_SIDE_LEFT => if q.2.2 = row then some (0, q.2.1) else none
  | CUBE_SIDE_FRONT => if q.2.2 = row then some (1, q.2.1) else none
  | CUBE_SIDE_RIGHT => if q.2.2 = row then some (2, q.2.1) else none
  | CUBE_SIDE_BACK => if q.2.2 = mirror row then some (3, mirror q.2.1) else none
  | _ => none

/-- The ring of `rotate_column`: `Top[col][i]`, `Front[col][i]`, `Bottom[col][i]`,
`Back[col][i]`. -/
def colPos (col : Fin N) (k : Fin 4) (i : Fin N) : Pos N :=
  match k with
  | 0 => (CUBE_SIDE_TOP, col, i)
  | 1 => (CUBE_SIDE_FRONT, col, i)
  | 2 => (CUBE_SIDE_BOTTOM, col, i)
  | 3 => (CUBE_SIDE_BACK, col, i)

/-- Slot and loop counter of a position on the ring of `rotate_column`. -/
def colSlot (col : Fin N) (q : Pos N) : Option (Fin 4 × Fin N) :=
  match q.1 with
  | CUBE_SIDE_TOP => if q.2.1 = col then some (0, q.2.2) else none
  | CUBE_SIDE_FRONT => if q.2.1 = col then some (1, q.2.2) else none
  | CUBE_SIDE_BOTTOM => if q.2.1 = col then some (2, q.2.2) else none
  | CUBE_SIDE_BACK => if q.2.1 = col then some (3, q.2.2) else none
  | _ => none

/-- The ring of `cube_rotate_front_face`: `Top[i][N-1]`, `Right[0][i]`, `Bottom[N-1-i][0]`,
`Left[N-1][N-1-i]`. -/
def frontPos (k : Fin 4) (i : Fin N) : Pos N :=
  let lo : Fin N := ⟨0, by have := i.isLt; omega⟩
  let hi : Fin N := ⟨N - 1, by have := i.isLt; omega⟩
  match k with
  | 0 => (CUBE_SIDE_TOP, i, hi)
  | 1 => (CUBE_SIDE_RIGHT, lo, i)
  | 2 => (CUBE_SIDE_BOTTOM, mirror i, lo)
  | 3 => (CUBE_SIDE_LEFT, hi, mirror i)

/-- Slot and loop counter of a position on the ring of `cube_rotate_front_face`. -/
def frontSlot (q : Pos N) : Option (Fin 4 × Fin N) :=
  match q.1 with
  | CUBE_SIDE_TOP => if q.2.2.val = N - 1 then some (0, q.2.1) else none
  | CUBE_SIDE_RIGHT => if q.2.1.val = 0 then some (1, q.2.2) else none
  | CUBE_SIDE_BOTTOM => if q.2.2.val = 0 then some (2, mirror q.2.1) else none
  | CUBE_SIDE_LEFT => if q.2.1.val = N - 1 then some (3, mirror q.2.2) else none
  | _ => none

/-- Where the colour of a position comes from when face `s` is rotated by
`rotate_face(&cube->face[s],dir)`. -/
def faceSrc (s : CubeSide_t) (dir : CubeDirection_t) (q : Pos N) : Pos N :=
  if q.1 = s then
    if dir = CUBE_DIRECTION_CW then (q.1, q.2.2, mirror q.2.1)
    else if dir = CUBE_DIRECTION_CCW then (q.1, mirror q.2.2, q.2.1)
    else q
  else q

/-- The cube whose block at every position `q` is the block of `cube` at `src q`; the
cursor is kept. -/
def Cube_t.remap (cube : Cube_t N) (src : Pos N → Pos N) : Cube_t N :=
  { face := fun s => ⟨fun a b => cube.colorAt (src (s, a, b))⟩
    row := cube.row
    col := cube.col }

/-- Where `rotate_row(cube,row,dir)` takes the colour of each position from. -/
def rotate_row_src (row : Fin N) (dir : CubeDirection_t) (q : Pos N) : Pos N :=
  if dir = CUBE_DIRECTION_LEFT then
    let q := ringShift (rowPos row) (rowSlot row) 1 q
    let q := if row.val = N - 1 then faceSrc CUBE_SIDE_BOTTOM CUBE_DIRECTION_CCW q else q
    if row.val = 0 then faceSrc CUBE_SIDE_TOP CUBE_DIRECTION_CW q else q
  else if dir = CUBE_DIRECTION_RIGHT then
    let q := ringShift (rowPos row) (rowSlot row) 3 q
    let q := if row.val = N - 1 then faceSrc CUBE_SIDE_BOTTOM CUBE_DIRECTION_CW q else q
    if row.val = 0 then faceSrc CUBE_SIDE_TOP CUBE_DIRECTION_CCW q else q
  else q

/-- Where `rotate_column(cube,col,dir)` takes the colour of each position from. -/
def rotate_column_src (col : Fin N) (dir : CubeDirection_t) (q : Pos N) : Pos N :=
  if dir = CUBE_DIRECTION_UP then
    let q := ringShift (colPos col) (colSlot col) 1 q
    let q := if col.val = N - 1 then faceSrc CUBE_SIDE_RIGHT CUBE_DIRECTION_CW q else q
    if col.val = 0 then faceSrc CUBE_SIDE_LEFT CUBE_DIRECTION_CCW q else q
  else if dir = CUBE_DIRECTION_DOWN then
    let q := ringShift (colPos col) (colSlot col) 3 q
    let q := if col.val = N - 1 then faceSrc CUBE_SIDE_RIGHT CUBE_DIRECTION_CCW q else q
    if col.val = 0 then faceSrc CUBE_SIDE_LEFT CUBE_DIRECTION_CW q else q
  else q

/-- Where `cube_rotate(cube,dir)` takes the colour of each position from. -/
def cube_rotate_src (dir : CubeDirection_t) (q : Pos N) : Pos N :=
  if dir = CUBE_DIRECTION_UP then
    match q.1 with
    | CUBE_SIDE_TOP => (CUBE_SIDE_FRONT, q.2.1, q.2.2)
    | CUBE_SIDE_FRONT => (CUBE_SIDE_BOTTOM, q.2.1, q.2.2)
    | CUBE_SIDE_BOTTOM => (CUBE_SIDE_BACK, q.2.1, q.2.2)
    | CUBE_SIDE_BACK => (CUBE_SIDE_TOP, q.2.1, q.2.2)
    | CUBE_SIDE_RIGHT => (CUBE_SIDE_RIGHT, q.2.2, mirror q.2.1)
    | CUBE_SIDE_LEFT => (CUBE_SIDE_LEFT, mirror q.2.2, q.2.1)
  else if dir = CUBE_DIRECTION_DOWN then
    match q.1 with
    | CUBE_SIDE_BOTTOM => (CUBE_SIDE_FRONT, q.2.1, q.2.2)
    | CUBE_SIDE_FRONT => (CUBE_SIDE_TOP, q.2.1, q.2.2)
    | CUBE_SIDE_TOP => (CUBE_SIDE_BACK, q.2.1, q.2.2)
    | CUBE_SIDE_BACK => (CUBE_SIDE_BOTTOM, q.2.1, q.2.2)
    | CUBE_SIDE_RIGHT => (CUBE_SIDE_RIGHT, mirror q.2.2, q.2.1)
    | CUBE_SIDE_LEFT => (CUBE_SIDE_LEFT, q.2.2, mirror q.2.1)
  else if dir = CUBE_DIRECTION_LEFT then
    match q.1 with
    | CUBE_SIDE_LEFT => (CUBE_SIDE_FRONT, q.2.1, q.2.2)
    | CUBE_SIDE_FRONT => (CUBE_SIDE_RIGHT, q.2.1, q.2.2)
    | CUBE_SIDE_RIGHT => (CUBE_SIDE_BACK, mirror q.2.1, mirror q.2.2)
    | CUBE_SIDE_BACK => (CUBE_SIDE_LEFT, mirror q.2.1, mirror q.2.2)
    | CUBE_SIDE_TOP => (CUBE_SIDE_TOP, q.2.2, mirror q.2.1)
    | CUBE_SIDE_BOTTOM => (CUBE_SIDE_BOTTOM, mirror q.2.2, q.2.1)
  else if dir = CUBE_DIRECTION_RIGHT then
    match q.1 with
    | CUBE_SIDE_RIGHT => (CUBE_SIDE_FRONT, q.2.1, q.2.2)
    | CUBE_SIDE_FRONT => (CUBE_SIDE_LEFT, q.2.1, q.2.2)
    | CUBE_SIDE_LEFT => (CUBE_SIDE_BACK, mirror q.2.1, mirror q.2.2)
    | CUBE_SIDE_BACK => (CUBE_SIDE_RIGHT, mirror q.2.1, mirror q.2.2)
    | CUBE_SIDE_TOP => (CUBE_SIDE_TOP, mirror q.2.2, q.2.1)
    | CUBE_SIDE_BOTTOM => (CUBE_SIDE_BOTTOM, q.2.2, mirror q.2.1)
  else q

/-- Where `cube_rotate_front_face(cube,dir)` takes the colour of each position from. -/
def cube_rotate_front_face_src (dir : CubeDirection_t) (q : Pos N) : Pos N :=
  if dir = CUBE_DIRECTION_CCW then
    ringShift frontPos frontSlot 1 (faceSrc CUBE_SIDE_FRONT CUBE_DIRECTION_CCW q)
  else if dir = CUBE_DIRECTION_CW then
    ringShift frontPos frontSlot 3 (faceSrc CUBE_SIDE_FRONT CUBE_DIRECTION_CW q)
  else q

/-! ## Colour census and sequences of engine operations -/

/-- Number of facelets of colour `k` among the `6*N*N` facelets of the cube. -/
def Cube_t.count (cube : Cube_t N) (k : CubeColor_t) : Nat :=
  (Finset.univ.filter fun p : Pos N => cube.colorAt p = k).card

/-- A call of one of the engine operations that transform a cube, with its direction
argument. -/
inductive EngineOp where
  | rotate (dir : CubeDirection_t)
  | rotate_row (dir : CubeDirection_t)
  | rotate_column (dir : CubeDirection_t)
  | rotate_front_face (dir : CubeDirection_t)
  | move_cursor (dir : CubeDirection_t)

/-- Performs one engine call. -/
def applyOp (cube : Cube_t N) : EngineOp → Option (Cube_t N)
  | .rotate dir => some (cube_rotate cube dir)
  | .rotate_row dir => cube_rotate_row cube dir
  | .rotate_column dir => cube_rotate_column cube dir
  | .rotate_front_face dir => some (cube_rotate_front_face cube dir)
  | .move_cursor dir => some (cube_move_cursor cube dir)

/-- Performs a sequence of engine calls, first to last. -/
def applyOps (cube : Cube_t N) : List EngineOp → Option (Cube_t N)
  | [] => some cube
  | op :: ops => (applyOp cube op).bind fun c => applyOps c ops

/-- The reset cube of the shipped size, used for concrete evaluations: front white, back
yellow, top red, bottom orange, left blue, right green. -/
def solved3 : Cube_t 3 :=
  cube_reset ⟨fun _ => ⟨fun _ _ => CUBE_COLOR_BLUE⟩, 0, 0⟩

/-- A 3×3×3 cube reached from the reset cube by a clockwise front twist followed by a
whole-cube rotation up: its front face carries green in the blocks `[·][0]` and orange
elsewhere, so it tells the block `[2][0]` from the block `[0][2]`. -/
def twisted3 : Cube_t 3 :=
  cube_rotate (cube_rotate_front_face solved3 CUBE_DIRECTION_CW) CUBE_DIRECTION_UP

/-! ## Shuffle (`cube_shuffle`) -/

/-- The body of the inner loop of `cube_shuffle`: the three calls
`rotate_row(cube,row,dir); rotate_column(cube,col,dir); cube_rotate_front_face(cube,dir);`. -/
def shuffle_pass (cube : Cube_t N) (row col : Nat) (dir : CubeDirection_t) :
    Option (Cube_t N) :=
  match rotate_row cube row dir with
  | none => none
  | some cube =>
    match rotate_column cube col dir with
    | none => none
    | some cube => some (cube_rotate_front_face cube dir)

/-- The inner loop `for(j=0;j<rand()%(CUBE_SIZE-1);j++){...}` of `cube_shuffle`, entered
with counter `j` when `k` values of `rand()` have been consumed.  The loop condition calls
`rand()` every time it is evaluated.  Returns the cube and the number of values consumed. -/
def shuffle_inner (rand : Nat → Nat) (hN : 2 ≤ N) (row col : Nat) (dir : CubeDirection_t)
    (j k : Nat) (cube : Cube_t N) : Option (Cube_t N × Nat) :=
  if j < rand k % (N - 1) then
    match shuffle_pass cube row col dir with
    | none => none
    | some cube => shuffle_inner rand hN row col dir (j + 1) (k + 1) cube
  else some (cube, k + 1)
termination_by N - 1 - j
decreasing_by
  have := Nat.mod_lt (rand k) (show 0 < N - 1 by omega)
  omega

/-- The outer loop of `cube_shuffle` with `n` iterations left: `row`, `col` (both
`uint8_t`) and `dir` are drawn with three calls of `rand()`, then the inner loop runs. -/
def shuffle_outer (rand : Nat → Nat) (hN : 2 ≤ N) :
    Nat → Nat → Cube_t N → Option (Cube_t N × Nat)
  | 0, k, cube => some (cube, k)
  | n + 1, k, cube =>
    let row := rand k % (N - 1) % 256
    let col := rand (k + 1) % (N - 1) % 256
    let dir : CubeDirection_t := ((rand (k + 2) % 5 : Nat) : Int)
    match shuffle_inner rand hN row col dir 0 (k + 3) cube with
    | none => none
    | some (cube, k) => shuffle_outer rand hN n k cube

/-- Shuffles a cube (`cube_shuffle`): 1000 outer iterations.  `CUBE_DIRECTION_COUNT-1` is
5.  For `N = 1` the modulus `CUBE_SIZE-1` is zero (undefined behaviour), reported as
`none` like an index outside a face. -/
def cube_shuffle (rand : Nat → Nat) (cube : Cube_t N) : Option (Cube_t N) :=
  if hN : 2 ≤ N then (shuffle_outer rand hN 1000 0 cube).map Prod.fst else none

/-- A call of one of the layer turns with an index within the face, or of the front
twist. -/
inductive LegalMove (N : Nat) where
  | row (r : Fin N) (dir : CubeDirection_t)
  | column (c : Fin N) (dir : CubeDirection_t)
  | front (dir : CubeDirection_t)

/-- Performs one such call. -/
def applyMove (cube : Cube_t N) : LegalMove N → Option (Cube_t N)
  | .row r dir => rotate_row cube r.val dir
  | .column c dir => rotate_column cube c.val dir
  | .front dir => some (cube_rotate_front_face cube dir)

/-- Performs a sequence of such calls, first to last. -/
def applyMoves (cube : Cube_t N) : List (LegalMove N) → Option (Cube_t N)
  | [] => some cube
  | m :: ms => (applyMove cube m).bind fun c => applyMoves c ms

/-! ## Compositions of engine calls -/

/-- The calls `rotate_column(cube,c,dir)` for each column index `c` of the list, first to
last. -/
def turn_columns (cube : Cube_t N) (dir : CubeDirection_t) :
    List (Fin N) → Option (Cube_t N)
  | [] => some cube
  | c :: cs => (rotate_column cube c.val dir).bind fun cube => turn_columns cube dir cs

/-- The calls `rotate_row(cube,r,dir)` for each row index `r` of the list, first to last. -/
def turn_rows (cube : Cube_t N) (dir : CubeDirection_t) : List (Fin N) → Option (Cube_t N)
  | [] => some cube
  | r :: rs => (rotate_row cube r.val dir).bind fun cube => turn_rows cube dir rs

/-- The three calls `cube_rotate(cube,CUBE_DIRECTION_UP); rotate_row(cube,0,rowDir);
cube_rotate(cube,CUBE_DIRECTION_DOWN);`. -/
def front_twist_by_row_turn (cube : Cube_t N) (rowDir : CubeDirection_t) :
    Option (Cube_t N) :=
  match rotate_row (cube_rotate cube CUBE_DIRECTION_UP) 0 rowDir with
  | none => none
  | some cube => some (cube_rotate cube CUBE_DIRECTION_DOWN)

/-! ## The passes of `cube_shuffle`

The loops of `cube_shuffle` are controlled by `rand()` alone; the functions below run the
same loops and list, instead of performing them, the passes of the inner loop with the
`row`, `col` and `dir` they hand to the three calls. -/

/-- The arguments of one pass `rotate_row(cube,row,dir); rotate_column(cube,col,dir);
cube_rotate_front_face(cube,dir);` of the inner loop. -/
structure ShufflePass where
  row : Nat
  col : Nat
  dir : CubeDirection_t
  deriving DecidableEq, Repr

/-- The passes of the inner loop of `cube_shuffle` entered with counter `j` when `k` values
of `rand()` have been consumed, and the number of values consumed when it ends. -/
def shuffle_inner_passes (rand : Nat → Nat) (hN : 2 ≤ N) (row col : Nat)
    (dir : CubeDirection_t) (j k : Nat) : List ShufflePass × Nat :=
  if j < rand k % (N - 1) then
    let rest := shuffle_inner_passes rand hN row col dir (j + 1) (k + 1)
    (⟨row, col, dir⟩ :: rest.1, rest.2)
  else ([], k + 1)
termination_by N - 1 - j
decreasing_by
  have := Nat.mod_lt (rand k) (show 0 < N - 1 by omega)
  omega

/-- The passes of `n` iterations of the outer loop of `cube_shuffle`, one list for each
iteration, when `k` values of `rand()` have been consumed. -/
def shuffle_outer_passes (rand : Nat → Nat) (hN : 2 ≤ N) : Nat → Nat → List (List ShufflePass)
  | 0, _ => []
  | n + 1, k =>
    let row := rand k % (N - 1) % 256
    let col := rand (k + 1) % (N - 1) % 256
    let dir : CubeDirection_t := ((rand (k + 2) % 5 : Nat) : Int)
    let inner := shuffle_inner_passes rand hN row col dir 0 (k + 3)
    inner.1 :: shuffle_outer_passes rand hN n inner.2

/-- The passes of `cube_shuffle`, one list for each of the 1000 outer iterations. -/
def shuffle_passes (rand : Nat → Nat) (hN : 2 ≤ N) : List (List ShufflePass) :=
  shuffle_outer_passes rand hN 1000 0

/-- Performs the passes of a list, first to last. -/
def run_passes (cube : Cube_t N) : List ShufflePass → Option (Cube_t N)
  | [] => some cube
  | p :: ps => (shuffle_pass cube p.row p.col p.dir).bind fun cube => run_passes cube ps

/-! ## Game layer (`rubics_cube_game.h`, `rubics_cube_game.c`) -/

/-- Game controls (`CubeGameControl_t`): a C enumeration, hence an integer. -/
abbrev CubeGameControl_t := Int

def GAME_CONTROL_NEW : CubeGameControl_t := 0
def GAME_CONTROL_EXIT : CubeGameControl_t := 1
def GAME_CONTROL_MOVE_CURSOR_UP : CubeGameControl_t := 2
def GAME_CONTROL_MOVE_CURSOR_DOWN : CubeGameControl_t := 3
def GAME_CONTROL_MOVE_CURSOR_LEFT : CubeGameControl_t := 4
def GAME_CONTROL_MOVE_CURSOR_RIGHT : CubeGameControl_t := 5
def GAME_CONTROL_ROTATE_ROW_LEFT : CubeGameControl_t := 6
def GAME_CONTROL_ROTATE_ROW_RIGHT : CubeGameControl_t := 7
def GAME_CONTROL_ROTATE_COL_UP : CubeGameControl_t := 8
def GAME_CONTROL_ROTATE_COL_DOWN : CubeGameControl_t := 9
def GAME_CONTROL_ROTATE_CUBE_UP : CubeGameControl_t := 10
def GAME_CONTROL_ROTATE_CUBE_DOWN : CubeGameControl_t := 11
def GAME_CONTROL_ROTATE_CUBE_LEFT : CubeGameControl_t := 12
def GAME_CONTROL_ROTATE_CUBE_RIGHT : CubeGameControl_t := 13
def GAME_CONTROL_ROTATE_FRONT_FACE_CW : CubeGameControl_t := 14
def GAME_CONTROL_ROTATE_FRONT_FACE_CCW : CubeGameControl_t := 15
def GAME_CONTROL_UNKNOWN : CubeGameControl_t := 16

/-- Game instance data (`CubeGame_t`) without the two driver tables, which the functions
below never change: `turns` is `uint32_t`, `time` a `time_t`. -/
@[ext]
structure CubeGame_t (N : Nat) where
  turns : Nat
  time : Nat
  cube : Cube_t N
  isSolved : Bool

/-- A call of a driver function through the graphics or input table. -/
inductive DriverCall where
  | graphicsInit
  | inputInit
  | drawCube
  | printStatistics (turns : Nat) (time : Nat)
  | inputGet
  | cubeSolved
  deriving DecidableEq, Repr

/-- Resets a game (`reset_game`): reset and shuffle the cube, zero the turn counter, take
the time `now` returned by `time()`, clear the solved flag. -/
def reset_game (game : CubeGame_t N) (rand : Nat → Nat) (now : Nat) :
    Option (CubeGame_t N) :=
  match cube_shuffle rand (cube_reset game.cube) with
  | none => none
  | some cube => some { game with cube := cube, turns := 0, time := now, isSolved := false }

/-- Initializes a game (`cube_game_init`): both driver init functions, then `reset_game`.
Returns the game and the driver calls made. -/
def cube_game_init (game : CubeGame_t N) (rand : Nat → Nat) (now : Nat) :
    Option (CubeGame_t N × List DriverCall) :=
  match reset_game game rand now with
  | none => none
  | some game => some (game, [DriverCall.graphicsInit, DriverCall.inputInit])

/-- What one call of `cube_game_run` leaves: the returned Boolean, the game, and the driver
calls made, in order. -/
structure RunResult (N : Nat) where
  ret : Bool
  game : CubeGame_t N
  calls : List DriverCall

/-- The second `switch(c)` of `cube_game_run`: the engine call of the control; the six
turn controls first increment `turns` (`uint32_t`); any other control does nothing. -/
def game_control_switch (game : CubeGame_t N) (c : CubeGameControl_t) :
    Option (CubeGame_t N) :=
  if c = GAME_CONTROL_MOVE_CURSOR_UP then
    some { game with cube := cube_move_cursor game.cube CUBE_DIRECTION_UP }
  else if c = GAME_CONTROL_MOVE_CURSOR_DOWN then
    some { game with cube := cube_move_cursor game.cube CUBE_DIRECTION_DOWN }
  else if c = GAME_CONTROL_MOVE_CURSOR_LEFT then
    some { game with cube := cube_move_cursor game.cube CUBE_DIRECTION_LEFT }
  else if c = GAME_CONTROL_MOVE_CURSOR_RIGHT then
    some { game with cube := cube_move_cursor game.cube CUBE_DIRECTION_RIGHT }
  else if c = GAME_CONTROL_ROTATE_CUBE_UP then
    some { game with cube := cube_rotate game.cube CUBE_DIRECTION_UP }
  else if c = GAME_CONTROL_ROTATE_CUBE_DOWN then
    some { game with cube := cube_rotate game.cube CUBE_DIRECTION_DOWN }
  else if c = GAME_CONTROL_ROTATE_CUBE_LEFT then
    some { game with cube := cube_rotate game.cube CUBE_DIRECTION_LEFT }
  else if c = GAME_CONTROL_ROTATE_CUBE_RIGHT then
    some { game with cube := cube_rotate game.cube CUBE_DIRECTION_RIGHT }
  else if c = GAME_CONTROL_ROTATE_COL_UP then
    match cube_rotate_column game.cube CUBE_DIRECTION_UP with
    | none => none
    | some cube => some { game with turns := (game.turns + 1) % 2 ^ 32, cube := cube }
  else if c = GAME_CONTROL_ROTATE_COL_DOWN then
    match cube_rotate_column game.cube CUBE_DIRECTION_DOWN with
    | none => none
    | some cube => some { game with turns := (game.turns + 1) % 2 ^ 32, cube := cube }
  else if c = GAME_CONTROL_ROTATE_ROW_LEFT then
    match cube_rotate_row game.cube CUBE_DIRECTION_LEFT with
    | none => none
    | some cube => some { game with turns := (game.turns + 1) % 2 ^ 32, cube := cube }
  else if c = GAME_CONTROL_ROTATE_ROW_RIGHT then
    match cube_rotate_row game.cube CUBE_DIRECTION_RIGHT with
    | none => none
    | some cube => some { game with turns := (game.turns + 1) % 2 ^ 32, cube := cube }
  else if c = GAME_CONTROL_ROTATE_FRONT_FACE_CCW then
    some { game with
      turns := (game.turns + 1) % 2 ^ 32
      cube := cube_rotate_front_face game.cube CUBE_DIRECTION_CCW }
  else if c = GAME_CONTROL_ROTATE_FRONT_FACE_CW then
    some { game with
      turns := (game.turns + 1) % 2 ^ 32
      cube := cube_rotate_front_face game.cube CUBE_DIRECTION_CW }
  else some game

/-- The part of `cube_game_run` after the first `switch(c)`: return at once when the game
is solved, else the engine call, the solved check and the solved notification.  `calls`
are the driver calls made so far. -/
def cube_game_run_rest (game : CubeGame_t N) (c : CubeGameControl_t)
    (calls : List DriverCall) : Option (RunResult N) :=
  if game.isSolved then some ⟨true, game, calls⟩
  else
    match game_control_switch game c with
    | none => none
    | some game =>
      let game := { game with isSolved := cube_is_solved game.cube }
      if game.isSolved then some ⟨true, game, calls ++ [DriverCall.cubeSolved]⟩
      else some ⟨true, game, calls⟩

/-- Runs a game (`cube_game_run`) for the control `c` that `input.funcGet()` returns: draw
the cube, print the statistics, read the control; `GAME_CONTROL_NEW` resets the game,
`GAME_CONTROL_EXIT` returns `false`; then the rest of the function. -/
def cube_game_run (game : CubeGame_t N) (c : CubeGameControl_t) (rand : Nat → Nat)
    (now : Nat) : Option (RunResult N) :=
  let calls :=
    [DriverCall.drawCube, DriverCall.printStatistics game.turns game.time,
      DriverCall.inputGet]
  if c = GAME_CONTROL_NEW then
    match reset_game game rand now with
    | none => none
    | some game => cube_game_run_rest game c calls
  else if c = GAME_CONTROL_EXIT then some ⟨false, game, calls⟩
  else cube_game_run_rest game c calls

/-- A game in progress on the cube `twisted3`, used for concrete evaluations. -/
def sampleGame : CubeGame_t 3 :=
  { turns := 41, time := 0, cube := twisted3, isSolved := false }

/-- A game one counter-clockwise front twist away from solved, used for concrete
evaluations. -/
def nearlySolvedGame : CubeGame_t 3 :=
  { turns := 7, time := 0, cube := cube_rotate_front_face solved3 CUBE_DIRECTION_CW,
    isSolved := false }

/-- A game whose flag `isSolved` is set, on the reset cube, used for concrete
evaluations. -/
def solvedGame : CubeGame_t 3 :=
  { turns := 12, time := 0, cube := solved3, isSolved := true }

/-! # Properties -/
@[simp]
theorem mirror_val (i : Fin N) : (mirror i).val = N - 1 - i.val := rfl

@[simp]
theorem mirror_mirror (i : Fin N) : mirror (mirror i) = i := by
  apply Fin.ext
  have := i.isLt
  simp only [mirror_val]
  omega

theorem mirror_injective {i j : Fin N} (h : mirror i = mirror j) : i = j := by
  have := congrArg mirror h
  simpa using this

@[simp]
theorem mirror_inj (i j : Fin N) : mirror i = mirror j ↔ i = j :=
  ⟨mirror_injective, fun h => by rw [h]⟩

theorem mirror_eq_iff (i j : Fin N) : mirror i = j ↔ i = mirror j := by
  constructor
  · intro h; rw [← h, mirror_mirror]
  · intro h; rw [h, mirror_mirror]

@[simp]
theorem get_set (cube : Cube_t N) (s t : CubeSide_t) (i j a b : Fin N) (c : CubeColor_t) :
    (cube.set s i j c).get t a b = if t = s ∧ a = i ∧ b = j then c else cube.get t a b := by
  unfold Cube_t.set Cube_t.get
  by_cases h : t = s
  · by_cases h2 : a = i ∧ b = j
    · simp [h, h2]
    · simp only [h, if_true, true_and, h2, if_false]
  · simp [h]

@[simp]
theorem row_set (cube : Cube_t N) (s : CubeSide_t) (i j : Fin N) (c : CubeColor_t) :
    (cube.set s i j c).row = cube.row := rfl

@[simp]
theorem col_set (cube : Cube_t N) (s : CubeSide_t) (i j : Fin N) (c : CubeColor_t) :
    (cube.set s i j c).col = cube.col := rfl

@[simp]
theorem get_setFace (cube : Cube_t N) (s t : CubeSide_t) (f : CubeFace_t N) (a b : Fin N) :
    (cube.setFace s f).get t a b = if t = s then f.blocks a b else cube.get t a b := by
  unfold Cube_t.setFace Cube_t.get
  by_cases h : t = s <;> simp [h]

@[simp]
theorem face_setFace (cube : Cube_t N) (s t : CubeSide_t) (f : CubeFace_t N) :
    (cube.setFace s f).face t = if t = s then f else cube.face t := rfl

@[simp]
theorem row_setFace (cube : Cube_t N) (s : CubeSide_t) (f : CubeFace_t N) :
    (cube.setFace s f).row = cube.row := rfl

@[simp]
theorem col_setFace (cube : Cube_t N) (s : CubeSide_t) (f : CubeFace_t N) :
    (cube.setFace s f).col = cube.col := rfl

/-- Two cubes are equal when they agree on every facelet and on the cursor. -/
theorem Cube_t.ext_colorAt {c1 c2 : Cube_t N} (h : ∀ q, c1.colorAt q = c2.colorAt q)
    (hr : c1.row = c2.row) (hc : c1.col = c2.col) : c1 = c2 := by
  apply Cube_t.ext _ hr hc
  funext s
  apply CubeFace_t.ext
  funext a b
  exact h (s, a, b)

@[simp]
theorem colorAt_put (cube : Cube_t N) (p q : Pos N) (c : CubeColor_t) :
    (cube.put p c).colorAt q = if q = p then c else cube.colorAt q := by
  obtain ⟨s, i, j⟩ := p
  obtain ⟨t, a, b⟩ := q
  simp [Cube_t.put, Cube_t.colorAt, Prod.ext_iff]

@[simp]
theorem row_put (cube : Cube_t N) (p : Pos N) (c : CubeColor_t) :
    (cube.put p c).row = cube.row := rfl

@[simp]
theorem col_put (cube : Cube_t N) (p : Pos N) (c : CubeColor_t) :
    (cube.put p c).col = cube.col := rfl

/-- One pass of the five assignments on four distinct blocks moves each colour one block
back along `p0 ← p1 ← p2 ← p3 ← p0`. -/
theorem colorAt_cycle4 (cube : Cube_t N) (p0 p1 p2 p3 q : Pos N)
    (h01 : p0 ≠ p1) (h02 : p0 ≠ p2) (h03 : p0 ≠ p3) (h12 : p1 ≠ p2) (h13 : p1 ≠ p3)
    (h23 : p2 ≠ p3) :
    (cube.cycle4 p0 p1 p2 p3).colorAt q =
      cube.colorAt (if q = p0 then p1 else if q = p1 then p2 else if q = p2 then p3
        else if q = p3 then p0 else q) := by
  have h10 := Ne.symm h01
  have h20 := Ne.symm h02
  have h30 := Ne.symm h03
  have h21 := Ne.symm h12
  have h31 := Ne.symm h13
  have h32 := Ne.symm h23
  simp only [Cube_t.cycle4, colorAt_put]
  by_cases e3 : q = p3
  · rw [e3]; simp [*]
  · by_cases e2 : q = p2
    · rw [e2]; simp [*]
    · by_cases e1 : q = p1
      · rw [e1]; simp [*]
      · by_cases e0 : q = p0
        · rw [e0]; simp [*]
        · simp [*]

@[simp]
theorem row_cycle4 (cube : Cube_t N) (p0 p1 p2 p3 : Pos N) :
    (cube.cycle4 p0 p1 p2 p3).row = cube.row := rfl

@[simp]
theorem col_cycle4 (cube : Cube_t N) (p0 p1 p2 p3 : Pos N) :
    (cube.cycle4 p0 p1 p2 p3).col = cube.col := rfl


section Ring

variable {pos : Fin 4 → Fin N → Pos N} {slot : Pos N → Option (Fin 4 × Fin N)}

theorem ring_pos_inj (h1 : ∀ k i, slot (pos k i) = some (k, i)) {k k' : Fin 4} {i i' : Fin N}
    (h : pos k i = pos k' i') : k = k' ∧ i = i' := by
  have e := h1 k i
  rw [h, h1 k' i'] at e
  simp only [Option.some.injEq, Prod.mk.injEq] at e
  exact ⟨e.1.symm, e.2.symm⟩

theorem ring_pos_eq_iff (h1 : ∀ k i, slot (pos k i) = some (k, i)) (k k' : Fin 4)
    (i i' : Fin N) : pos k i = pos k' i' ↔ k = k' ∧ i = i' :=
  ⟨ring_pos_inj h1, fun h => by rw [h.1, h.2]⟩

/-- One pass of a loop body at counter `x`, as a move of positions. -/
theorem colorAt_ring_step (h1 : ∀ k i, slot (pos k i) = some (k, i))
    (h2 : ∀ q k i, slot q = some (k, i) → pos k i = q) (k0 d : Fin 4) (hd : d = 1 ∨ d = 3)
    (cube : Cube_t N) (x : Fin N) (q : Pos N) :
    (cube.cycle4 (pos k0 x) (pos (k0 + d) x) (pos (k0 + 2 * d) x)
        (pos (k0 + 3 * d) x)).colorAt q =
      cube.colorAt (ringShiftOn pos slot [x] d q) := by
  rw [colorAt_cycle4]
  · congr 1
    unfold ringShiftOn
    cases hs : slot q with
    | none =>
      have hne : ∀ k, q ≠ pos k x := by
        intro k hk
        rw [hk, h1] at hs
        exact Option.noConfusion hs
      simp [hne]
    | some ki =>
      obtain ⟨k, i⟩ := ki
      have hq := (h2 q k i hs).symm
      simp only [List.mem_singleton]
      by_cases hix : i = x
      · subst hix
        simp only [hq, ring_pos_eq_iff h1, and_true, if_true]
        rcases hd with rfl | rfl <;> fin_cases k0 <;> fin_cases k <;> simp
      · have hne : ∀ k', q ≠ pos k' x := by
          intro k' hk
          rw [hq] at hk
          exact hix (ring_pos_inj h1 hk).2
        simp [hne, hix]
  all_goals
    intro h
    have := (ring_pos_inj h1 h).1
    revert this
    rcases hd with rfl | rfl <;> fin_cases k0 <;> simp


theorem ringShiftOn_nil (d : Fin 4) (q : Pos N) : ringShiftOn pos slot [] d q = q := by
  unfold ringShiftOn
  cases slot q <;> simp

/-- Running the loop through `x` and then through `t` (which does not contain `x`). -/
theorem ringShiftOn_cons (h1 : ∀ k i, slot (pos k i) = some (k, i)) (d : Fin 4) (x : Fin N)
    (t : List (Fin N)) (hx : x ∉ t) (q : Pos N) :
    ringShiftOn pos slot [x] d (ringShiftOn pos slot t d q) =
      ringShiftOn pos slot (x :: t) d q := by
  unfold ringShiftOn
  cases hs : slot q with
  | none => simp [hs]
  | some ki =>
    obtain ⟨k, i⟩ := ki
    by_cases hit : i ∈ t
    · have hix : i ≠ x := fun e => hx (e ▸ hit)
      simp [hit, h1, hix]
    · by_cases hix : i = x
      · subst hix
        simp [hx, hs]
      · simp [hit, hs, hix]

/-- A loop whose body is the five assignments along a ring moves every colour `d` slots. -/
theorem colorAt_ring_foldl (h1 : ∀ k i, slot (pos k i) = some (k, i))
    (h2 : ∀ q k i, slot q = some (k, i) → pos k i = q) (k0 d : Fin 4) (hd : d = 1 ∨ d = 3)
    (l : List (Fin N)) (hl : l.Nodup) (cube : Cube_t N) (q : Pos N) :
    (l.foldl (fun c i => c.cycle4 (pos k0 i) (pos (k0 + d) i) (pos (k0 + 2 * d) i)
        (pos (k0 + 3 * d) i)) cube).colorAt q =
      cube.colorAt (ringShiftOn pos slot l d q) := by
  induction l generalizing cube with
  | nil => simp [ringShiftOn_nil]
  | cons x t ih =>
    rw [List.foldl_cons, ih (List.nodup_cons.mp hl).2, colorAt_ring_step h1 h2 k0 d hd,
      ringShiftOn_cons h1 d x t (List.nodup_cons.mp hl).1]

theorem ringShiftOn_finRange (d : Fin 4) (q : Pos N) :
    ringShiftOn pos slot (List.finRange N) d q = ringShift pos slot d q := by
  unfold ringShiftOn ringShift
  cases slot q with
  | none => rfl
  | some ki => simp

theorem row_ring_foldl (k0 d : Fin 4) (l : List (Fin N)) (cube : Cube_t N) :
    (l.foldl (fun c i => c.cycle4 (pos k0 i) (pos (k0 + d) i) (pos (k0 + 2 * d) i)
        (pos (k0 + 3 * d) i)) cube).row = cube.row := by
  induction l generalizing cube with
  | nil => rfl
  | cons x t ih => rw [List.foldl_cons, ih]; rfl

theorem col_ring_foldl (k0 d : Fin 4) (l : List (Fin N)) (cube : Cube_t N) :
    (l.foldl (fun c i => c.cycle4 (pos k0 i) (pos (k0 + d) i) (pos (k0 + 2 * d) i)
        (pos (k0 + 3 * d) i)) cube).col = cube.col := by
  induction l generalizing cube with
  | nil => rfl
  | cons x t ih => rw [List.foldl_cons, ih]; rfl

/-- The whole loop `for(i=0;i<CUBE_SIZE;i++)` over a ring. -/
theorem colorAt_ring_loop (h1 : ∀ k i, slot (pos k i) = some (k, i))
    (h2 : ∀ q k i, slot q = some (k, i) → pos k i = q) (k0 d : Fin 4) (hd : d = 1 ∨ d = 3)
    (cube : Cube_t N) (q : Pos N) :
    ((List.finRange N).foldl (fun c i => c.cycle4 (pos k0 i) (pos (k0 + d) i)
        (pos (k0 + 2 * d) i) (pos (k0 + 3 * d) i)) cube).colorAt q =
      cube.colorAt (ringShift pos slot d q) := by
  rw [colorAt_ring_foldl h1 h2 k0 d hd _ (List.nodup_finRange N), ringShiftOn_finRange]

/-- Shifting by `d` and then by `e` is shifting by `e + d`. -/
theorem ringShift_ringShift (h1 : ∀ k i, slot (pos k i) = some (k, i)) (d e : Fin 4)
    (q : Pos N) :
    ringShift pos slot d (ringShift pos slot e q) = ringShift pos slot (e + d) q := by
  unfold ringShift
  cases hs : slot q with
  | none => simp [hs]
  | some ki =>
    obtain ⟨k, i⟩ := ki
    simp [h1, add_assoc]

theorem ringShift_zero (h2 : ∀ q k i, slot q = some (k, i) → pos k i = q) (q : Pos N) :
    ringShift pos slot 0 q = q := by
  unfold ringShift
  cases hs : slot q with
  | none => rfl
  | some ki =>
    obtain ⟨k, i⟩ := ki
    simpa using h2 q k i hs

end Ring

/-! ### The three rings -/

theorem rowSlot_rowPos (row : Fin N) (k : Fin 4) (i : Fin N) :
    rowSlot row (rowPos row k i) = some (k, i) := by
  fin_cases k <;> simp [rowSlot, rowPos]

theorem rowPos_of_rowSlot (row : Fin N) (q : Pos N) (k : Fin 4) (i : Fin N)
    (h : rowSlot row q = some (k, i)) : rowPos row k i = q := by
  obtain ⟨s, a, b⟩ := q
  cases s <;> simp [rowSlot] at h <;> obtain ⟨hb, rfl, rfl⟩ := h <;> simp [rowPos, hb]

theorem colSlot_colPos (col : Fin N) (k : Fin 4) (i : Fin N) :
    colSlot col (colPos col k i) = some (k, i) := by
  fin_cases k <;> simp [colSlot, colPos]

theorem colPos_of_colSlot (col : Fin N) (q : Pos N) (k : Fin 4) (i : Fin N)
    (h : colSlot col q = some (k, i)) : colPos col k i = q := by
  obtain ⟨s, a, b⟩ := q
  cases s <;> simp [colSlot] at h <;> obtain ⟨hb, rfl, rfl⟩ := h <;> simp [colPos, hb]

theorem frontSlot_frontPos (k : Fin 4) (i : Fin N) :
    frontSlot (frontPos k i) = some (k, i) := by
  fin_cases k <;> simp [frontSlot, frontPos]

theorem frontPos_of_frontSlot (q : Pos N) (k : Fin 4) (i : Fin N)
    (h : frontSlot q = some (k, i)) : frontPos k i = q := by
  obtain ⟨s, a, b⟩ := q
  cases s <;> simp [frontSlot] at h <;> obtain ⟨hb, rfl, rfl⟩ := h <;>
    simp [frontPos, Fin.ext_iff, hb]

/-! ### The direction constants are distinct -/

@[simp]
theorem dir_LEFT_ne_RIGHT : CUBE_DIRECTION_LEFT ≠ CUBE_DIRECTION_RIGHT := by decide

@[simp]
theorem dir_LEFT_ne_UP : CUBE_DIRECTION_LEFT ≠ CUBE_DIRECTION_UP := by decide

@[simp]
theorem dir_LEFT_ne_DOWN : CUBE_DIRECTION_LEFT ≠ CUBE_DIRECTION_DOWN := by decide

@[simp]
theorem dir_LEFT_ne_CW : CUBE_DIRECTION_LEFT ≠ CUBE_DIRECTION_CW := by decide

@[simp]
theorem dir_LEFT_ne_CCW : CUBE_DIRECTION_LEFT ≠ CUBE_DIRECTION_CCW := by decide

@[simp]
theorem dir_RIGHT_ne_LEFT : CUBE_DIRECTION_RIGHT ≠ CUBE_DIRECTION_LEFT := by decide

@[simp]
theorem dir_RIGHT_ne_UP : CUBE_DIRECTION_RIGHT ≠ CUBE_DIRECTION_UP := by decide

@[simp]
theorem dir_RIGHT_ne_DOWN : CUBE_DIRECTION_RIGHT ≠ CUBE_DIRECTION_DOWN := by decide

@[simp]
theorem dir_RIGHT_ne_CW : CUBE_DIRECTION_RIGHT ≠ CUBE_DIRECTION_CW := by decide

@[simp]
theorem dir_RIGHT_ne_CCW : CUBE_DIRECTION_RIGHT ≠ CUBE_DIRECTION_CCW := by decide

@[simp]
theorem dir_UP_ne_LEFT : CUBE_DIRECTION_UP ≠ CUBE_DIRECTION_LEFT := by decide

@[simp]
theorem dir_UP_ne_RIGHT : CUBE_DIRECTION_UP ≠ CUBE_DIRECTION_RIGHT := by decide

@[simp]
theorem dir_UP_ne_DOWN : CUBE_DIRECTION_UP ≠ CUBE_DIRECTION_DOWN := by decide

@[simp]
theorem dir_UP_ne_CW : CUBE_DIRECTION_UP ≠ CUBE_DIRECTION_CW := by decide

@[simp]
theorem dir_UP_ne_CCW : CUBE_DIRECTION_UP ≠ CUBE_DIRECTION_CCW := by decide

@[simp]
theorem dir_DOWN_ne_LEFT : CUBE_DIRECTION_DOWN ≠ CUBE_DIRECTION_LEFT := by decide

@[simp]
theorem dir_DOWN_ne_RIGHT : CUBE_DIRECTION_DOWN ≠ CUBE_DIRECTION_RIGHT := by decide

@[simp]
theorem dir_DOWN_ne_UP : CUBE_DIRECTION_DOWN ≠ CUBE_DIRECTION_UP := by decide

@[simp]
theorem dir_DOWN_ne_CW : CUBE_DIRECTION_DOWN ≠ CUBE_DIRECTION_CW := by decide

@[simp]
theorem dir_DOWN_ne_CCW : CUBE_DIRECTION_DOWN ≠ CUBE_DIRECTION_CCW := by decide

@[simp]
theorem dir_CW_ne_LEFT : CUBE_DIRECTION_CW ≠ CUBE_DIRECTION_LEFT := by decide

@[simp]
theorem dir_CW_ne_RIGHT : CUBE_DIRECTION_CW ≠ CUBE_DIRECTION_RIGHT := by decide

@[simp]
theorem dir_CW_ne_UP : CUBE_DIRECTION_CW ≠ CUBE_DIRECTION_UP := by decide

@[simp]
theorem dir_CW_ne_DOWN : CUBE_DIRECTION_CW ≠ CUBE_DIRECTION_DOWN := by decide

@[simp]
theorem dir_CW_ne_CCW : CUBE_DIRECTION_CW ≠ CUBE_DIRECTION_CCW := by decide

@[simp]
theorem dir_CCW_ne_LEFT : CUBE_DIRECTION_CCW ≠ CUBE_DIRECTION_LEFT := by decide

@[simp]
theorem dir_CCW_ne_RIGHT : CUBE_DIRECTION_CCW ≠ CUBE_DIRECTION_RIGHT := by decide

@[simp]
theorem dir_CCW_ne_UP : CUBE_DIRECTION_CCW ≠ CUBE_DIRECTION_UP := by decide

@[simp]
theorem dir_CCW_ne_DOWN : CUBE_DIRECTION_CCW ≠ CUBE_DIRECTION_DOWN := by decide

@[simp]
theorem dir_CCW_ne_CW : CUBE_DIRECTION_CCW ≠ CUBE_DIRECTION_CW := by decide

/-! ### Operations as re-indexings -/

@[simp]
theorem colorAt_remap (cube : Cube_t N) (src : Pos N → Pos N) (q : Pos N) :
    (cube.remap src).colorAt q = cube.colorAt (src q) := rfl

@[simp]
theorem row_remap (cube : Cube_t N) (src : Pos N → Pos N) : (cube.remap src).row = cube.row :=
  rfl

@[simp]
theorem col_remap (cube : Cube_t N) (src : Pos N → Pos N) : (cube.remap src).col = cube.col :=
  rfl

theorem remap_remap (cube : Cube_t N) (f g : Pos N → Pos N) :
    (cube.remap f).remap g = cube.remap (fun q => f (g q)) := rfl

theorem remap_id (cube : Cube_t N) (f : Pos N → Pos N) (h : ∀ q, f q = q) :
    cube.remap f = cube := by
  apply Cube_t.ext_colorAt
  · intro q; rw [colorAt_remap, h]
  · rfl
  · rfl

theorem remap_congr (cube : Cube_t N) (f g : Pos N → Pos N) (h : ∀ q, f q = g q) :
    cube.remap f = cube.remap g := by
  have : f = g := funext h
  rw [this]

theorem blocks_rotate_face_cw (face : CubeFace_t N) (i j : Fin N) :
    (rotate_face face CUBE_DIRECTION_CW).blocks i j = face.blocks j (mirror i) := by
  have e : (⟨N - i.val - 1, by have := i.isLt; omega⟩ : Fin N) = mirror i :=
    Fin.ext (by simp only [mirror_val]; omega)
  simp only [rotate_face, if_true, e]

theorem blocks_rotate_face_ccw (face : CubeFace_t N) (i j : Fin N) :
    (rotate_face face CUBE_DIRECTION_CCW).blocks i j = face.blocks (mirror j) i := by
  have e : (⟨N - j.val - 1, by have := j.isLt; omega⟩ : Fin N) = mirror j :=
    Fin.ext (by simp only [mirror_val]; omega)
  have hne : CUBE_DIRECTION_CCW ≠ CUBE_DIRECTION_CW := by decide
  simp only [rotate_face, if_neg hne, if_true, e]

theorem rotate_face_other (face : CubeFace_t N) (dir : CubeDirection_t)
    (h1 : dir ≠ CUBE_DIRECTION_CW) (h2 : dir ≠ CUBE_DIRECTION_CCW) :
    rotate_face face dir = face := by
  simp only [rotate_face, if_neg h1, if_neg h2]

/-- Rotating the face `s` in place re-indexes the cube by `faceSrc s dir`. -/
theorem rotateFaceAt_eq_remap (cube : Cube_t N) (s : CubeSide_t) (dir : CubeDirection_t) :
    cube.rotateFaceAt s dir = cube.remap (faceSrc s dir) := by
  refine Cube_t.ext_colorAt ?_ rfl rfl
  rintro ⟨t, a, b⟩
  rw [colorAt_remap]
  simp only [Cube_t.rotateFaceAt, Cube_t.colorAt, get_setFace, faceSrc]
  by_cases hts : t = s
  · subst hts
    simp only [if_true]
    by_cases h1 : dir = CUBE_DIRECTION_CW
    · subst h1; simp only [if_true, blocks_rotate_face_cw]; rfl
    · by_cases h2 : dir = CUBE_DIRECTION_CCW
      · subst h2; simp only [if_neg h1, if_true, blocks_rotate_face_ccw]; rfl
      · simp only [if_neg h1, if_neg h2, rotate_face_other _ _ h1 h2]; rfl
  · simp only [if_neg hts]

theorem rotate_row_left_body_eq (row : Fin N) :
    rotate_row_left_body row = fun c i =>
      c.cycle4 (rowPos row 0 i) (rowPos row (0 + 1) i) (rowPos row (0 + 2 * 1) i)
        (rowPos row (0 + 3 * 1) i) := rfl

theorem rotate_row_right_body_eq (row : Fin N) :
    rotate_row_right_body row = fun c i =>
      c.cycle4 (rowPos row 2 i) (rowPos row (2 + 3) i) (rowPos row (2 + 2 * 3) i)
        (rowPos row (2 + 3 * 3) i) := rfl

theorem rotate_column_up_body_eq (col : Fin N) :
    rotate_column_up_body col = fun c i =>
      c.cycle4 (colPos col 0 i) (colPos col (0 + 1) i) (colPos col (0 + 2 * 1) i)
        (colPos col (0 + 3 * 1) i) := rfl

theorem rotate_column_down_body_eq (col : Fin N) :
    rotate_column_down_body col = fun c i =>
      c.cycle4 (colPos col 2 i) (colPos col (2 + 3) i) (colPos col (2 + 2 * 3) i)
        (colPos col (2 + 3 * 3) i) := rfl

theorem cube_rotate_front_face_ccw_body_eq :
    (cube_rotate_front_face_ccw_body : Cube_t N → Fin N → Cube_t N) = fun c i =>
      c.cycle4 (frontPos 0 i) (frontPos (0 + 1) i) (frontPos (0 + 2 * 1) i)
        (frontPos (0 + 3 * 1) i) := rfl

theorem cube_rotate_front_face_cw_body_eq :
    (cube_rotate_front_face_cw_body : Cube_t N → Fin N → Cube_t N) = fun c i =>
      c.cycle4 (frontPos 0 i) (frontPos (0 + 3) i) (frontPos (0 + 2 * 3) i)
        (frontPos (0 + 3 * 3) i) := rfl

/-- A loop over a ring re-indexes the cube by the ring shift. -/
theorem ring_loop_eq_remap {pos : Fin 4 → Fin N → Pos N}
    {slot : Pos N → Option (Fin 4 × Fin N)} (h1 : ∀ k i, slot (pos k i) = some (k, i))
    (h2 : ∀ q k i, slot q = some (k, i) → pos k i = q) (k0 d : Fin 4) (hd : d = 1 ∨ d = 3)
    (cube : Cube_t N) :
    (List.finRange N).foldl (fun c i => c.cycle4 (pos k0 i) (pos (k0 + d) i)
        (pos (k0 + 2 * d) i) (pos (k0 + 3 * d) i)) cube =
      cube.remap (ringShift pos slot d) := by
  apply Cube_t.ext_colorAt
  · intro q; rw [colorAt_ring_loop h1 h2 k0 d hd, colorAt_remap]
  · rw [row_ring_foldl]; rfl
  · rw [col_ring_foldl]; rfl

theorem ite_rotateFaceAt (cube : Cube_t N) (c : Prop) [Decidable c] (s : CubeSide_t)
    (dir : CubeDirection_t) :
    (if c then cube.rotateFaceAt s dir else cube) =
      cube.remap (fun q => if c then faceSrc s dir q else q) := by
  by_cases h : c
  · simp only [if_pos h, rotateFaceAt_eq_remap]
  · simp only [if_neg h]
    rw [remap_id _ _ (fun _ => rfl)]

/-- Closed form of `rotate_row` for an index within the face. -/
theorem rotate_row_eq_remap (cube : Cube_t N) (row : Nat) (h : row < N)
    (dir : CubeDirection_t) :
    rotate_row cube row dir = some (cube.remap (rotate_row_src ⟨row, h⟩ dir)) := by
  unfold rotate_row rotate_row_src
  by_cases hl : dir = CUBE_DIRECTION_LEFT
  · simp only [hl, if_true, dif_pos h, rotate_row_left_body_eq]
    rw [ring_loop_eq_remap (rowSlot_rowPos _) (rowPos_of_rowSlot _) 0 1 (Or.inl rfl)]
    simp only [ite_rotateFaceAt, remap_remap]
  · by_cases hr : dir = CUBE_DIRECTION_RIGHT
    · have hne : CUBE_DIRECTION_RIGHT ≠ CUBE_DIRECTION_LEFT := by decide
      simp only [hr, if_neg hne, if_true, dif_pos h, rotate_row_right_body_eq]
      rw [ring_loop_eq_remap (rowSlot_rowPos _) (rowPos_of_rowSlot _) 2 3 (Or.inr rfl)]
      simp only [ite_rotateFaceAt, remap_remap]
    · simp only [if_neg hl, if_neg hr]
      rw [remap_id _ _ (fun _ => rfl)]

/-- Closed form of `rotate_column` for an index within the face. -/
theorem rotate_column_eq_remap (cube : Cube_t N) (col : Nat) (h : col < N)
    (dir : CubeDirection_t) :
    rotate_column cube col dir = some (cube.remap (rotate_column_src ⟨col, h⟩ dir)) := by
  unfold rotate_column rotate_column_src
  by_cases hl : dir = CUBE_DIRECTION_UP
  · simp only [hl, if_true, dif_pos h, rotate_column_up_body_eq]
    rw [ring_loop_eq_remap (colSlot_colPos _) (colPos_of_colSlot _) 0 1 (Or.inl rfl)]
    simp only [ite_rotateFaceAt, remap_remap]
  · by_cases hr : dir = CUBE_DIRECTION_DOWN
    · have hne : CUBE_DIRECTION_DOWN ≠ CUBE_DIRECTION_UP := by decide
      simp only [hr, if_neg hne, if_true, dif_pos h, rotate_column_down_body_eq]
      rw [ring_loop_eq_remap (colSlot_colPos _) (colPos_of_colSlot _) 2 3 (Or.inr rfl)]
      simp only [ite_rotateFaceAt, remap_remap]
    · simp only [if_neg hl, if_neg hr]
      rw [remap_id _ _ (fun _ => rfl)]

/-- Closed form of `cube_rotate_front_face`. -/
theorem cube_rotate_front_face_eq_remap (cube : Cube_t N) (dir : CubeDirection_t) :
    cube_rotate_front_face cube dir = cube.remap (cube_rotate_front_face_src dir) := by
  unfold cube_rotate_front_face cube_rotate_front_face_src
  by_cases hl : dir = CUBE_DIRECTION_CCW
  · simp only [hl, if_true, cube_rotate_front_face_ccw_body_eq]
    rw [ring_loop_eq_remap frontSlot_frontPos frontPos_of_frontSlot 0 1 (Or.inl rfl)]
    simp only [rotateFaceAt_eq_remap, remap_remap]
  · by_cases hr : dir = CUBE_DIRECTION_CW
    · have hne : CUBE_DIRECTION_CW ≠ CUBE_DIRECTION_CCW := by decide
      simp only [hr, if_neg hne, if_true, cube_rotate_front_face_cw_body_eq]
      rw [ring_loop_eq_remap frontSlot_frontPos frontPos_of_frontSlot 0 3 (Or.inr rfl)]
      simp only [rotateFaceAt_eq_remap, remap_remap]
    · simp only [if_neg hl, if_neg hr]
      rw [remap_id _ _ (fun _ => rfl)]

/-- Closed form of `cube_rotate`. -/
theorem cube_rotate_eq_remap (cube : Cube_t N) (dir : CubeDirection_t) :
    cube_rotate cube dir = cube.remap (cube_rotate_src dir) := by
  by_cases h1 : dir = CUBE_DIRECTION_UP
  · subst h1
    refine Cube_t.ext_colorAt ?_ rfl rfl
    rintro ⟨s, a, b⟩
    rw [colorAt_remap]
    cases s <;>
      simp [cube_rotate, cube_rotate_src, Cube_t.colorAt, Cube_t.rotateFaceAt,
        blocks_rotate_face_cw, blocks_rotate_face_ccw, Cube_t.get]
  · by_cases h2 : dir = CUBE_DIRECTION_DOWN
    · subst h2
      refine Cube_t.ext_colorAt ?_ rfl rfl
      rintro ⟨s, a, b⟩
      rw [colorAt_remap]
      cases s <;>
        simp [cube_rotate, cube_rotate_src, Cube_t.colorAt, Cube_t.rotateFaceAt,
          blocks_rotate_face_cw, blocks_rotate_face_ccw, Cube_t.get]
    · by_cases h3 : dir = CUBE_DIRECTION_LEFT
      · subst h3
        refine Cube_t.ext_colorAt ?_ rfl rfl
        rintro ⟨s, a, b⟩
        rw [colorAt_remap]
        cases s <;>
          simp [cube_rotate, cube_rotate_src, Cube_t.colorAt, Cube_t.rotateFaceAt,
            blocks_rotate_face_cw, blocks_rotate_face_ccw, Cube_t.get]
      · by_cases h4 : dir = CUBE_DIRECTION_RIGHT
        · subst h4
          refine Cube_t.ext_colorAt ?_ rfl rfl
          rintro ⟨s, a, b⟩
          rw [colorAt_remap]
          cases s <;>
            simp [cube_rotate, cube_rotate_src, Cube_t.colorAt, Cube_t.rotateFaceAt,
              blocks_rotate_face_cw, blocks_rotate_face_ccw, Cube_t.get]
        · unfold cube_rotate cube_rotate_src
          simp only [if_neg h1, if_neg h2, if_neg h3, if_neg h4]
          rw [remap_id _ _ (fun _ => rfl)]

/-! ### Algebra of the position maps -/

theorem faceSrc_cw_ccw (s : CubeSide_t) (q : Pos N) :
    faceSrc s CUBE_DIRECTION_CW (faceSrc s CUBE_DIRECTION_CCW q) = q := by
  obtain ⟨t, a, b⟩ := q
  by_cases h : t = s <;> simp [faceSrc, h]

theorem faceSrc_ccw_cw (s : CubeSide_t) (q : Pos N) :
    faceSrc s CUBE_DIRECTION_CCW (faceSrc s CUBE_DIRECTION_CW q) = q := by
  obtain ⟨t, a, b⟩ := q
  by_cases h : t = s <;> simp [faceSrc, h]

theorem faceSrc_fst (s : CubeSide_t) (dir : CubeDirection_t) (q : Pos N) :
    (faceSrc s dir q).1 = q.1 := by
  unfold faceSrc
  split_ifs <;> rfl

theorem faceSrc_of_ne (s : CubeSide_t) (dir : CubeDirection_t) (q : Pos N) (h : q.1 ≠ s) :
    faceSrc s dir q = q := by
  simp [faceSrc, h]

theorem faceSrc_comm (s t : CubeSide_t) (h : s ≠ t) (d e : CubeDirection_t) (q : Pos N) :
    faceSrc s d (faceSrc t e q) = faceSrc t e (faceSrc s d q) := by
  by_cases hs : q.1 = s
  · have ht : q.1 ≠ t := fun e => h (hs.symm.trans e)
    have ht' : (faceSrc s d q).1 ≠ t := by rw [faceSrc_fst]; exact ht
    rw [faceSrc_of_ne t e q ht, faceSrc_of_ne t e _ ht']
  · have hs' : (faceSrc t e q).1 ≠ s := by rw [faceSrc_fst]; exact hs
    rw [faceSrc_of_ne s d q hs, faceSrc_of_ne s d _ hs']

/-- A face rotation next to a ring loop: the two touch different faces, so they commute. -/
theorem ringShift_faceSrc_comm {pos : Fin 4 → Fin N → Pos N}
    {slot : Pos N → Option (Fin 4 × Fin N)} (s : CubeSide_t)
    (hslot : ∀ q : Pos N, q.1 = s → slot q = none)
    (hpos : ∀ k i, (pos k i).1 ≠ s) (d : Fin 4) (dir : CubeDirection_t) (q : Pos N) :
    ringShift pos slot d (faceSrc s dir q) = faceSrc s dir (ringShift pos slot d q) := by
  by_cases hs : q.1 = s
  · have h1 : slot (faceSrc s dir q) = none := hslot _ (by rw [faceSrc_fst]; exact hs)
    have h2 : slot q = none := hslot _ hs
    simp only [ringShift, h1, h2]
  · rw [faceSrc_of_ne s dir q hs]
    unfold ringShift
    cases hq : slot q with
    | none => simp only [faceSrc_of_ne s dir q hs]
    | some ki => simp only [faceSrc_of_ne s dir _ (hpos _ _)]

theorem ringShift_inv (pos : Fin 4 → Fin N → Pos N) (slot : Pos N → Option (Fin 4 × Fin N))
    (h1 : ∀ k i, slot (pos k i) = some (k, i))
    (h2 : ∀ q k i, slot q = some (k, i) → pos k i = q) (d e : Fin 4) (hde : e + d = 0)
    (q : Pos N) : ringShift pos slot d (ringShift pos slot e q) = q := by
  rw [ringShift_ringShift h1, hde, ringShift_zero h2]

theorem faceSrc_bijective (s : CubeSide_t) (dir : CubeDirection_t) :
    Function.Bijective (faceSrc (N := N) s dir) := by
  by_cases h1 : dir = CUBE_DIRECTION_CW
  · subst h1
    exact Function.bijective_iff_has_inverse.mpr
      ⟨faceSrc s CUBE_DIRECTION_CCW, faceSrc_ccw_cw s, faceSrc_cw_ccw s⟩
  · by_cases h2 : dir = CUBE_DIRECTION_CCW
    · subst h2
      exact Function.bijective_iff_has_inverse.mpr
        ⟨faceSrc s CUBE_DIRECTION_CW, faceSrc_cw_ccw s, faceSrc_ccw_cw s⟩
    · have : faceSrc (N := N) s dir = id := by
        funext q
        simp [faceSrc, h1, h2]
      rw [this]
      exact Function.bijective_id

theorem ringShift_bijective (pos : Fin 4 → Fin N → Pos N)
    (slot : Pos N → Option (Fin 4 × Fin N)) (h1 : ∀ k i, slot (pos k i) = some (k, i))
    (h2 : ∀ q k i, slot q = some (k, i) → pos k i = q) (d : Fin 4) :
    Function.Bijective (ringShift pos slot d) :=
  Function.bijective_iff_has_inverse.mpr
    ⟨ringShift pos slot (-d), fun q => ringShift_inv pos slot h1 h2 _ _ (by simp) q,
      fun q => ringShift_inv pos slot h1 h2 _ _ (by simp) q⟩

theorem rowSlot_none_top (row : Fin N) (q : Pos N) (h : q.1 = CUBE_SIDE_TOP) :
    rowSlot row q = none := by
  simp [rowSlot, h]

theorem rowSlot_none_bottom (row : Fin N) (q : Pos N) (h : q.1 = CUBE_SIDE_BOTTOM) :
    rowSlot row q = none := by
  simp [rowSlot, h]

theorem rowPos_ne_top (row : Fin N) (k : Fin 4) (i : Fin N) :
    (rowPos row k i).1 ≠ CUBE_SIDE_TOP := by
  fin_cases k <;> simp [rowPos]

theorem rowPos_ne_bottom (row : Fin N) (k : Fin 4) (i : Fin N) :
    (rowPos row k i).1 ≠ CUBE_SIDE_BOTTOM := by
  fin_cases k <;> simp [rowPos]

theorem colSlot_none_left (col : Fin N) (q : Pos N) (h : q.1 = CUBE_SIDE_LEFT) :
    colSlot col q = none := by
  simp [colSlot, h]

theorem colSlot_none_right (col : Fin N) (q : Pos N) (h : q.1 = CUBE_SIDE_RIGHT) :
    colSlot col q = none := by
  simp [colSlot, h]

theorem colPos_ne_left (col : Fin N) (k : Fin 4) (i : Fin N) :
    (colPos col k i).1 ≠ CUBE_SIDE_LEFT := by
  fin_cases k <;> simp [colPos]

theorem colPos_ne_right (col : Fin N) (k : Fin 4) (i : Fin N) :
    (colPos col k i).1 ≠ CUBE_SIDE_RIGHT := by
  fin_cases k <;> simp [colPos]

theorem frontSlot_none_front (q : Pos N) (h : q.1 = CUBE_SIDE_FRONT) :
    frontSlot q = none := by
  simp [frontSlot, h]

theorem frontPos_ne_front (k : Fin 4) (i : Fin N) :
    (frontPos k i).1 ≠ CUBE_SIDE_FRONT := by
  fin_cases k <;> simp [frontPos]

theorem ite_bijective (c : Prop) [Decidable c] (f : Pos N → Pos N)
    (hf : Function.Bijective f) : Function.Bijective (fun q => if c then f q else q) := by
  by_cases h : c
  · simpa only [h, if_true] using hf
  · simpa only [h, if_false] using Function.bijective_id

/-- The position map of `rotate_row` is a bijection, for every direction value. -/
theorem rotate_row_src_bijective (row : Fin N) (dir : CubeDirection_t) :
    Function.Bijective (rotate_row_src row dir) := by
  have hs := fun d => ringShift_bijective (rowPos row) (rowSlot row) (rowSlot_rowPos row)
    (rowPos_of_rowSlot row) d
  by_cases hl : dir = CUBE_DIRECTION_LEFT
  · subst hl
    exact (ite_bijective (row.val = 0) _ (faceSrc_bijective CUBE_SIDE_TOP CUBE_DIRECTION_CW)).comp
      ((ite_bijective (row.val = N - 1) _
        (faceSrc_bijective CUBE_SIDE_BOTTOM CUBE_DIRECTION_CCW)).comp (hs 1))
  · by_cases hr : dir = CUBE_DIRECTION_RIGHT
    · subst hr
      exact (ite_bijective (row.val = 0) _
        (faceSrc_bijective CUBE_SIDE_TOP CUBE_DIRECTION_CCW)).comp
        ((ite_bijective (row.val = N - 1) _
          (faceSrc_bijective CUBE_SIDE_BOTTOM CUBE_DIRECTION_CW)).comp (hs 3))
    · have : rotate_row_src row dir = id := by
        funext q
        simp only [rotate_row_src, if_neg hl, if_neg hr, id]
      rw [this]
      exact Function.bijective_id

/-- The position map of `rotate_column` is a bijection, for every direction value. -/
theorem rotate_column_src_bijective (col : Fin N) (dir : CubeDirection_t) :
    Function.Bijective (rotate_column_src col dir) := by
  have hs := fun d => ringShift_bijective (colPos col) (colSlot col) (colSlot_colPos col)
    (colPos_of_colSlot col) d
  by_cases hl : dir = CUBE_DIRECTION_UP
  · subst hl
    exact (ite_bijective (col.val = 0) _
      (faceSrc_bijective CUBE_SIDE_LEFT CUBE_DIRECTION_CCW)).comp
      ((ite_bijective (col.val = N - 1) _
        (faceSrc_bijective CUBE_SIDE_RIGHT CUBE_DIRECTION_CW)).comp (hs 1))
  · by_cases hr : dir = CUBE_DIRECTION_DOWN
    · subst hr
      exact (ite_bijective (col.val = 0) _
        (faceSrc_bijective CUBE_SIDE_LEFT CUBE_DIRECTION_CW)).comp
        ((ite_bijective (col.val = N - 1) _
          (faceSrc_bijective CUBE_SIDE_RIGHT CUBE_DIRECTION_CCW)).comp (hs 3))
    · have : rotate_column_src col dir = id := by
        funext q
        simp only [rotate_column_src, if_neg hl, if_neg hr, id]
      rw [this]
      exact Function.bijective_id

/-- The position map of `cube_rotate_front_face` is a bijection, for every direction
value. -/
theorem cube_rotate_front_face_src_bijective (dir : CubeDirection_t) :
    Function.Bijective (cube_rotate_front_face_src (N := N) dir) := by
  have hs := fun d => ringShift_bijective (N := N) frontPos frontSlot frontSlot_frontPos
    frontPos_of_frontSlot d
  by_cases hl : dir = CUBE_DIRECTION_CCW
  · subst hl
    exact (hs 1).comp (faceSrc_bijective CUBE_SIDE_FRONT CUBE_DIRECTION_CCW)
  · by_cases hr : dir = CUBE_DIRECTION_CW
    · subst hr
      exact (hs 3).comp (faceSrc_bijective CUBE_SIDE_FRONT CUBE_DIRECTION_CW)
    · have : cube_rotate_front_face_src (N := N) dir = id := by
        funext q
        simp only [cube_rotate_front_face_src, if_neg hl, if_neg hr, id]
      rw [this]
      exact Function.bijective_id

theorem cube_rotate_src_up_down (q : Pos N) :
    cube_rotate_src CUBE_DIRECTION_UP (cube_rotate_src CUBE_DIRECTION_DOWN q) = q := by
  obtain ⟨s, a, b⟩ := q
  cases s <;> simp [cube_rotate_src]

theorem cube_rotate_src_down_up (q : Pos N) :
    cube_rotate_src CUBE_DIRECTION_DOWN (cube_rotate_src CUBE_DIRECTION_UP q) = q := by
  obtain ⟨s, a, b⟩ := q
  cases s <;> simp [cube_rotate_src]

theorem cube_rotate_src_left_right (q : Pos N) :
    cube_rotate_src CUBE_DIRECTION_LEFT (cube_rotate_src CUBE_DIRECTION_RIGHT q) = q := by
  obtain ⟨s, a, b⟩ := q
  cases s <;> simp [cube_rotate_src]

theorem cube_rotate_src_right_left (q : Pos N) :
    cube_rotate_src CUBE_DIRECTION_RIGHT (cube_rotate_src CUBE_DIRECTION_LEFT q) = q := by
  obtain ⟨s, a, b⟩ := q
  cases s <;> simp [cube_rotate_src]

/-- The position map of `cube_rotate` is a bijection, for every direction value. -/
theorem cube_rotate_src_bijective (dir : CubeDirection_t) :
    Function.Bijective (cube_rotate_src (N := N) dir) := by
  by_cases h1 : dir = CUBE_DIRECTION_UP
  · subst h1
    exact Function.bijective_iff_has_inverse.mpr
      ⟨_, cube_rotate_src_down_up, cube_rotate_src_up_down⟩
  · by_cases h2 : dir = CUBE_DIRECTION_DOWN
    · subst h2
      exact Function.bijective_iff_has_inverse.mpr
        ⟨_, cube_rotate_src_up_down, cube_rotate_src_down_up⟩
    · by_cases h3 : dir = CUBE_DIRECTION_LEFT
      · subst h3
        exact Function.bijective_iff_has_inverse.mpr
          ⟨_, cube_rotate_src_right_left, cube_rotate_src_left_right⟩
      · by_cases h4 : dir = CUBE_DIRECTION_RIGHT
        · subst h4
          exact Function.bijective_iff_has_inverse.mpr
            ⟨_, cube_rotate_src_left_right, cube_rotate_src_right_left⟩
        · have : cube_rotate_src (N := N) dir = id := by
            funext q
            simp only [cube_rotate_src, if_neg h1, if_neg h2, if_neg h3, if_neg h4, id]
          rw [this]
          exact Function.bijective_id

/-! ### What the position maps do on and off the rings -/

@[simp]
theorem get_remap (cube : Cube_t N) (src : Pos N → Pos N) (s : CubeSide_t) (a b : Fin N) :
    (cube.remap src).get s a b = cube.colorAt (src (s, a, b)) := rfl

theorem face_remap (cube : Cube_t N) (src : Pos N → Pos N) (s : CubeSide_t) :
    (cube.remap src).face s = ⟨fun a b => cube.colorAt (src (s, a, b))⟩ := rfl

theorem ringShift_pos {pos : Fin 4 → Fin N → Pos N} {slot : Pos N → Option (Fin 4 × Fin N)}
    (h1 : ∀ k i, slot (pos k i) = some (k, i)) (d k : Fin 4) (i : Fin N) :
    ringShift pos slot d (pos k i) = pos (k + d) i := by
  simp only [ringShift, h1]

theorem ringShift_none (pos : Fin 4 → Fin N → Pos N) (slot : Pos N → Option (Fin 4 × Fin N))
    (d : Fin 4) (q : Pos N) (h : slot q = none) : ringShift pos slot d q = q := by
  simp only [ringShift, h]

theorem ite_faceSrc_of_ne (c : Prop) [Decidable c] (s : CubeSide_t) (dir : CubeDirection_t)
    (q : Pos N) (h : q.1 ≠ s) : (if c then faceSrc s dir q else q) = q := by
  rw [faceSrc_of_ne s dir q h, ite_self]

theorem faceSrc_cw (s : CubeSide_t) (a b : Fin N) :
    faceSrc s CUBE_DIRECTION_CW (s, a, b) = (s, b, mirror a) := by
  simp [faceSrc]

theorem faceSrc_ccw (s : CubeSide_t) (a b : Fin N) :
    faceSrc s CUBE_DIRECTION_CCW (s, a, b) = (s, mirror b, a) := by
  simp [faceSrc]

theorem rotate_row_src_left_ring (row : Fin N) (k : Fin 4) (i : Fin N) :
    rotate_row_src row CUBE_DIRECTION_LEFT (rowPos row k i) = rowPos row (k + 1) i := by
  simp only [rotate_row_src, if_true, ringShift_pos (rowSlot_rowPos row)]
  rw [ite_faceSrc_of_ne _ _ _ _ (rowPos_ne_bottom row _ _),
    ite_faceSrc_of_ne _ _ _ _ (rowPos_ne_top row _ _)]

theorem rotate_row_src_right_ring (row : Fin N) (k : Fin 4) (i : Fin N) :
    rotate_row_src row CUBE_DIRECTION_RIGHT (rowPos row k i) = rowPos row (k + 3) i := by
  simp only [rotate_row_src, if_neg dir_RIGHT_ne_LEFT, if_true,
    ringShift_pos (rowSlot_rowPos row)]
  rw [ite_faceSrc_of_ne _ _ _ _ (rowPos_ne_bottom row _ _),
    ite_faceSrc_of_ne _ _ _ _ (rowPos_ne_top row _ _)]

theorem rotate_row_src_off_ring (row : Fin N) (dir : CubeDirection_t) (q : Pos N)
    (h : rowSlot row q = none) (ht : q.1 ≠ CUBE_SIDE_TOP) (hb : q.1 ≠ CUBE_SIDE_BOTTOM) :
    rotate_row_src row dir q = q := by
  unfold rotate_row_src
  simp only [ringShift_none _ _ _ q h, ite_faceSrc_of_ne _ _ _ q hb, ite_faceSrc_of_ne _ _ _ q ht,
    ite_self]

theorem rotate_row_src_left_top (row : Fin N) (a b : Fin N) :
    rotate_row_src row CUBE_DIRECTION_LEFT (CUBE_SIDE_TOP, a, b) =
      if row.val = 0 then (CUBE_SIDE_TOP, b, mirror a) else (CUBE_SIDE_TOP, a, b) := by
  have hq : ((CUBE_SIDE_TOP, a, b) : Pos N).1 ≠ CUBE_SIDE_BOTTOM := by simp
  have hr := ringShift_none (rowPos row) (rowSlot row) 1 _
    (rowSlot_none_top row (CUBE_SIDE_TOP, a, b) rfl)
  simp only [rotate_row_src, if_true, hr, ite_faceSrc_of_ne _ _ _ _ hq, faceSrc_cw]

theorem rotate_row_src_right_top (row : Fin N) (a b : Fin N) :
    rotate_row_src row CUBE_DIRECTION_RIGHT (CUBE_SIDE_TOP, a, b) =
      if row.val = 0 then (CUBE_SIDE_TOP, mirror b, a) else (CUBE_SIDE_TOP, a, b) := by
  have hq : ((CUBE_SIDE_TOP, a, b) : Pos N).1 ≠ CUBE_SIDE_BOTTOM := by simp
  have hr := ringShift_none (rowPos row) (rowSlot row) 3 _
    (rowSlot_none_top row (CUBE_SIDE_TOP, a, b) rfl)
  simp only [rotate_row_src, if_neg dir_RIGHT_ne_LEFT, if_true, hr,
    ite_faceSrc_of_ne _ _ _ _ hq, faceSrc_ccw]

theorem rotate_row_src_left_bottom (row : Fin N) (a b : Fin N) :
    rotate_row_src row CUBE_DIRECTION_LEFT (CUBE_SIDE_BOTTOM, a, b) =
      if row.val = N - 1 then (CUBE_SIDE_BOTTOM, mirror b, a) else (CUBE_SIDE_BOTTOM, a, b) := by
  have hr := ringShift_none (rowPos row) (rowSlot row) 1 _
    (rowSlot_none_bottom row (CUBE_SIDE_BOTTOM, a, b) rfl)
  simp only [rotate_row_src, if_true, hr, faceSrc_ccw]
  by_cases h : row.val = N - 1
  · simp only [if_pos h]
    exact ite_faceSrc_of_ne _ _ _ _ (by simp)
  · simp only [if_neg h]
    exact ite_faceSrc_of_ne _ _ _ _ (by simp)

theorem rotate_row_src_right_bottom (row : Fin N) (a b : Fin N) :
    rotate_row_src row CUBE_DIRECTION_RIGHT (CUBE_SIDE_BOTTOM, a, b) =
      if row.val = N - 1 then (CUBE_SIDE_BOTTOM, b, mirror a) else (CUBE_SIDE_BOTTOM, a, b) := by
  have hr := ringShift_none (rowPos row) (rowSlot row) 3 _
    (rowSlot_none_bottom row (CUBE_SIDE_BOTTOM, a, b) rfl)
  simp only [rotate_row_src, if_neg dir_RIGHT_ne_LEFT, if_true, hr, faceSrc_cw]
  by_cases h : row.val = N - 1
  · simp only [if_pos h]
    exact ite_faceSrc_of_ne _ _ _ _ (by simp)
  · simp only [if_neg h]
    exact ite_faceSrc_of_ne _ _ _ _ (by simp)

theorem rotate_column_src_up_ring (col : Fin N) (k : Fin 4) (i : Fin N) :
    rotate_column_src col CUBE_DIRECTION_UP (colPos col k i) = colPos col (k + 1) i := by
  simp only [rotate_column_src, if_true, ringShift_pos (colSlot_colPos col)]
  rw [ite_faceSrc_of_ne _ _ _ _ (colPos_ne_right col _ _),
    ite_faceSrc_of_ne _ _ _ _ (colPos_ne_left col _ _)]

theorem rotate_column_src_down_ring (col : Fin N) (k : Fin 4) (i : Fin N) :
    rotate_column_src col CUBE_DIRECTION_DOWN (colPos col k i) = colPos col (k + 3) i := by
  simp only [rotate_column_src, if_neg dir_DOWN_ne_UP, if_true,
    ringShift_pos (colSlot_colPos col)]
  rw [ite_faceSrc_of_ne _ _ _ _ (colPos_ne_right col _ _),
    ite_faceSrc_of_ne _ _ _ _ (colPos_ne_left col _ _)]

theorem rotate_column_src_off_ring (col : Fin N) (dir : CubeDirection_t) (q : Pos N)
    (h : colSlot col q = none) (hl : q.1 ≠ CUBE_SIDE_LEFT) (hr : q.1 ≠ CUBE_SIDE_RIGHT) :
    rotate_column_src col dir q = q := by
  unfold rotate_column_src
  simp only [ringShift_none _ _ _ q h, ite_faceSrc_of_ne _ _ _ q hl, ite_faceSrc_of_ne _ _ _ q hr,
    ite_self]

theorem rotate_column_src_up_left (col : Fin N) (a b : Fin N) :
    rotate_column_src col CUBE_DIRECTION_UP (CUBE_SIDE_LEFT, a, b) =
      if col.val = 0 then (CUBE_SIDE_LEFT, mirror b, a) else (CUBE_SIDE_LEFT, a, b) := by
  have hq : ((CUBE_SIDE_LEFT, a, b) : Pos N).1 ≠ CUBE_SIDE_RIGHT := by simp
  have hr := ringShift_none (colPos col) (colSlot col) 1 _
    (colSlot_none_left col (CUBE_SIDE_LEFT, a, b) rfl)
  simp only [rotate_column_src, if_true, hr, ite_faceSrc_of_ne _ _ _ _ hq, faceSrc_ccw]

theorem rotate_column_src_down_left (col : Fin N) (a b : Fin N) :
    rotate_column_src col CUBE_DIRECTION_DOWN (CUBE_SIDE_LEFT, a, b) =
      if col.val = 0 then (CUBE_SIDE_LEFT, b, mirror a) else (CUBE_SIDE_LEFT, a, b) := by
  have hq : ((CUBE_SIDE_LEFT, a, b) : Pos N).1 ≠ CUBE_SIDE_RIGHT := by simp
  have hr := ringShift_none (colPos col) (colSlot col) 3 _
    (colSlot_none_left col (CUBE_SIDE_LEFT, a, b) rfl)
  simp only [rotate_column_src, if_neg dir_DOWN_ne_UP, if_true, hr,
    ite_faceSrc_of_ne _ _ _ _ hq, faceSrc_cw]

theorem rotate_column_src_up_right (col : Fin N) (a b : Fin N) :
    rotate_column_src col CUBE_DIRECTION_UP (CUBE_SIDE_RIGHT, a, b) =
      if col.val = N - 1 then (CUBE_SIDE_RIGHT, b, mirror a) else (CUBE_SIDE_RIGHT, a, b) := by
  have hr := ringShift_none (colPos col) (colSlot col) 1 _
    (colSlot_none_right col (CUBE_SIDE_RIGHT, a, b) rfl)
  simp only [rotate_column_src, if_true, hr, faceSrc_cw]
  by_cases h : col.val = N - 1
  · simp only [if_pos h]
    exact ite_faceSrc_of_ne _ _ _ _ (by simp)
  · simp only [if_neg h]
    exact ite_faceSrc_of_ne _ _ _ _ (by simp)

theorem rotate_column_src_down_right (col : Fin N) (a b : Fin N) :
    rotate_column_src col CUBE_DIRECTION_DOWN (CUBE_SIDE_RIGHT, a, b) =
      if col.val = N - 1 then (CUBE_SIDE_RIGHT, mirror b, a) else (CUBE_SIDE_RIGHT, a, b) := by
  have hr := ringShift_none (colPos col) (colSlot col) 3 _
    (colSlot_none_right col (CUBE_SIDE_RIGHT, a, b) rfl)
  simp only [rotate_column_src, if_neg dir_DOWN_ne_UP, if_true, hr, faceSrc_ccw]
  by_cases h : col.val = N - 1
  · simp only [if_pos h]
    exact ite_faceSrc_of_ne _ _ _ _ (by simp)
  · simp only [if_neg h]
    exact ite_faceSrc_of_ne _ _ _ _ (by simp)


theorem fin4_add_three_add_one (k : Fin 4) : k + 3 + 1 = k := by
  fin_cases k <;> rfl

theorem fin4_add_one_add_three (k : Fin 4) : k + 1 + 3 = k := by
  fin_cases k <;> rfl

/-- Turning a row right and then left brings every position back. -/
theorem rotate_row_src_left_right (row : Fin N) (q : Pos N) :
    rotate_row_src row CUBE_DIRECTION_LEFT (rotate_row_src row CUBE_DIRECTION_RIGHT q) = q := by
  cases hs : rowSlot row q with
  | some ki =>
    obtain ⟨k, i⟩ := ki
    rw [← rowPos_of_rowSlot row q k i hs, rotate_row_src_right_ring, rotate_row_src_left_ring,
      fin4_add_three_add_one]
  | none =>
    obtain ⟨s, a, b⟩ := q
    by_cases ht : s = CUBE_SIDE_TOP
    · subst ht
      rw [rotate_row_src_right_top]
      by_cases h : row.val = 0
      · rw [if_pos h, rotate_row_src_left_top, if_pos h, mirror_mirror]
      · rw [if_neg h, rotate_row_src_left_top, if_neg h]
    · by_cases hb : s = CUBE_SIDE_BOTTOM
      · subst hb
        rw [rotate_row_src_right_bottom]
        by_cases h : row.val = N - 1
        · rw [if_pos h, rotate_row_src_left_bottom, if_pos h, mirror_mirror]
        · rw [if_neg h, rotate_row_src_left_bottom, if_neg h]
      · rw [rotate_row_src_off_ring row _ _ hs ht hb, rotate_row_src_off_ring row _ _ hs ht hb]

/-- Turning a row left and then right brings every position back. -/
theorem rotate_row_src_right_left (row : Fin N) (q : Pos N) :
    rotate_row_src row CUBE_DIRECTION_RIGHT (rotate_row_src row CUBE_DIRECTION_LEFT q) = q := by
  cases hs : rowSlot row q with
  | some ki =>
    obtain ⟨k, i⟩ := ki
    rw [← rowPos_of_rowSlot row q k i hs, rotate_row_src_left_ring, rotate_row_src_right_ring,
      fin4_add_one_add_three]
  | none =>
    obtain ⟨s, a, b⟩ := q
    by_cases ht : s = CUBE_SIDE_TOP
    · subst ht
      rw [rotate_row_src_left_top]
      by_cases h : row.val = 0
      · rw [if_pos h, rotate_row_src_right_top, if_pos h, mirror_mirror]
      · rw [if_neg h, rotate_row_src_right_top, if_neg h]
    · by_cases hb : s = CUBE_SIDE_BOTTOM
      · subst hb
        rw [rotate_row_src_left_bottom]
        by_cases h : row.val = N - 1
        · rw [if_pos h, rotate_row_src_right_bottom, if_pos h, mirror_mirror]
        · rw [if_neg h, rotate_row_src_right_bottom, if_neg h]
      · rw [rotate_row_src_off_ring row _ _ hs ht hb, rotate_row_src_off_ring row _ _ hs ht hb]

/-- Turning a column down and then up brings every position back. -/
theorem rotate_column_src_up_down (col : Fin N) (q : Pos N) :
    rotate_column_src col CUBE_DIRECTION_UP (rotate_column_src col CUBE_DIRECTION_DOWN q) =
      q := by
  cases hs : colSlot col q with
  | some ki =>
    obtain ⟨k, i⟩ := ki
    rw [← colPos_of_colSlot col q k i hs, rotate_column_src_down_ring,
      rotate_column_src_up_ring, fin4_add_three_add_one]
  | none =>
    obtain ⟨s, a, b⟩ := q
    by_cases ht : s = CUBE_SIDE_LEFT
    · subst ht
      rw [rotate_column_src_down_left]
      by_cases h : col.val = 0
      · rw [if_pos h, rotate_column_src_up_left, if_pos h, mirror_mirror]
      · rw [if_neg h, rotate_column_src_up_left, if_neg h]
    · by_cases hb : s = CUBE_SIDE_RIGHT
      · subst hb
        rw [rotate_column_src_down_right]
        by_cases h : col.val = N - 1
        · rw [if_pos h, rotate_column_src_up_right, if_pos h, mirror_mirror]
        · rw [if_neg h, rotate_column_src_up_right, if_neg h]
      · rw [rotate_column_src_off_ring col _ _ hs ht hb,
          rotate_column_src_off_ring col _ _ hs ht hb]

/-- Turning a column up and then down brings every position back. -/
theorem rotate_column_src_down_up (col : Fin N) (q : Pos N) :
    rotate_column_src col CUBE_DIRECTION_DOWN (rotate_column_src col CUBE_DIRECTION_UP q) =
      q := by
  cases hs : colSlot col q with
  | some ki =>
    obtain ⟨k, i⟩ := ki
    rw [← colPos_of_colSlot col q k i hs, rotate_column_src_up_ring,
      rotate_column_src_down_ring, fin4_add_one_add_three]
  | none =>
    obtain ⟨s, a, b⟩ := q
    by_cases ht : s = CUBE_SIDE_LEFT
    · subst ht
      rw [rotate_column_src_up_left]
      by_cases h : col.val = 0
      · rw [if_pos h, rotate_column_src_down_left, if_pos h, mirror_mirror]
      · rw [if_neg h, rotate_column_src_down_left, if_neg h]
    · by_cases hb : s = CUBE_SIDE_RIGHT
      · subst hb
        rw [rotate_column_src_up_right]
        by_cases h : col.val = N - 1
        · rw [if_pos h, rotate_column_src_down_right, if_pos h, mirror_mirror]
        · rw [if_neg h, rotate_column_src_down_right, if_neg h]
      · rw [rotate_column_src_off_ring col _ _ hs ht hb,
          rotate_column_src_off_ring col _ _ hs ht hb]

/-! ## Face rotation (`rotate_face`) -/

/-- C3: `rotate_face` implements the stated index mapping.  For every face and all
`i`, `j` in `[0, N-1]`, the block `[i][j]` after a clockwise rotation is the block that was
at `[j][N-1-i]`, and after a counter-clockwise rotation the block that was at `[N-1-j][i]`
(`mirror i` is the index `N-1-i`). -/
theorem rotate_face_index_mapping (face : CubeFace_t N) (i j : Fin N) :
    (rotate_face face CUBE_DIRECTION_CW).blocks i j = face.blocks j (mirror i) ∧
    (rotate_face face CUBE_DIRECTION_CCW).blocks i j = face.blocks (mirror j) i ∧
    (mirror i).val = N - 1 - i.val ∧ (mirror j).val = N - 1 - j.val :=
  ⟨blocks_rotate_face_cw face i j, blocks_rotate_face_ccw face i j, rfl, rfl⟩

theorem rotate_face_cw_ccw (face : CubeFace_t N) :
    rotate_face (rotate_face face CUBE_DIRECTION_CW) CUBE_DIRECTION_CCW = face := by
  apply CubeFace_t.ext
  funext i j
  rw [blocks_rotate_face_ccw, blocks_rotate_face_cw, mirror_mirror]

theorem rotate_face_ccw_cw (face : CubeFace_t N) :
    rotate_face (rotate_face face CUBE_DIRECTION_CCW) CUBE_DIRECTION_CW = face := by
  apply CubeFace_t.ext
  funext i j
  rw [blocks_rotate_face_cw, blocks_rotate_face_ccw, mirror_mirror]

/-- C4: `rotate_face` clockwise and counter-clockwise are mutual inverses: for every
face, rotating clockwise and then counter-clockwise returns the original face, and so does
rotating counter-clockwise and then clockwise. -/
theorem rotate_face_inverse_pair (face : CubeFace_t N) :
    rotate_face (rotate_face face CUBE_DIRECTION_CW) CUBE_DIRECTION_CCW = face ∧
    rotate_face (rotate_face face CUBE_DIRECTION_CCW) CUBE_DIRECTION_CW = face :=
  ⟨rotate_face_cw_ccw face, rotate_face_ccw_cw face⟩

/-- C5: `rotate_face` has order four: for every face, four clockwise rotations in a row
return the original face, and so do four counter-clockwise rotations. -/
theorem rotate_face_order_four (face : CubeFace_t N) :
    rotate_face (rotate_face (rotate_face (rotate_face face CUBE_DIRECTION_CW)
      CUBE_DIRECTION_CW) CUBE_DIRECTION_CW) CUBE_DIRECTION_CW = face ∧
    rotate_face (rotate_face (rotate_face (rotate_face face CUBE_DIRECTION_CCW)
      CUBE_DIRECTION_CCW) CUBE_DIRECTION_CCW) CUBE_DIRECTION_CCW = face := by
  constructor
  · apply CubeFace_t.ext
    funext i j
    simp only [blocks_rotate_face_cw, mirror_mirror]
  · apply CubeFace_t.ext
    funext i j
    simp only [blocks_rotate_face_ccw, mirror_mirror]

/-! ## Row rotation (`rotate_row`) -/

theorem rowSlot_off_ring (row : Fin N) (s : CubeSide_t) (a b : Fin N)
    (hs : s = CUBE_SIDE_LEFT ∨ s = CUBE_SIDE_FRONT ∨ s = CUBE_SIDE_RIGHT) (hb : b ≠ row) :
    rowSlot row (s, a, b) = none := by
  rcases hs with rfl | rfl | rfl <;> simp [rowSlot, hb]

theorem rowSlot_off_ring_back (row : Fin N) (a b : Fin N) (hb : b ≠ mirror row) :
    rowSlot row (CUBE_SIDE_BACK, a, b) = none := by
  simp [rowSlot, hb]

/-- C6: row ring effect.  For every cube and every row in `[0, N-1]`, after
`rotate_row(cube,row,LEFT)`, for every `i`: `Left[i][row]` is the old `Front[i][row]`,
`Front[i][row]` the old `Right[i][row]`, `Right[i][row]` the old `Back[N-1-i][N-1-row]` and
`Back[N-1-i][N-1-row]` the old `Left[i][row]`; `rotate_row(cube,row,RIGHT)` performs the
reverse cycle; in both cases every other block of Left, Front, Right and Back is
unchanged. -/
theorem rotate_row_ring_effect (cube : Cube_t N) (row : Fin N) :
    (∃ c, rotate_row cube row.val CUBE_DIRECTION_LEFT = some c ∧
      (∀ i : Fin N,
        c.get CUBE_SIDE_LEFT i row = cube.get CUBE_SIDE_FRONT i row ∧
        c.get CUBE_SIDE_FRONT i row = cube.get CUBE_SIDE_RIGHT i row ∧
        c.get CUBE_SIDE_RIGHT i row = cube.get CUBE_SIDE_BACK (mirror i) (mirror row) ∧
        c.get CUBE_SIDE_BACK (mirror i) (mirror row) = cube.get CUBE_SIDE_LEFT i row) ∧
      (∀ i j : Fin N, j ≠ row →
        c.get CUBE_SIDE_LEFT i j = cube.get CUBE_SIDE_LEFT i j ∧
        c.get CUBE_SIDE_FRONT i j = cube.get CUBE_SIDE_FRONT i j ∧
        c.get CUBE_SIDE_RIGHT i j = cube.get CUBE_SIDE_RIGHT i j) ∧
      (∀ i j : Fin N, j ≠ mirror row →
        c.get CUBE_SIDE_BACK i j = cube.get CUBE_SIDE_BACK i j)) ∧
    (∃ c, rotate_row cube row.val CUBE_DIRECTION_RIGHT = some c ∧
      (∀ i : Fin N,
        c.get CUBE_SIDE_RIGHT i row = cube.get CUBE_SIDE_FRONT i row ∧
        c.get CUBE_SIDE_FRONT i row = cube.get CUBE_SIDE_LEFT i row ∧
        c.get CUBE_SIDE_LEFT i row = cube.get CUBE_SIDE_BACK (mirror i) (mirror row) ∧
        c.get CUBE_SIDE_BACK (mirror i) (mirror row) = cube.get CUBE_SIDE_RIGHT i row) ∧
      (∀ i j : Fin N, j ≠ row →
        c.get CUBE_SIDE_LEFT i j = cube.get CUBE_SIDE_LEFT i j ∧
        c.get CUBE_SIDE_FRONT i j = cube.get CUBE_SIDE_FRONT i j ∧
        c.get CUBE_SIDE_RIGHT i j = cube.get CUBE_SIDE_RIGHT i j) ∧
      (∀ i j : Fin N, j ≠ mirror row →
        c.get CUBE_SIDE_BACK i j = cube.get CUBE_SIDE_BACK i j)) := by
  have off : ∀ dir (s : CubeSide_t) (a b : Fin N),
      s = CUBE_SIDE_LEFT ∨ s = CUBE_SIDE_FRONT ∨ s = CUBE_SIDE_RIGHT → b ≠ row →
      rotate_row_src row dir (s, a, b) = (s, a, b) := by
    intro dir s a b hs hb
    refine rotate_row_src_off_ring row dir _ (rowSlot_off_ring row s a b hs hb) ?_ ?_ <;>
      rcases hs with rfl | rfl | rfl <;> simp
  have offb : ∀ dir (a b : Fin N), b ≠ mirror row →
      rotate_row_src row dir (CUBE_SIDE_BACK, a, b) = (CUBE_SIDE_BACK, a, b) := by
    intro dir a b hb
    refine rotate_row_src_off_ring row dir _ (rowSlot_off_ring_back row a b hb) ?_ ?_ <;> simp
  constructor
  · refine ⟨_, rotate_row_eq_remap cube row.val row.isLt _, ?_, ?_, ?_⟩
    · intro i
      have h0 := rotate_row_src_left_ring row 0 i
      have h1 := rotate_row_src_left_ring row 1 i
      have h2 := rotate_row_src_left_ring row 2 i
      have h3 := rotate_row_src_left_ring row 3 i
      simp only [get_remap]
      exact ⟨congrArg cube.colorAt h0, congrArg cube.colorAt h1, congrArg cube.colorAt h2,
        congrArg cube.colorAt h3⟩
    · intro i j hj
      simp only [get_remap]
      rw [off _ _ i j (Or.inl rfl) hj, off _ _ i j (Or.inr (Or.inl rfl)) hj,
        off _ _ i j (Or.inr (Or.inr rfl)) hj]
      exact ⟨rfl, rfl, rfl⟩
    · intro i j hj
      simp only [get_remap]
      rw [offb _ i j hj]
      rfl
  · refine ⟨_, rotate_row_eq_remap cube row.val row.isLt _, ?_, ?_, ?_⟩
    · intro i
      have h0 := rotate_row_src_right_ring row 0 i
      have h1 := rotate_row_src_right_ring row 1 i
      have h2 := rotate_row_src_right_ring row 2 i
      have h3 := rotate_row_src_right_ring row 3 i
      simp only [get_remap]
      exact ⟨congrArg cube.colorAt h2, congrArg cube.colorAt h1, congrArg cube.colorAt h0,
        congrArg cube.colorAt h3⟩
    · intro i j hj
      simp only [get_remap]
      rw [off _ _ i j (Or.inl rfl) hj, off _ _ i j (Or.inr (Or.inl rfl)) hj,
        off _ _ i j (Or.inr (Or.inr rfl)) hj]
      exact ⟨rfl, rfl, rfl⟩
    · intro i j hj
      simp only [get_remap]
      rw [offb _ i j hj]
      rfl


/-- C7: row boundary coupling.  For every cube and row in `[0, N-1]`, after
`rotate_row(cube,row,LEFT)` the top face is `rotate_face(old Top, CW)` if `row = 0` and
unchanged otherwise, and the bottom face is `rotate_face(old Bottom, CCW)` if `row = N-1`
and unchanged otherwise; for `RIGHT` the top is rotated counter-clockwise at row 0 and the
bottom clockwise at row `N-1`, and both are otherwise unchanged. -/
theorem rotate_row_boundary_coupling (cube : Cube_t N) (row : Fin N) :
    (∃ c, rotate_row cube row.val CUBE_DIRECTION_LEFT = some c ∧
      c.face CUBE_SIDE_TOP =
        (if row.val = 0 then rotate_face (cube.face CUBE_SIDE_TOP) CUBE_DIRECTION_CW
          else cube.face CUBE_SIDE_TOP) ∧
      c.face CUBE_SIDE_BOTTOM =
        (if row.val = N - 1 then rotate_face (cube.face CUBE_SIDE_BOTTOM) CUBE_DIRECTION_CCW
          else cube.face CUBE_SIDE_BOTTOM)) ∧
    (∃ c, rotate_row cube row.val CUBE_DIRECTION_RIGHT = some c ∧
      c.face CUBE_SIDE_TOP =
        (if row.val = 0 then rotate_face (cube.face CUBE_SIDE_TOP) CUBE_DIRECTION_CCW
          else cube.face CUBE_SIDE_TOP) ∧
      c.face CUBE_SIDE_BOTTOM =
        (if row.val = N - 1 then rotate_face (cube.face CUBE_SIDE_BOTTOM) CUBE_DIRECTION_CW
          else cube.face CUBE_SIDE_BOTTOM)) := by
  constructor
  · refine ⟨_, rotate_row_eq_remap cube row.val row.isLt _, ?_, ?_⟩
    · apply CubeFace_t.ext
      funext a b
      rw [face_remap]
      simp only [Fin.eta, rotate_row_src_left_top]
      by_cases h : row.val = 0
      · simp only [if_pos h, blocks_rotate_face_cw]; rfl
      · simp only [if_neg h]; rfl
    · apply CubeFace_t.ext
      funext a b
      rw [face_remap]
      simp only [Fin.eta, rotate_row_src_left_bottom]
      by_cases h : row.val = N - 1
      · simp only [if_pos h, blocks_rotate_face_ccw]; rfl
      · simp only [if_neg h]; rfl
  · refine ⟨_, rotate_row_eq_remap cube row.val row.isLt _, ?_, ?_⟩
    · apply CubeFace_t.ext
      funext a b
      rw [face_remap]
      simp only [Fin.eta, rotate_row_src_right_top]
      by_cases h : row.val = 0
      · simp only [if_pos h, blocks_rotate_face_ccw]; rfl
      · simp only [if_neg h]; rfl
    · apply CubeFace_t.ext
      funext a b
      rw [face_remap]
      simp only [Fin.eta, rotate_row_src_right_bottom]
      by_cases h : row.val = N - 1
      · simp only [if_pos h, blocks_rotate_face_cw]; rfl
      · simp only [if_neg h]; rfl

theorem rotate_row_bind (cube : Cube_t N) (row : Nat) (h : row < N) (d e : CubeDirection_t) :
    ((rotate_row cube row d).bind fun c => rotate_row c row e) =
      some (cube.remap fun q => rotate_row_src ⟨row, h⟩ d (rotate_row_src ⟨row, h⟩ e q)) := by
  rw [rotate_row_eq_remap cube row h d, Option.some_bind, rotate_row_eq_remap _ row h e,
    remap_remap]

/-- C8: row inverse pair.  For every cube and every row in `[0, N-1]`,
`rotate_row(row,LEFT)` followed by `rotate_row(row,RIGHT)` returns exactly the original
cube (all six faces and the cursor), and likewise `RIGHT` followed by `LEFT`; the same holds
for `cube_rotate_row`, which turns the row under the cursor, whenever the cursor row is
within the face. -/
theorem rotate_row_inverse_pair (cube : Cube_t N) (row : Fin N) :
    ((rotate_row cube row.val CUBE_DIRECTION_LEFT).bind fun c =>
        rotate_row c row.val CUBE_DIRECTION_RIGHT) = some cube ∧
    ((rotate_row cube row.val CUBE_DIRECTION_RIGHT).bind fun c =>
        rotate_row c row.val CUBE_DIRECTION_LEFT) = some cube ∧
    (cube.row < N →
      ((cube_rotate_row cube CUBE_DIRECTION_LEFT).bind fun c =>
          cube_rotate_row c CUBE_DIRECTION_RIGHT) = some cube ∧
      ((cube_rotate_row cube CUBE_DIRECTION_RIGHT).bind fun c =>
          cube_rotate_row c CUBE_DIRECTION_LEFT) = some cube) := by
  refine ⟨?_, ?_, ?_⟩
  · rw [rotate_row_bind cube row.val row.isLt, remap_id _ _ (rotate_row_src_left_right _)]
  · rw [rotate_row_bind cube row.val row.isLt, remap_id _ _ (rotate_row_src_right_left _)]
  · intro h
    unfold cube_rotate_row
    constructor
    · rw [rotate_row_eq_remap cube cube.row h, Option.some_bind, row_remap,
        rotate_row_eq_remap _ cube.row h, remap_remap,
        remap_id _ _ (rotate_row_src_left_right _)]
    · rw [rotate_row_eq_remap cube cube.row h, Option.some_bind, row_remap,
        rotate_row_eq_remap _ cube.row h, remap_remap,
        remap_id _ _ (rotate_row_src_right_left _)]

/-! ## Column rotation (`rotate_column`) -/

/-- C9, as stated, fails: on the reset 3×3×3 cube (top red, bottom orange)
`rotate_column(cube,0,UP)` leaves in `Front[0][0]` the orange of the old bottom face, not
the red that `Top[0][0]` held before. -/
theorem rotate_column_up_counterexample :
    solved3.get CUBE_SIDE_TOP 0 0 = CUBE_COLOR_RED ∧
    (∃ c, rotate_column solved3 0 CUBE_DIRECTION_UP = some c ∧
      c.get CUBE_SIDE_FRONT 0 0 = CUBE_COLOR_ORANGE) ∧
    ¬ ∃ c, rotate_column solved3 0 CUBE_DIRECTION_UP = some c ∧
      c.get CUBE_SIDE_FRONT 0 0 = solved3.get CUBE_SIDE_TOP 0 0 := by
  decide

/-- C9, amended: column ring direction.  For every cube and every column in `[0, N-1]`,
after `rotate_column(cube,col,UP)`, for every `i`: `Top[col][i]` holds what
`Front[col][i]` held before, `Front[col][i]` what `Bottom[col][i]` held, `Bottom[col][i]`
what `Back[col][i]` held and `Back[col][i]` what `Top[col][i]` held;
`rotate_column(cube,col,DOWN)` performs the reverse cycle. -/
theorem rotate_column_ring_effect (cube : Cube_t N) (col : Fin N) :
    (∃ c, rotate_column cube col.val CUBE_DIRECTION_UP = some c ∧
      ∀ i : Fin N,
        c.get CUBE_SIDE_TOP col i = cube.get CUBE_SIDE_FRONT col i ∧
        c.get CUBE_SIDE_FRONT col i = cube.get CUBE_SIDE_BOTTOM col i ∧
        c.get CUBE_SIDE_BOTTOM col i = cube.get CUBE_SIDE_BACK col i ∧
        c.get CUBE_SIDE_BACK col i = cube.get CUBE_SIDE_TOP col i) ∧
    (∃ c, rotate_column cube col.val CUBE_DIRECTION_DOWN = some c ∧
      ∀ i : Fin N,
        c.get CUBE_SIDE_FRONT col i = cube.get CUBE_SIDE_TOP col i ∧
        c.get CUBE_SIDE_BOTTOM col i = cube.get CUBE_SIDE_FRONT col i ∧
        c.get CUBE_SIDE_BACK col i = cube.get CUBE_SIDE_BOTTOM col i ∧
        c.get CUBE_SIDE_TOP col i = cube.get CUBE_SIDE_BACK col i) := by
  constructor
  · refine ⟨_, rotate_column_eq_remap cube col.val col.isLt _, ?_⟩
    intro i
    have h0 := rotate_column_src_up_ring col 0 i
    have h1 := rotate_column_src_up_ring col 1 i
    have h2 := rotate_column_src_up_ring col 2 i
    have h3 := rotate_column_src_up_ring col 3 i
    simp only [get_remap]
    exact ⟨congrArg cube.colorAt h0, congrArg cube.colorAt h1, congrArg cube.colorAt h2,
      congrArg cube.colorAt h3⟩
  · refine ⟨_, rotate_column_eq_remap cube col.val col.isLt _, ?_⟩
    intro i
    have h0 := rotate_column_src_down_ring col 0 i
    have h1 := rotate_column_src_down_ring col 1 i
    have h2 := rotate_column_src_down_ring col 2 i
    have h3 := rotate_column_src_down_ring col 3 i
    simp only [get_remap]
    exact ⟨congrArg cube.colorAt h1, congrArg cube.colorAt h2, congrArg cube.colorAt h3,
      congrArg cube.colorAt h0⟩

/-- C10: column boundary coupling.  For every cube and column in `[0, N-1]`, after
`rotate_column(cube,col,UP)` the left face is `rotate_face(old Left, CCW)` if `col = 0` and
unchanged otherwise, and the right face is `rotate_face(old Right, CW)` if `col = N-1` and
unchanged otherwise; for `DOWN` the left is rotated clockwise at column 0 and the right
counter-clockwise at column `N-1`, and both are otherwise unchanged. -/
theorem rotate_column_boundary_coupling (cube : Cube_t N) (col : Fin N) :
    (∃ c, rotate_column cube col.val CUBE_DIRECTION_UP = some c ∧
      c.face CUBE_SIDE_LEFT =
        (if col.val = 0 then rotate_face (cube.face CUBE_SIDE_LEFT) CUBE_DIRECTION_CCW
          else cube.face CUBE_SIDE_LEFT) ∧
      c.face CUBE_SIDE_RIGHT =
        (if col.val = N - 1 then rotate_face (cube.face CUBE_SIDE_RIGHT) CUBE_DIRECTION_CW
          else cube.face CUBE_SIDE_RIGHT)) ∧
    (∃ c, rotate_column cube col.val CUBE_DIRECTION_DOWN = some c ∧
      c.face CUBE_SIDE_LEFT =
        (if col.val = 0 then rotate_face (cube.face CUBE_SIDE_LEFT) CUBE_DIRECTION_CW
          else cube.face CUBE_SIDE_LEFT) ∧
      c.face CUBE_SIDE_RIGHT =
        (if col.val = N - 1 then rotate_face (cube.face CUBE_SIDE_RIGHT) CUBE_DIRECTION_CCW
          else cube.face CUBE_SIDE_RIGHT)) := by
  constructor
  · refine ⟨_, rotate_column_eq_remap cube col.val col.isLt _, ?_, ?_⟩
    · apply CubeFace_t.ext
      funext a b
      rw [face_remap]
      simp only [Fin.eta, rotate_column_src_up_left]
      by_cases h : col.val = 0
      · simp only [if_pos h, blocks_rotate_face_ccw]; rfl
      · simp only [if_neg h]; rfl
    · apply CubeFace_t.ext
      funext a b
      rw [face_remap]
      simp only [Fin.eta, rotate_column_src_up_right]
      by_cases h : col.val = N - 1
      · simp only [if_pos h, blocks_rotate_face_cw]; rfl
      · simp only [if_neg h]; rfl
  · refine ⟨_, rotate_column_eq_remap cube col.val col.isLt _, ?_, ?_⟩
    · apply CubeFace_t.ext
      funext a b
      rw [face_remap]
      simp only [Fin.eta, rotate_column_src_down_left]
      by_cases h : col.val = 0
      · simp only [if_pos h, blocks_rotate_face_cw]; rfl
      · simp only [if_neg h]; rfl
    · apply CubeFace_t.ext
      funext a b
      rw [face_remap]
      simp only [Fin.eta, rotate_column_src_down_right]
      by_cases h : col.val = N - 1
      · simp only [if_pos h, blocks_rotate_face_ccw]; rfl
      · simp only [if_neg h]; rfl

/-! ## Reset, colour census and sequences of operations -/

theorem colorAt_set (cube : Cube_t N) (s : CubeSide_t) (i j : Fin N) (c : CubeColor_t)
    (q : Pos N) :
    (cube.set s i j c).colorAt q =
      if q.1 = s ∧ q.2.1 = i ∧ q.2.2 = j then c else cube.colorAt q := by
  simp only [Cube_t.colorAt, get_set]

theorem fill_blocks (l : List (Fin N)) (cube : Cube_t N) (i : CubeSide_t) (j : Fin N)
    (v : CubeColor_t) :
    (∀ q : Pos N, (l.foldl (fun c k => c.set i j k v) cube).colorAt q =
      if q.1 = i ∧ q.2.1 = j ∧ q.2.2 ∈ l then v else cube.colorAt q) ∧
    (l.foldl (fun c k => c.set i j k v) cube).row = cube.row ∧
    (l.foldl (fun c k => c.set i j k v) cube).col = cube.col := by
  induction l generalizing cube with
  | nil => simp
  | cons x t ih =>
    simp only [List.foldl_cons]
    obtain ⟨h1, h2, h3⟩ := ih (cube.set i j x v)
    refine ⟨?_, by rw [h2]; rfl, by rw [h3]; rfl⟩
    intro q
    rw [h1, colorAt_set]
    by_cases hi : q.1 = i <;> by_cases hj : q.2.1 = j <;> by_cases hx : q.2.2 = x <;>
      by_cases ht : q.2.2 ∈ t <;> simp [hi, hj, hx, ht]

theorem fill_rows (l : List (Fin N)) (cube : Cube_t N) (i : CubeSide_t) (v : CubeColor_t) :
    (∀ q : Pos N,
      (l.foldl (fun c j => (List.finRange N).foldl (fun c k => c.set i j k v) c) cube).colorAt q =
        if q.1 = i ∧ q.2.1 ∈ l then v else cube.colorAt q) ∧
    (l.foldl (fun c j => (List.finRange N).foldl (fun c k => c.set i j k v) c) cube).row =
      cube.row ∧
    (l.foldl (fun c j => (List.finRange N).foldl (fun c k => c.set i j k v) c) cube).col =
      cube.col := by
  induction l generalizing cube with
  | nil => simp
  | cons x t ih =>
    simp only [List.foldl_cons]
    obtain ⟨h1, h2, h3⟩ := ih ((List.finRange N).foldl (fun c k => c.set i x k v) cube)
    obtain ⟨g1, g2, g3⟩ := fill_blocks (List.finRange N) cube i x v
    refine ⟨?_, by rw [h2, g2], by rw [h3, g3]⟩
    intro q
    rw [h1, g1]
    by_cases hi : q.1 = i <;> by_cases hx : q.2.1 = x <;> by_cases ht : q.2.1 ∈ t <;>
      simp [hi, hx, ht]

theorem fill_faces (l : List CubeSide_t) (cube : Cube_t N) :
    (∀ q : Pos N,
      (l.foldl (fun c i => (List.finRange N).foldl
        (fun c j => (List.finRange N).foldl (fun c k => c.set i j k (resetColors i)) c) c)
        cube).colorAt q = if q.1 ∈ l then resetColors q.1 else cube.colorAt q) ∧
    (l.foldl (fun c i => (List.finRange N).foldl
        (fun c j => (List.finRange N).foldl (fun c k => c.set i j k (resetColors i)) c) c)
        cube).row = cube.row ∧
    (l.foldl (fun c i => (List.finRange N).foldl
        (fun c j => (List.finRange N).foldl (fun c k => c.set i j k (resetColors i)) c) c)
        cube).col = cube.col := by
  induction l generalizing cube with
  | nil => simp
  | cons x t ih =>
    simp only [List.foldl_cons]
    obtain ⟨g1, g2, g3⟩ := fill_rows (List.finRange N) cube x (resetColors x)
    obtain ⟨h1, h2, h3⟩ := ih ((List.finRange N).foldl
      (fun c j => (List.finRange N).foldl (fun c k => c.set x j k (resetColors x)) c) cube)
    refine ⟨?_, by rw [h2, g2], by rw [h3, g3]⟩
    intro q
    rw [h1, g1]
    by_cases hx : q.1 = x <;> by_cases ht : q.1 ∈ t <;> simp [hx, ht]

theorem mem_allSides (s : CubeSide_t) : s ∈ allSides := by
  cases s <;> simp [allSides]

/-- After `cube_reset` every block of face `s` is `resetColors[s]`. -/
theorem colorAt_cube_reset (cube : Cube_t N) (q : Pos N) :
    (cube_reset cube).colorAt q = resetColors q.1 := by
  have h := (fill_faces allSides cube).1 q
  rw [if_pos (mem_allSides q.1)] at h
  exact h

theorem row_cube_reset (cube : Cube_t N) : (cube_reset cube).row = 0 := rfl

theorem col_cube_reset (cube : Cube_t N) : (cube_reset cube).col = 0 := rfl

theorem count_remap (cube : Cube_t N) (src : Pos N → Pos N) (h : Function.Bijective src)
    (k : CubeColor_t) : (cube.remap src).count k = cube.count k := by
  unfold Cube_t.count
  apply Finset.card_bij (fun p _ => src p)
  · intro p hp
    simpa using hp
  · intro p _ p' _ e
    exact h.1 e
  · intro q hq
    obtain ⟨p, rfl⟩ := h.2 q
    exact ⟨p, by simpa using hq, rfl⟩

theorem count_cube_reset (cube : Cube_t N) (k : CubeColor_t) :
    (cube_reset cube).count k = N * N := by
  unfold Cube_t.count
  simp only [colorAt_cube_reset]
  have h1 : (Finset.univ.filter fun p : Pos N => resetColors p.1 = k) =
      (Finset.univ.filter fun s : CubeSide_t => resetColors s = k) ×ˢ
        (Finset.univ : Finset (Fin N × Fin N)) := by
    ext p
    simp
  have h2 : (Finset.univ.filter fun s : CubeSide_t => resetColors s = k).card = 1 := by
    cases k <;> rfl
  rw [h1, Finset.card_product, h2, Finset.card_univ, Fintype.card_prod, Fintype.card_fin,
    one_mul]


theorem count_congr (c1 c2 : Cube_t N) (h : ∀ q, c1.colorAt q = c2.colorAt q)
    (k : CubeColor_t) : c1.count k = c2.count k := by
  unfold Cube_t.count
  simp only [h]

theorem colorAt_cube_move_cursor (cube : Cube_t N) (dir : CubeDirection_t) (q : Pos N) :
    (cube_move_cursor cube dir).colorAt q = cube.colorAt q := by
  unfold cube_move_cursor
  split_ifs <;> rfl

theorem cube_move_cursor_range (cube : Cube_t N) (dir : CubeDirection_t)
    (hr : cube.row < N) (hc : cube.col < N) :
    (cube_move_cursor cube dir).row < N ∧ (cube_move_cursor cube dir).col < N := by
  unfold cube_move_cursor
  split_ifs <;> refine ⟨?_, ?_⟩ <;> (try dsimp only) <;>
    first
      | assumption
      | omega

/-- The state every engine operation keeps: the cursor is within the face and every colour
occurs `N*N` times. -/
theorem applyOp_keeps (cube : Cube_t N) (op : EngineOp) (hr : cube.row < N)
    (hc : cube.col < N) (hk : ∀ k, cube.count k = N * N) :
    ∃ c, applyOp cube op = some c ∧ c.row < N ∧ c.col < N ∧ ∀ k, c.count k = N * N := by
  cases op with
  | rotate dir =>
    refine ⟨_, rfl, ?_, ?_, ?_⟩
    · rw [cube_rotate_eq_remap]; exact hr
    · rw [cube_rotate_eq_remap]; exact hc
    · intro k
      rw [cube_rotate_eq_remap, count_remap _ _ (cube_rotate_src_bijective dir), hk]
  | rotate_row dir =>
    refine ⟨_, rotate_row_eq_remap cube cube.row hr dir, hr, hc, ?_⟩
    intro k
    rw [count_remap _ _ (rotate_row_src_bijective _ dir), hk]
  | rotate_column dir =>
    refine ⟨_, rotate_column_eq_remap cube cube.col hc dir, hr, hc, ?_⟩
    intro k
    rw [count_remap _ _ (rotate_column_src_bijective _ dir), hk]
  | rotate_front_face dir =>
    refine ⟨_, rfl, ?_, ?_, ?_⟩
    · rw [cube_rotate_front_face_eq_remap]; exact hr
    · rw [cube_rotate_front_face_eq_remap]; exact hc
    · intro k
      rw [cube_rotate_front_face_eq_remap,
        count_remap _ _ (cube_rotate_front_face_src_bijective dir), hk]
  | move_cursor dir =>
    refine ⟨_, rfl, (cube_move_cursor_range cube dir hr hc).1,
      (cube_move_cursor_range cube dir hr hc).2, ?_⟩
    intro k
    rw [count_congr _ _ (colorAt_cube_move_cursor cube dir), hk]

theorem applyOps_keeps (ops : List EngineOp) (cube : Cube_t N) (hr : cube.row < N)
    (hc : cube.col < N) (hk : ∀ k, cube.count k = N * N) :
    ∃ c, applyOps cube ops = some c ∧ c.row < N ∧ c.col < N ∧ ∀ k, c.count k = N * N := by
  induction ops generalizing cube with
  | nil => exact ⟨cube, rfl, hr, hc, hk⟩
  | cons op ops ih =>
    obtain ⟨c1, h1, hr1, hc1, hk1⟩ := applyOp_keeps cube op hr hc hk
    obtain ⟨c2, h2, hr2, hc2, hk2⟩ := ih c1 hr1 hc1 hk1
    exact ⟨c2, by simp only [applyOps, h1, Option.some_bind, h2], hr2, hc2, hk2⟩

/-- C1: colour conservation.  For every finite sequence of engine operations
(`cube_rotate`, `cube_rotate_row`, `cube_rotate_column`, `cube_rotate_front_face`,
`cube_move_cursor`, each with any direction value) applied to the cube produced by
`cube_reset`, the sequence runs to the end and each of the six colours occurs exactly
`N*N` times among the `6*N*N` facelets of the resulting cube. -/
theorem colour_conservation (hN : 0 < N) (cube0 : Cube_t N) (ops : List EngineOp) :
    ∃ c, applyOps (cube_reset cube0) ops = some c ∧ ∀ k : CubeColor_t, c.count k = N * N := by
  obtain ⟨c, h, _, _, hk⟩ := applyOps_keeps ops (cube_reset cube0) hN hN
    (count_cube_reset cube0)
  exact ⟨c, h, hk⟩

/-- C1 at a concrete input: the shipped size 3, a five-call sequence, 9 facelets of each
colour. -/
theorem colour_conservation_witness :
    0 < 3 ∧
    ∃ c, applyOps (cube_reset (N := 3) ⟨fun _ => ⟨fun _ _ => CUBE_COLOR_RED⟩, 2, 1⟩)
        [EngineOp.rotate_row CUBE_DIRECTION_LEFT, EngineOp.move_cursor CUBE_DIRECTION_DOWN,
          EngineOp.rotate_column CUBE_DIRECTION_UP, EngineOp.rotate_front_face CUBE_DIRECTION_CW,
          EngineOp.rotate 7] = some c ∧
      ∀ k : CubeColor_t, c.count k = 3 * 3 :=
  ⟨by decide, colour_conservation (by decide) _ _⟩

/-- C2: every transformation is a permutation of facelet positions.  For each of
`rotate_row(row,dir)` with `row` in `[0, N-1]`, `rotate_column(col,dir)` with `col` in
`[0, N-1]`, `cube_rotate(dir)` and `cube_rotate_front_face(dir)` there is a bijection `s` on
the facelet positions, depending only on the operation and its arguments, such that for
every cube the facelet at position `p` after the operation is the facelet that was at
position `s p` before it. -/
theorem transformations_are_permutations :
    Fintype.card (Pos N) = 6 * N * N ∧
    (∀ (row : Fin N) (dir : CubeDirection_t), ∃ s : Pos N → Pos N, Function.Bijective s ∧
      ∀ cube : Cube_t N, ∃ c, rotate_row cube row.val dir = some c ∧
        ∀ p, c.colorAt p = cube.colorAt (s p)) ∧
    (∀ (col : Fin N) (dir : CubeDirection_t), ∃ s : Pos N → Pos N, Function.Bijective s ∧
      ∀ cube : Cube_t N, ∃ c, rotate_column cube col.val dir = some c ∧
        ∀ p, c.colorAt p = cube.colorAt (s p)) ∧
    (∀ dir : CubeDirection_t, ∃ s : Pos N → Pos N, Function.Bijective s ∧
      ∀ (cube : Cube_t N) (p : Pos N), (cube_rotate cube dir).colorAt p = cube.colorAt (s p)) ∧
    (∀ dir : CubeDirection_t, ∃ s : Pos N → Pos N, Function.Bijective s ∧
      ∀ (cube : Cube_t N) (p : Pos N),
        (cube_rotate_front_face cube dir).colorAt p = cube.colorAt (s p)) := by
  refine ⟨?_, ?_, ?_, ?_, ?_⟩
  · have h6 : Fintype.card CubeSide_t = 6 := rfl
    rw [Fintype.card_prod, Fintype.card_prod, Fintype.card_fin, h6, Nat.mul_assoc]
  · intro row dir
    exact ⟨_, rotate_row_src_bijective row dir, fun cube =>
      ⟨_, rotate_row_eq_remap cube row.val row.isLt dir, fun _ => rfl⟩⟩
  · intro col dir
    exact ⟨_, rotate_column_src_bijective col dir, fun cube =>
      ⟨_, rotate_column_eq_remap cube col.val col.isLt dir, fun _ => rfl⟩⟩
  · intro dir
    exact ⟨_, cube_rotate_src_bijective dir, fun cube p => by rw [cube_rotate_eq_remap]; rfl⟩
  · intro dir
    exact ⟨_, cube_rotate_front_face_src_bijective dir, fun cube p => by
      rw [cube_rotate_front_face_eq_remap]; rfl⟩

/-! ## Column inverse pair -/

/-- C11: column inverse pair.  For every cube and every column in `[0, N-1]`,
`rotate_column(col,UP)` followed by `rotate_column(col,DOWN)` returns exactly the original
cube (all six faces and the cursor), and likewise `DOWN` followed by `UP`; the same holds
for `cube_rotate_column`, which turns the column under the cursor, whenever the cursor
column is within the face. -/
theorem rotate_column_inverse_pair (cube : Cube_t N) (col : Fin N) :
    ((rotate_column cube col.val CUBE_DIRECTION_UP).bind fun c =>
        rotate_column c col.val CUBE_DIRECTION_DOWN) = some cube ∧
    ((rotate_column cube col.val CUBE_DIRECTION_DOWN).bind fun c =>
        rotate_column c col.val CUBE_DIRECTION_UP) = some cube ∧
    (cube.col < N →
      ((cube_rotate_column cube CUBE_DIRECTION_UP).bind fun c =>
          cube_rotate_column c CUBE_DIRECTION_DOWN) = some cube ∧
      ((cube_rotate_column cube CUBE_DIRECTION_DOWN).bind fun c =>
          cube_rotate_column c CUBE_DIRECTION_UP) = some cube) := by
  refine ⟨?_, ?_, ?_⟩
  · rw [rotate_column_eq_remap cube col.val col.isLt, Option.some_bind,
      rotate_column_eq_remap _ col.val col.isLt, remap_remap,
      remap_id _ _ (rotate_column_src_up_down _)]
  · rw [rotate_column_eq_remap cube col.val col.isLt, Option.some_bind,
      rotate_column_eq_remap _ col.val col.isLt, remap_remap,
      remap_id _ _ (rotate_column_src_down_up _)]
  · intro h
    unfold cube_rotate_column
    constructor
    · rw [rotate_column_eq_remap cube cube.col h, Option.some_bind, col_remap,
        rotate_column_eq_remap _ cube.col h, remap_remap,
        remap_id _ _ (rotate_column_src_up_down _)]
    · rw [rotate_column_eq_remap cube cube.col h, Option.some_bind, col_remap,
        rotate_column_eq_remap _ cube.col h, remap_remap,
        remap_id _ _ (rotate_column_src_down_up _)]

/-! ## Whole-cube rotation (`cube_rotate`) -/

theorem row_cube_rotate (cube : Cube_t N) (dir : CubeDirection_t) :
    (cube_rotate cube dir).row = cube.row := by
  rw [cube_rotate_eq_remap]; rfl

theorem col_cube_rotate (cube : Cube_t N) (dir : CubeDirection_t) :
    (cube_rotate cube dir).col = cube.col := by
  rw [cube_rotate_eq_remap]; rfl

/-- C12: whole-cube rotation up / down.  After `cube_rotate(UP)` the faces are
Top = old Front, Front = old Bottom, Bottom = old Back, Back = old Top (whole faces, block
for block), Right = `rotate_face(old Right, CW)` and Left = `rotate_face(old Left, CCW)`;
after `cube_rotate(DOWN)` they are Bottom = old Front, Front = old Top, Top = old Back,
Back = old Bottom, Right = `rotate_face(old Right, CCW)` and
Left = `rotate_face(old Left, CW)`; the cursor is unchanged in both cases. -/
theorem cube_rotate_up_down_effect (cube : Cube_t N) :
    ((cube_rotate cube CUBE_DIRECTION_UP).face CUBE_SIDE_TOP = cube.face CUBE_SIDE_FRONT ∧
      (cube_rotate cube CUBE_DIRECTION_UP).face CUBE_SIDE_FRONT = cube.face CUBE_SIDE_BOTTOM ∧
      (cube_rotate cube CUBE_DIRECTION_UP).face CUBE_SIDE_BOTTOM = cube.face CUBE_SIDE_BACK ∧
      (cube_rotate cube CUBE_DIRECTION_UP).face CUBE_SIDE_BACK = cube.face CUBE_SIDE_TOP ∧
      (cube_rotate cube CUBE_DIRECTION_UP).face CUBE_SIDE_RIGHT =
        rotate_face (cube.face CUBE_SIDE_RIGHT) CUBE_DIRECTION_CW ∧
      (cube_rotate cube CUBE_DIRECTION_UP).face CUBE_SIDE_LEFT =
        rotate_face (cube.face CUBE_SIDE_LEFT) CUBE_DIRECTION_CCW ∧
      (cube_rotate cube CUBE_DIRECTION_UP).row = cube.row ∧
      (cube_rotate cube CUBE_DIRECTION_UP).col = cube.col) ∧
    ((cube_rotate cube CUBE_DIRECTION_DOWN).face CUBE_SIDE_BOTTOM = cube.face CUBE_SIDE_FRONT ∧
      (cube_rotate cube CUBE_DIRECTION_DOWN).face CUBE_SIDE_FRONT = cube.face CUBE_SIDE_TOP ∧
      (cube_rotate cube CUBE_DIRECTION_DOWN).face CUBE_SIDE_TOP = cube.face CUBE_SIDE_BACK ∧
      (cube_rotate cube CUBE_DIRECTION_DOWN).face CUBE_SIDE_BACK = cube.face CUBE_SIDE_BOTTOM ∧
      (cube_rotate cube CUBE_DIRECTION_DOWN).face CUBE_SIDE_RIGHT =
        rotate_face (cube.face CUBE_SIDE_RIGHT) CUBE_DIRECTION_CCW ∧
      (cube_rotate cube CUBE_DIRECTION_DOWN).face CUBE_SIDE_LEFT =
        rotate_face (cube.face CUBE_SIDE_LEFT) CUBE_DIRECTION_CW ∧
      (cube_rotate cube CUBE_DIRECTION_DOWN).row = cube.row ∧
      (cube_rotate cube CUBE_DIRECTION_DOWN).col = cube.col) := by
  refine ⟨⟨?_, ?_, ?_, ?_, ?_, ?_, row_cube_rotate _ _, col_cube_rotate _ _⟩,
    ⟨?_, ?_, ?_, ?_, ?_, ?_, row_cube_rotate _ _, col_cube_rotate _ _⟩⟩ <;>
    simp [cube_rotate, Cube_t.rotateFaceAt]

/-- C13: whole-cube rotation left / right with the 180-degree correction of the back
face.  After `cube_rotate(LEFT)`: Left = old Front, Front = old Right,
`Right[i][j]` = old `Back[N-1-i][N-1-j]`, `Back[i][j]` = old `Left[N-1-i][N-1-j]`,
Top = `rotate_face(old Top, CW)` and Bottom = `rotate_face(old Bottom, CCW)`;
`cube_rotate(RIGHT)` is the mirror image (Right = old Front, Front = old Left, Left = old
Back rotated by 180 degrees, Back = old Right rotated by 180 degrees, Top
counter-clockwise, Bottom clockwise); the cursor is unchanged. -/
theorem cube_rotate_left_right_effect (cube : Cube_t N) :
    ((cube_rotate cube CUBE_DIRECTION_LEFT).face CUBE_SIDE_LEFT = cube.face CUBE_SIDE_FRONT ∧
      (cube_rotate cube CUBE_DIRECTION_LEFT).face CUBE_SIDE_FRONT = cube.face CUBE_SIDE_RIGHT ∧
      (∀ i j : Fin N, ((cube_rotate cube CUBE_DIRECTION_LEFT).face CUBE_SIDE_RIGHT).blocks i j =
        (cube.face CUBE_SIDE_BACK).blocks (mirror i) (mirror j)) ∧
      (∀ i j : Fin N, ((cube_rotate cube CUBE_DIRECTION_LEFT).face CUBE_SIDE_BACK).blocks i j =
        (cube.face CUBE_SIDE_LEFT).blocks (mirror i) (mirror j)) ∧
      (cube_rotate cube CUBE_DIRECTION_LEFT).face CUBE_SIDE_TOP =
        rotate_face (cube.face CUBE_SIDE_TOP) CUBE_DIRECTION_CW ∧
      (cube_rotate cube CUBE_DIRECTION_LEFT).face CUBE_SIDE_BOTTOM =
        rotate_face (cube.face CUBE_SIDE_BOTTOM) CUBE_DIRECTION_CCW ∧
      (cube_rotate cube CUBE_DIRECTION_LEFT).row = cube.row ∧
      (cube_rotate cube CUBE_DIRECTION_LEFT).col = cube.col) ∧
    ((cube_rotate cube CUBE_DIRECTION_RIGHT).face CUBE_SIDE_RIGHT = cube.face CUBE_SIDE_FRONT ∧
      (cube_rotate cube CUBE_DIRECTION_RIGHT).face CUBE_SIDE_FRONT = cube.face CUBE_SIDE_LEFT ∧
      (∀ i j : Fin N, ((cube_rotate cube CUBE_DIRECTION_RIGHT).face CUBE_SIDE_LEFT).blocks i j =
        (cube.face CUBE_SIDE_BACK).blocks (mirror i) (mirror j)) ∧
      (∀ i j : Fin N, ((cube_rotate cube CUBE_DIRECTION_RIGHT).face CUBE_SIDE_BACK).blocks i j =
        (cube.face CUBE_SIDE_RIGHT).blocks (mirror i) (mirror j)) ∧
      (cube_rotate cube CUBE_DIRECTION_RIGHT).face CUBE_SIDE_TOP =
        rotate_face (cube.face CUBE_SIDE_TOP) CUBE_DIRECTION_CCW ∧
      (cube_rotate cube CUBE_DIRECTION_RIGHT).face CUBE_SIDE_BOTTOM =
        rotate_face (cube.face CUBE_SIDE_BOTTOM) CUBE_DIRECTION_CW ∧
      (cube_rotate cube CUBE_DIRECTION_RIGHT).row = cube.row ∧
      (cube_rotate cube CUBE_DIRECTION_RIGHT).col = cube.col) := by
  refine ⟨⟨?_, ?_, ?_, ?_, ?_, ?_, row_cube_rotate _ _, col_cube_rotate _ _⟩,
    ⟨?_, ?_, ?_, ?_, ?_, ?_, row_cube_rotate _ _, col_cube_rotate _ _⟩⟩ <;>
    simp [cube_rotate, Cube_t.rotateFaceAt, blocks_rotate_face_cw]

theorem cube_rotate_src_four (dir : CubeDirection_t) (q : Pos N) :
    cube_rotate_src dir (cube_rotate_src dir (cube_rotate_src dir (cube_rotate_src dir q))) =
      q := by
  obtain ⟨s, a, b⟩ := q
  by_cases h1 : dir = CUBE_DIRECTION_UP
  · subst h1; cases s <;> simp [cube_rotate_src]
  · by_cases h2 : dir = CUBE_DIRECTION_DOWN
    · subst h2; cases s <;> simp [cube_rotate_src]
    · by_cases h3 : dir = CUBE_DIRECTION_LEFT
      · subst h3; cases s <;> simp [cube_rotate_src]
      · by_cases h4 : dir = CUBE_DIRECTION_RIGHT
        · subst h4; cases s <;> simp [cube_rotate_src]
        · simp only [cube_rotate_src, if_neg h1, if_neg h2, if_neg h3, if_neg h4]

/-- C14: whole-cube rotation has order four.  For every cube (not only the reset cube)
and every direction, in particular each of `UP`, `DOWN`, `LEFT`, `RIGHT`, applying
`cube_rotate` four times in a row returns exactly the original cube, facelet for facelet
on all six faces, with the cursor unchanged. -/
theorem cube_rotate_order_four (cube : Cube_t N) (dir : CubeDirection_t) :
    cube_rotate (cube_rotate (cube_rotate (cube_rotate cube dir) dir) dir) dir = cube := by
  simp only [cube_rotate_eq_remap, remap_remap]
  exact remap_id _ _ (cube_rotate_src_four dir)

/-! ## Front-face twist (`cube_rotate_front_face`) -/

theorem front_src_cw_ring (k : Fin 4) (i : Fin N) :
    cube_rotate_front_face_src CUBE_DIRECTION_CW (frontPos k i) = frontPos (k + 3) i := by
  simp only [cube_rotate_front_face_src, if_neg dir_CW_ne_CCW, if_true,
    faceSrc_of_ne _ _ _ (frontPos_ne_front k i), ringShift_pos frontSlot_frontPos]

theorem front_src_ccw_ring (k : Fin 4) (i : Fin N) :
    cube_rotate_front_face_src CUBE_DIRECTION_CCW (frontPos k i) = frontPos (k + 1) i := by
  simp only [cube_rotate_front_face_src, if_true,
    faceSrc_of_ne _ _ _ (frontPos_ne_front k i), ringShift_pos frontSlot_frontPos]

theorem front_src_off_ring (dir : CubeDirection_t) (q : Pos N) (h : frontSlot q = none)
    (hf : q.1 ≠ CUBE_SIDE_FRONT) : cube_rotate_front_face_src dir q = q := by
  unfold cube_rotate_front_face_src
  simp only [faceSrc_of_ne _ _ q hf, ringShift_none _ _ _ q h, ite_self]

theorem front_src_cw_front (a b : Fin N) :
    cube_rotate_front_face_src CUBE_DIRECTION_CW (CUBE_SIDE_FRONT, a, b) =
      (CUBE_SIDE_FRONT, b, mirror a) := by
  simp only [cube_rotate_front_face_src, if_neg dir_CW_ne_CCW, if_true, faceSrc_cw]
  exact ringShift_none _ _ _ _ (frontSlot_none_front _ rfl)

theorem front_src_ccw_front (a b : Fin N) :
    cube_rotate_front_face_src CUBE_DIRECTION_CCW (CUBE_SIDE_FRONT, a, b) =
      (CUBE_SIDE_FRONT, mirror b, a) := by
  simp only [cube_rotate_front_face_src, if_true, faceSrc_ccw]
  exact ringShift_none _ _ _ _ (frontSlot_none_front _ rfl)

theorem frontSlot_off_ring (s : CubeSide_t) (a b : Fin N)
    (h : s = CUBE_SIDE_BACK ∨ (s = CUBE_SIDE_TOP ∧ b.val ≠ N - 1) ∨
      (s = CUBE_SIDE_RIGHT ∧ a.val ≠ 0) ∨ (s = CUBE_SIDE_BOTTOM ∧ b.val ≠ 0) ∨
      (s = CUBE_SIDE_LEFT ∧ a.val ≠ N - 1)) :
    frontSlot (s, a, b) = none := by
  rcases h with rfl | ⟨rfl, h⟩ | ⟨rfl, h⟩ | ⟨rfl, h⟩ | ⟨rfl, h⟩ <;> simp [frontSlot, *]

theorem front_face_rotated (cube : Cube_t N) (dir : CubeDirection_t)
    (h : dir = CUBE_DIRECTION_CW ∨ dir = CUBE_DIRECTION_CCW) :
    (cube_rotate_front_face cube dir).face CUBE_SIDE_FRONT =
      rotate_face (cube.face CUBE_SIDE_FRONT) dir := by
  rw [cube_rotate_front_face_eq_remap, face_remap]
  apply CubeFace_t.ext
  funext a b
  rcases h with rfl | rfl
  · simp only [front_src_cw_front, blocks_rotate_face_cw]; rfl
  · simp only [front_src_ccw_front, blocks_rotate_face_ccw]; rfl

theorem front_twist_frame (cube : Cube_t N) (dir : CubeDirection_t) :
    (cube_rotate_front_face cube dir).face CUBE_SIDE_BACK = cube.face CUBE_SIDE_BACK ∧
    (∀ a b : Fin N, b.val ≠ N - 1 →
      (cube_rotate_front_face cube dir).get CUBE_SIDE_TOP a b = cube.get CUBE_SIDE_TOP a b) ∧
    (∀ a b : Fin N, a.val ≠ 0 →
      (cube_rotate_front_face cube dir).get CUBE_SIDE_RIGHT a b =
        cube.get CUBE_SIDE_RIGHT a b) ∧
    (∀ a b : Fin N, b.val ≠ 0 →
      (cube_rotate_front_face cube dir).get CUBE_SIDE_BOTTOM a b =
        cube.get CUBE_SIDE_BOTTOM a b) ∧
    (∀ a b : Fin N, a.val ≠ N - 1 →
      (cube_rotate_front_face cube dir).get CUBE_SIDE_LEFT a b =
        cube.get CUBE_SIDE_LEFT a b) ∧
    (cube_rotate_front_face cube dir).row = cube.row ∧
    (cube_rotate_front_face cube dir).col = cube.col := by
  rw [cube_rotate_front_face_eq_remap]
  have off : ∀ (s : CubeSide_t) (a b : Fin N), s ≠ CUBE_SIDE_FRONT →
      (s = CUBE_SIDE_BACK ∨ (s = CUBE_SIDE_TOP ∧ b.val ≠ N - 1) ∨
        (s = CUBE_SIDE_RIGHT ∧ a.val ≠ 0) ∨ (s = CUBE_SIDE_BOTTOM ∧ b.val ≠ 0) ∨
        (s = CUBE_SIDE_LEFT ∧ a.val ≠ N - 1)) →
      (cube.remap (cube_rotate_front_face_src dir)).get s a b = cube.get s a b := by
    intro s a b hs h
    rw [get_remap, front_src_off_ring dir _ (frontSlot_off_ring s a b h) hs]
    rfl
  refine ⟨?_, ?_, ?_, ?_, ?_, rfl, rfl⟩
  · apply CubeFace_t.ext
    funext a b
    exact off CUBE_SIDE_BACK a b (by simp) (Or.inl rfl)
  · intro a b h
    exact off CUBE_SIDE_TOP a b (by simp) (Or.inr (Or.inl ⟨rfl, h⟩))
  · intro a b h
    exact off CUBE_SIDE_RIGHT a b (by simp) (Or.inr (Or.inr (Or.inl ⟨rfl, h⟩)))
  · intro a b h
    exact off CUBE_SIDE_BOTTOM a b (by simp) (Or.inr (Or.inr (Or.inr (Or.inl ⟨rfl, h⟩))))
  · intro a b h
    exact off CUBE_SIDE_LEFT a b (by simp) (Or.inr (Or.inr (Or.inr (Or.inr ⟨rfl, h⟩))))

/-- C15: front-face twist effect.  For every cube, `cube_rotate_front_face(d)` with `d`
clockwise or counter-clockwise replaces Front by `rotate_face(old Front, d)` and cycles one
step the ring `Top[i][N-1]`, `Right[0][i]`, `Bottom[N-1-i][0]`, `Left[N-1][N-1-i]`:
clockwise, `Top[i][N-1]` takes the old `Left[N-1][N-1-i]`, `Left[N-1][N-1-i]` the old
`Bottom[N-1-i][0]`, `Bottom[N-1-i][0]` the old `Right[0][i]` and `Right[0][i]` the old
`Top[i][N-1]`; counter-clockwise the reverse.  The back face, every other block of Top,
Right, Bottom and Left, and the cursor are unchanged. -/
theorem cube_rotate_front_face_effect (cube : Cube_t N) :
    ((cube_rotate_front_face cube CUBE_DIRECTION_CW).face CUBE_SIDE_FRONT =
        rotate_face (cube.face CUBE_SIDE_FRONT) CUBE_DIRECTION_CW ∧
      ∀ i : Fin N,
        (cube_rotate_front_face cube CUBE_DIRECTION_CW).get CUBE_SIDE_TOP i
            ⟨N - 1, Nat.sub_lt i.pos Nat.one_pos⟩ =
          cube.get CUBE_SIDE_LEFT ⟨N - 1, Nat.sub_lt i.pos Nat.one_pos⟩ (mirror i) ∧
        (cube_rotate_front_face cube CUBE_DIRECTION_CW).get CUBE_SIDE_LEFT
            ⟨N - 1, Nat.sub_lt i.pos Nat.one_pos⟩ (mirror i) =
          cube.get CUBE_SIDE_BOTTOM (mirror i) ⟨0, i.pos⟩ ∧
        (cube_rotate_front_face cube CUBE_DIRECTION_CW).get CUBE_SIDE_BOTTOM (mirror i)
            ⟨0, i.pos⟩ =
          cube.get CUBE_SIDE_RIGHT ⟨0, i.pos⟩ i ∧
        (cube_rotate_front_face cube CUBE_DIRECTION_CW).get CUBE_SIDE_RIGHT ⟨0, i.pos⟩ i =
          cube.get CUBE_SIDE_TOP i ⟨N - 1, Nat.sub_lt i.pos Nat.one_pos⟩) ∧
    ((cube_rotate_front_face cube CUBE_DIRECTION_CCW).face CUBE_SIDE_FRONT =
        rotate_face (cube.face CUBE_SIDE_FRONT) CUBE_DIRECTION_CCW ∧
      ∀ i : Fin N,
        (cube_rotate_front_face cube CUBE_DIRECTION_CCW).get CUBE_SIDE_TOP i
            ⟨N - 1, Nat.sub_lt i.pos Nat.one_pos⟩ =
          cube.get CUBE_SIDE_RIGHT ⟨0, i.pos⟩ i ∧
        (cube_rotate_front_face cube CUBE_DIRECTION_CCW).get CUBE_SIDE_RIGHT ⟨0, i.pos⟩ i =
          cube.get CUBE_SIDE_BOTTOM (mirror i) ⟨0, i.pos⟩ ∧
        (cube_rotate_front_face cube CUBE_DIRECTION_CCW).get CUBE_SIDE_BOTTOM (mirror i)
            ⟨0, i.pos⟩ =
          cube.get CUBE_SIDE_LEFT ⟨N - 1, Nat.sub_lt i.pos Nat.one_pos⟩ (mirror i) ∧
        (cube_rotate_front_face cube CUBE_DIRECTION_CCW).get CUBE_SIDE_LEFT
            ⟨N - 1, Nat.sub_lt i.pos Nat.one_pos⟩ (mirror i) =
          cube.get CUBE_SIDE_TOP i ⟨N - 1, Nat.sub_lt i.pos Nat.one_pos⟩) ∧
    (∀ d : CubeDirection_t,
      (cube_rotate_front_face cube d).face CUBE_SIDE_BACK = cube.face CUBE_SIDE_BACK ∧
      (∀ a b : Fin N, b.val ≠ N - 1 →
        (cube_rotate_front_face cube d).get CUBE_SIDE_TOP a b = cube.get CUBE_SIDE_TOP a b) ∧
      (∀ a b : Fin N, a.val ≠ 0 →
        (cube_rotate_front_face cube d).get CUBE_SIDE_RIGHT a b =
          cube.get CUBE_SIDE_RIGHT a b) ∧
      (∀ a b : Fin N, b.val ≠ 0 →
        (cube_rotate_front_face cube d).get CUBE_SIDE_BOTTOM a b =
          cube.get CUBE_SIDE_BOTTOM a b) ∧
      (∀ a b : Fin N, a.val ≠ N - 1 →
        (cube_rotate_front_face cube d).get CUBE_SIDE_LEFT a b =
          cube.get CUBE_SIDE_LEFT a b) ∧
      (cube_rotate_front_face cube d).row = cube.row ∧
      (cube_rotate_front_face cube d).col = cube.col) := by
  refine ⟨⟨front_face_rotated cube _ (Or.inl rfl), ?_⟩,
    ⟨front_face_rotated cube _ (Or.inr rfl), ?_⟩, fun d => front_twist_frame cube d⟩
  · intro i
    have h0 := front_src_cw_ring 0 i
    have h1 := front_src_cw_ring 1 i
    have h2 := front_src_cw_ring 2 i
    have h3 := front_src_cw_ring 3 i
    simp only [cube_rotate_front_face_eq_remap, get_remap]
    exact ⟨congrArg cube.colorAt h0, congrArg cube.colorAt h3, congrArg cube.colorAt h2,
      congrArg cube.colorAt h1⟩
  · intro i
    have h0 := front_src_ccw_ring 0 i
    have h1 := front_src_ccw_ring 1 i
    have h2 := front_src_ccw_ring 2 i
    have h3 := front_src_ccw_ring 3 i
    simp only [cube_rotate_front_face_eq_remap, get_remap]
    exact ⟨congrArg cube.colorAt h0, congrArg cube.colorAt h1, congrArg cube.colorAt h2,
      congrArg cube.colorAt h3⟩

theorem front_shift_faceSrc_comm (d : Fin 4) (dir : CubeDirection_t) (q : Pos N) :
    ringShift frontPos frontSlot d (faceSrc CUBE_SIDE_FRONT dir q) =
      faceSrc CUBE_SIDE_FRONT dir (ringShift frontPos frontSlot d q) :=
  ringShift_faceSrc_comm CUBE_SIDE_FRONT (fun q h => frontSlot_none_front q h)
    (fun k i => frontPos_ne_front k i) d dir q

/-- A counter-clockwise front twist and then a clockwise one brings every position back. -/
theorem front_src_cw_ccw (q : Pos N) :
    cube_rotate_front_face_src CUBE_DIRECTION_CW
      (cube_rotate_front_face_src CUBE_DIRECTION_CCW q) = q := by
  simp only [cube_rotate_front_face_src, if_neg dir_CW_ne_CCW, if_true]
  rw [← front_shift_faceSrc_comm 1, faceSrc_cw_ccw,
    ringShift_inv frontPos frontSlot frontSlot_frontPos frontPos_of_frontSlot 3 1 rfl]

/-- A clockwise front twist and then a counter-clockwise one brings every position back. -/
theorem front_src_ccw_cw (q : Pos N) :
    cube_rotate_front_face_src CUBE_DIRECTION_CCW
      (cube_rotate_front_face_src CUBE_DIRECTION_CW q) = q := by
  simp only [cube_rotate_front_face_src, if_neg dir_CW_ne_CCW, if_true]
  rw [← front_shift_faceSrc_comm 3, faceSrc_ccw_cw,
    ringShift_inv frontPos frontSlot frontSlot_frontPos frontPos_of_frontSlot 1 3 rfl]

/-- C16: front-face twist inverse pair.  For every cube (not only the reset cube),
`cube_rotate_front_face(CW)` followed by `cube_rotate_front_face(CCW)` returns exactly the
original cube, and likewise counter-clockwise followed by clockwise. -/
theorem cube_rotate_front_face_inverse_pair (cube : Cube_t N) :
    cube_rotate_front_face (cube_rotate_front_face cube CUBE_DIRECTION_CW)
      CUBE_DIRECTION_CCW = cube ∧
    cube_rotate_front_face (cube_rotate_front_face cube CUBE_DIRECTION_CCW)
      CUBE_DIRECTION_CW = cube := by
  simp only [cube_rotate_front_face_eq_remap, remap_remap]
  exact ⟨remap_id _ _ front_src_cw_ccw, remap_id _ _ front_src_ccw_cw⟩

theorem faceSrc_cw_four (s : CubeSide_t) (q : Pos N) :
    faceSrc s CUBE_DIRECTION_CW (faceSrc s CUBE_DIRECTION_CW
      (faceSrc s CUBE_DIRECTION_CW (faceSrc s CUBE_DIRECTION_CW q))) = q := by
  obtain ⟨t, a, b⟩ := q
  by_cases h : t = s <;> simp [faceSrc, h]

theorem faceSrc_ccw_four (s : CubeSide_t) (q : Pos N) :
    faceSrc s CUBE_DIRECTION_CCW (faceSrc s CUBE_DIRECTION_CCW
      (faceSrc s CUBE_DIRECTION_CCW (faceSrc s CUBE_DIRECTION_CCW q))) = q := by
  obtain ⟨t, a, b⟩ := q
  by_cases h : t = s <;> simp [faceSrc, h]

theorem front_shift_four (d : Fin 4) (q : Pos N) :
    ringShift frontPos frontSlot d (ringShift frontPos frontSlot d
      (ringShift frontPos frontSlot d (ringShift frontPos frontSlot d q))) = q := by
  have h4 : d + (d + (d + d)) = 0 := by fin_cases d <;> rfl
  rw [ringShift_ringShift frontSlot_frontPos, ringShift_ringShift frontSlot_frontPos,
    ringShift_ringShift frontSlot_frontPos, h4, ringShift_zero frontPos_of_frontSlot]

theorem front_src_four (dir : CubeDirection_t) (q : Pos N) :
    cube_rotate_front_face_src dir (cube_rotate_front_face_src dir
      (cube_rotate_front_face_src dir (cube_rotate_front_face_src dir q))) = q := by
  by_cases h1 : dir = CUBE_DIRECTION_CCW
  · subst h1
    simp only [cube_rotate_front_face_src, if_true, ← front_shift_faceSrc_comm]
    rw [faceSrc_ccw_four, front_shift_four]
  · by_cases h2 : dir = CUBE_DIRECTION_CW
    · subst h2
      simp only [cube_rotate_front_face_src, if_neg dir_CW_ne_CCW, if_true,
        ← front_shift_faceSrc_comm]
      rw [faceSrc_cw_four, front_shift_four]
    · simp only [cube_rotate_front_face_src, if_neg h1, if_neg h2]

/-- C17: front-face twist has order four.  For every cube and every direction, in
particular clockwise and counter-clockwise, applying `cube_rotate_front_face` four times in
a row returns exactly the original cube (the front face and the whole
Top/Right/Bottom/Left ring). -/
theorem cube_rotate_front_face_order_four (cube : Cube_t N) (dir : CubeDirection_t) :
    cube_rotate_front_face (cube_rotate_front_face (cube_rotate_front_face
      (cube_rotate_front_face cube dir) dir) dir) dir = cube := by
  simp only [cube_rotate_front_face_eq_remap, remap_remap]
  exact remap_id _ _ (front_src_four dir)

/-- C18, as stated, fails: on the cube `twisted3`, whose front face has green at `[2][0]`
and orange at `[0][2]`, the front block `[0][0]` after a clockwise twist is orange, the
colour `[0][2]` held, not the green that `[2][0]` held. -/
theorem front_corner_cw_counterexample :
    twisted3.get CUBE_SIDE_FRONT 2 0 = CUBE_COLOR_GREEN ∧
    twisted3.get CUBE_SIDE_FRONT 0 2 = CUBE_COLOR_ORANGE ∧
    (cube_rotate_front_face twisted3 CUBE_DIRECTION_CW).get CUBE_SIDE_FRONT 0 0 =
      CUBE_COLOR_ORANGE ∧
    ¬ (cube_rotate_front_face twisted3 CUBE_DIRECTION_CW).get CUBE_SIDE_FRONT 0 0 =
      twisted3.get CUBE_SIDE_FRONT 2 0 := by
  decide

/-- C18, amended: front corner after a clockwise twist (`N = 3`).  For every cube, after
`cube_rotate_front_face(CW)` the front block `[0][0]` holds the colour that the front block
`[0][2]` held before the twist (first array index horizontal, second vertical: the
bottom-left corner moves to the top-left); it is after a counter-clockwise twist that
`[0][0]` holds what `[2][0]` held. -/
theorem front_corner_after_twist (cube : Cube_t 3) :
    (cube_rotate_front_face cube CUBE_DIRECTION_CW).get CUBE_SIDE_FRONT 0 0 =
      cube.get CUBE_SIDE_FRONT 0 2 ∧
    (cube_rotate_front_face cube CUBE_DIRECTION_CCW).get CUBE_SIDE_FRONT 0 0 =
      cube.get CUBE_SIDE_FRONT 2 0 := by
  constructor
  · rw [cube_rotate_front_face_eq_remap, get_remap, front_src_cw_front]
    rfl
  · rw [cube_rotate_front_face_eq_remap, get_remap, front_src_ccw_front]
    rfl

/-! ## Solved check (`check_face`, `cube_is_solved`) -/

theorem check_face_iff (face : CubeFace_t N) :
    check_face face = true ↔
      ∀ i j : Fin N, face.blocks i j = face.blocks ⟨0, i.pos⟩ ⟨0, i.pos⟩ := by
  unfold check_face
  by_cases h : 0 < N
  · simp only [dif_pos h, List.all_eq_true, List.mem_finRange, true_implies,
      decide_eq_true_eq]
  · simp only [dif_neg h, true_iff]
    intro i
    exact absurd i.pos h

theorem cube_is_solved_iff_uniform (cube : Cube_t N) :
    cube_is_solved cube = true ↔
      ∀ (s : CubeSide_t) (i j : Fin N),
        (cube.face s).blocks i j = (cube.face s).blocks ⟨0, i.pos⟩ ⟨0, i.pos⟩ := by
  unfold cube_is_solved
  simp only [List.all_eq_true, check_face_iff]
  constructor
  · intro h s
    exact h s (mem_allSides s)
  · intro h s _
    exact h s

/-- C19: the solved check is per-face uniformity.  For every cube, `cube_is_solved`
returns true if and only if on each of the six faces every block `[i][j]` equals that
face's block `[0][0]`; the colours of different faces are not compared, so a cube whose
faces are each uniform counts as solved whatever colour each face carries (two faces
swapped, or two faces of the same colour). -/
theorem cube_is_solved_per_face_uniformity :
    (∀ cube : Cube_t N, cube_is_solved cube = true ↔
      ∀ (s : CubeSide_t) (i j : Fin N),
        (cube.face s).blocks i j = (cube.face s).blocks ⟨0, i.pos⟩ ⟨0, i.pos⟩) ∧
    (∀ (f : CubeSide_t → CubeColor_t) (r c : Nat),
      cube_is_solved (N := N) ⟨fun s => ⟨fun _ _ => f s⟩, r, c⟩ = true) := by
  refine ⟨cube_is_solved_iff_uniform, ?_⟩
  intro f r c
  rw [cube_is_solved_iff_uniform]
  intro s i j
  rfl

/-- C20: a single wrong facelet is detected.  For every cube (`N ≥ 2`) on which
`cube_is_solved` returns true, every side, every position `(i, j)`, the origin included,
and every colour different from the one at that position, the cube obtained by changing
only that facelet to that colour makes `cube_is_solved` return false. -/
theorem single_wrong_facelet_detected (hN : 2 ≤ N) (cube : Cube_t N)
    (hs : cube_is_solved cube = true) (s : CubeSide_t) (i j : Fin N) (k : CubeColor_t)
    (hk : k ≠ cube.get s i j) : cube_is_solved (cube.set s i j k) = false := by
  rw [Bool.eq_false_iff]
  intro h
  rw [cube_is_solved_iff_uniform] at hs h
  have old : ∀ a b : Fin N, cube.get s a b = cube.get s ⟨0, a.pos⟩ ⟨0, a.pos⟩ := hs s
  have new : ∀ a b : Fin N,
      (cube.set s i j k).get s a b = (cube.set s i j k).get s ⟨0, a.pos⟩ ⟨0, a.pos⟩ := h s
  simp only [get_set, true_and] at new
  have hk0 : k ≠ cube.get s ⟨0, i.pos⟩ ⟨0, i.pos⟩ := by rw [← old i j]; exact hk
  by_cases h0 : (⟨0, i.pos⟩ : Fin N) = i ∧ (⟨0, i.pos⟩ : Fin N) = j
  · have h1 := new ⟨0, i.pos⟩ ⟨1, by omega⟩
    have hj1 : ¬ ((⟨0, i.pos⟩ : Fin N) = i ∧ (⟨1, by omega⟩ : Fin N) = j) := by
      rintro ⟨_, e⟩
      have := h0.2.trans e.symm
      simp [Fin.ext_iff] at this
    rw [if_neg hj1, if_pos h0, old] at h1
    exact hk0 h1.symm
  · have h1 := new i j
    rw [if_pos ⟨rfl, rfl⟩, if_neg h0] at h1
    exact hk0 h1

/-- C20 at a concrete input: the centre block of the front face of the reset 3×3×3 cube
turned red. -/
theorem single_wrong_facelet_detected_witness :
    2 ≤ 3 ∧ cube_is_solved solved3 = true ∧
    CUBE_COLOR_RED ≠ solved3.get CUBE_SIDE_FRONT 1 1 ∧
    cube_is_solved (solved3.set CUBE_SIDE_FRONT 1 1 CUBE_COLOR_RED) = false :=
  ⟨by decide, by decide, by decide,
    single_wrong_facelet_detected (by decide) solved3 (by decide) CUBE_SIDE_FRONT 1 1
      CUBE_COLOR_RED (by decide)⟩

/-! ## Reset (`cube_reset`) -/

theorem get_cube_reset (cube : Cube_t N) (s : CubeSide_t) (i j : Fin N) :
    (cube_reset cube).get s i j = resetColors s :=
  colorAt_cube_reset cube (s, i, j)

theorem cube_reset_eq (c1 c2 : Cube_t N) : cube_reset c1 = cube_reset c2 := by
  refine Cube_t.ext_colorAt ?_ rfl rfl
  intro q
  rw [colorAt_cube_reset, colorAt_cube_reset]

/-- C21: reset establishes the fixed palette whatever the prior state.  For every input
cube, after `cube_reset` every block of Front is white, of Back yellow, of Top red, of
Bottom orange, of Left blue and of Right green, and `row = 0` and `col = 0`; so the result
does not depend on the input and `cube_reset` is idempotent. -/
theorem cube_reset_palette (cube : Cube_t N) :
    (∀ i j : Fin N,
      (cube_reset cube).get CUBE_SIDE_FRONT i j = CUBE_COLOR_WHITE ∧
      (cube_reset cube).get CUBE_SIDE_BACK i j = CUBE_COLOR_YELLOW ∧
      (cube_reset cube).get CUBE_SIDE_TOP i j = CUBE_COLOR_RED ∧
      (cube_reset cube).get CUBE_SIDE_BOTTOM i j = CUBE_COLOR_ORANGE ∧
      (cube_reset cube).get CUBE_SIDE_LEFT i j = CUBE_COLOR_BLUE ∧
      (cube_reset cube).get CUBE_SIDE_RIGHT i j = CUBE_COLOR_GREEN) ∧
    (cube_reset cube).row = 0 ∧ (cube_reset cube).col = 0 ∧
    (∀ other : Cube_t N, cube_reset other = cube_reset cube) ∧
    cube_reset (cube_reset cube) = cube_reset cube :=
  ⟨fun i j => ⟨get_cube_reset cube _ i j, get_cube_reset cube _ i j, get_cube_reset cube _ i j,
      get_cube_reset cube _ i j, get_cube_reset cube _ i j, get_cube_reset cube _ i j⟩,
    rfl, rfl, fun other => cube_reset_eq other cube, cube_reset_eq _ _⟩

theorem cube_is_solved_cube_reset (cube : Cube_t N) :
    cube_is_solved (cube_reset cube) = true := by
  rw [cube_is_solved_iff_uniform]
  intro s i j
  exact (get_cube_reset cube s i j).trans (get_cube_reset cube s _ _).symm

/-- C22: a freshly reset cube reports solved: for every input cube, `cube_is_solved`
applied to the result of `cube_reset` returns true. -/
theorem reset_cube_is_solved (cube : Cube_t N) : cube_is_solved (cube_reset cube) = true :=
  cube_is_solved_cube_reset cube

/-! ## Cursor (`cube_move_cursor`) -/

theorem face_cube_move_cursor (cube : Cube_t N) (dir : CubeDirection_t) :
    (cube_move_cursor cube dir).face = cube.face := by
  unfold cube_move_cursor
  split_ifs <;> rfl

theorem iterate_up_row_zero (n : Nat) (cube : Cube_t N) (h : cube.row = 0) :
    ((fun c => cube_move_cursor c CUBE_DIRECTION_UP)^[n] cube).row = 0 := by
  induction n generalizing cube with
  | zero => exact h
  | succ n ih =>
    rw [Function.iterate_succ_apply]
    apply ih
    simp [cube_move_cursor, h]

theorem iterate_down_row_last (n : Nat) (cube : Cube_t N) (h : cube.row = N - 1) :
    ((fun c => cube_move_cursor c CUBE_DIRECTION_DOWN)^[n] cube).row = N - 1 := by
  induction n generalizing cube with
  | zero => exact h
  | succ n ih =>
    rw [Function.iterate_succ_apply]
    apply ih
    simp [cube_move_cursor, h]

theorem iterate_left_col_zero (n : Nat) (cube : Cube_t N) (h : cube.col = 0) :
    ((fun c => cube_move_cursor c CUBE_DIRECTION_LEFT)^[n] cube).col = 0 := by
  induction n generalizing cube with
  | zero => exact h
  | succ n ih =>
    rw [Function.iterate_succ_apply]
    apply ih
    simp [cube_move_cursor, h]

theorem iterate_right_col_last (n : Nat) (cube : Cube_t N) (h : cube.col = N - 1) :
    ((fun c => cube_move_cursor c CUBE_DIRECTION_RIGHT)^[n] cube).col = N - 1 := by
  induction n generalizing cube with
  | zero => exact h
  | succ n ih =>
    rw [Function.iterate_succ_apply]
    apply ih
    simp [cube_move_cursor, h]

/-- C23: cursor movement with saturation.  For every cube of an admissible size
(`N ≤ 255`) with `row` and `col` in `[0, N-1]`: `UP` sets `row` to `row-1` if `row > 0` and
leaves it 0 otherwise, `DOWN` sets `row` to `row+1` if `row < N-1` and leaves it `N-1`
otherwise, `LEFT` and `RIGHT` do the same to `col`; `UP`/`DOWN` never change `col`,
`LEFT`/`RIGHT` never change `row`, no face block is changed; and any number of repeated
`UP` moves from row 0 keeps `row` at 0, any number of `DOWN` moves from row `N-1` keeps it
at `N-1`, likewise for `col` with `LEFT` and `RIGHT`. -/
theorem cube_move_cursor_saturates (hN : N ≤ 255) (cube : Cube_t N) (hr : cube.row < N)
    (hc : cube.col < N) :
    ((cube_move_cursor cube CUBE_DIRECTION_UP).row =
        (if 0 < cube.row then cube.row - 1 else 0) ∧
      (cube_move_cursor cube CUBE_DIRECTION_UP).col = cube.col) ∧
    ((cube_move_cursor cube CUBE_DIRECTION_DOWN).row =
        (if cube.row < N - 1 then cube.row + 1 else N - 1) ∧
      (cube_move_cursor cube CUBE_DIRECTION_DOWN).col = cube.col) ∧
    ((cube_move_cursor cube CUBE_DIRECTION_LEFT).col =
        (if 0 < cube.col then cube.col - 1 else 0) ∧
      (cube_move_cursor cube CUBE_DIRECTION_LEFT).row = cube.row) ∧
    ((cube_move_cursor cube CUBE_DIRECTION_RIGHT).col =
        (if cube.col < N - 1 then cube.col + 1 else N - 1) ∧
      (cube_move_cursor cube CUBE_DIRECTION_RIGHT).row = cube.row) ∧
    (∀ dir : CubeDirection_t, (cube_move_cursor cube dir).face = cube.face) ∧
    (∀ n : Nat, cube.row = 0 →
      ((fun c => cube_move_cursor c CUBE_DIRECTION_UP)^[n] cube).row = 0) ∧
    (∀ n : Nat, cube.row = N - 1 →
      ((fun c => cube_move_cursor c CUBE_DIRECTION_DOWN)^[n] cube).row = N - 1) ∧
    (∀ n : Nat, cube.col = 0 →
      ((fun c => cube_move_cursor c CUBE_DIRECTION_LEFT)^[n] cube).col = 0) ∧
    (∀ n : Nat, cube.col = N - 1 →
      ((fun c => cube_move_cursor c CUBE_DIRECTION_RIGHT)^[n] cube).col = N - 1) := by
  refine ⟨⟨?_, ?_⟩, ⟨?_, ?_⟩, ⟨?_, ?_⟩, ⟨?_, ?_⟩, face_cube_move_cursor cube,
    fun n h => iterate_up_row_zero n cube h, fun n h => iterate_down_row_last n cube h,
    fun n h => iterate_left_col_zero n cube h, fun n h => iterate_right_col_last n cube h⟩
  all_goals
    simp only [cube_move_cursor, dir_DOWN_ne_UP, dir_LEFT_ne_UP, dir_LEFT_ne_DOWN,
      dir_RIGHT_ne_UP, dir_RIGHT_ne_DOWN, dir_RIGHT_ne_LEFT, if_true, if_false]
    split_ifs <;> (try dsimp only) <;> omega

/-- C23 at a concrete input: the reset 3×3×3 cube, cursor at (0, 0). -/
theorem cube_move_cursor_saturates_witness :
    3 ≤ 255 ∧ solved3.row < 3 ∧ solved3.col < 3 ∧
    (cube_move_cursor solved3 CUBE_DIRECTION_DOWN).row = 1 ∧
    (cube_move_cursor solved3 CUBE_DIRECTION_UP).row = 0 :=
  ⟨by decide, by decide, by decide,
    (cube_move_cursor_saturates (by decide) solved3 (by decide) (by decide)).2.1.1,
    (cube_move_cursor_saturates (by decide) solved3 (by decide) (by decide)).1.1⟩

theorem applyOp_range (cube : Cube_t N) (op : EngineOp) (hr : cube.row < N)
    (hc : cube.col < N) : ∃ c, applyOp cube op = some c ∧ c.row < N ∧ c.col < N := by
  cases op with
  | rotate dir => exact ⟨_, rfl, by rw [row_cube_rotate]; exact hr,
      by rw [col_cube_rotate]; exact hc⟩
  | rotate_row dir => exact ⟨_, rotate_row_eq_remap cube cube.row hr dir, hr, hc⟩
  | rotate_column dir => exact ⟨_, rotate_column_eq_remap cube cube.col hc dir, hr, hc⟩
  | rotate_front_face dir =>
    refine ⟨_, rfl, ?_, ?_⟩
    · rw [cube_rotate_front_face_eq_remap]; exact hr
    · rw [cube_rotate_front_face_eq_remap]; exact hc
  | move_cursor dir =>
    exact ⟨_, rfl, (cube_move_cursor_range cube dir hr hc).1,
      (cube_move_cursor_range cube dir hr hc).2⟩

theorem applyOps_range (ops : List EngineOp) (cube : Cube_t N) (hr : cube.row < N)
    (hc : cube.col < N) : ∃ c, applyOps cube ops = some c ∧ c.row < N ∧ c.col < N := by
  induction ops generalizing cube with
  | nil => exact ⟨cube, rfl, hr, hc⟩
  | cons op ops ih =>
    obtain ⟨c1, h1, hr1, hc1⟩ := applyOp_range cube op hr hc
    obtain ⟨c2, h2, hr2, hc2⟩ := ih c1 hr1 hc1
    exact ⟨c2, by simp only [applyOps, h1, Option.some_bind, h2], hr2, hc2⟩

/-- C24: cursor range invariant.  `cube_reset` establishes `row ≤ N-1` and `col ≤ N-1`;
every engine operation (`cube_move_cursor`, `cube_rotate`, `cube_rotate_row`,
`cube_rotate_column`, `cube_rotate_front_face`, with any direction value) applied to a cube
satisfying `row ≤ N-1` and `col ≤ N-1` yields a cube that still satisfies it; so in every
state reachable from reset the cursor, which is the index `cube_rotate_row` and
`cube_rotate_column` pass to `rotate_row` / `rotate_column`, is within `[0, N-1]`. -/
theorem cursor_range_invariant (hN : 0 < N) :
    (∀ cube : Cube_t N, (cube_reset cube).row ≤ N - 1 ∧ (cube_reset cube).col ≤ N - 1) ∧
    (∀ (cube : Cube_t N) (op : EngineOp), cube.row ≤ N - 1 → cube.col ≤ N - 1 →
      ∃ c, applyOp cube op = some c ∧ c.row ≤ N - 1 ∧ c.col ≤ N - 1) ∧
    (∀ (cube0 : Cube_t N) (ops : List EngineOp),
      ∃ c, applyOps (cube_reset cube0) ops = some c ∧ c.row < N ∧ c.col < N ∧
        ∀ dir : CubeDirection_t,
          cube_rotate_row c dir = rotate_row c c.row dir ∧
          cube_rotate_column c dir = rotate_column c c.col dir) := by
  refine ⟨fun cube => ⟨Nat.zero_le _, Nat.zero_le _⟩, ?_, ?_⟩
  · intro cube op hr hc
    obtain ⟨c, h, hr1, hc1⟩ := applyOp_range cube op (by omega) (by omega)
    exact ⟨c, h, by omega, by omega⟩
  · intro cube0 ops
    obtain ⟨c, h, hr1, hc1⟩ := applyOps_range ops (cube_reset cube0) hN hN
    exact ⟨c, h, hr1, hc1, fun dir => ⟨rfl, rfl⟩⟩

/-- C24 at a concrete input: size 3, the operations applied to the reset cube. -/
theorem cursor_range_invariant_witness :
    0 < 3 ∧
    ∃ c, applyOps (cube_reset (N := 3) ⟨fun _ => ⟨fun _ _ => CUBE_COLOR_RED⟩, 9, 200⟩)
        [EngineOp.move_cursor CUBE_DIRECTION_DOWN, EngineOp.move_cursor CUBE_DIRECTION_DOWN,
          EngineOp.move_cursor CUBE_DIRECTION_DOWN, EngineOp.rotate_row CUBE_DIRECTION_LEFT,
          EngineOp.move_cursor CUBE_DIRECTION_RIGHT, EngineOp.rotate_column 3] = some c ∧
      c.row < 3 ∧ c.col < 3 :=
  ⟨by decide,
    let ⟨c, h, hr, hc, _⟩ := (cursor_range_invariant (N := 3) (by decide)).2.2 _ _
    ⟨c, h, hr, hc⟩⟩

/-! ## Unrecognised directions -/

theorem rotate_row_other (cube : Cube_t N) (row : Nat) (dir : CubeDirection_t)
    (h1 : dir ≠ CUBE_DIRECTION_LEFT) (h2 : dir ≠ CUBE_DIRECTION_RIGHT) :
    rotate_row cube row dir = some cube := by
  simp only [rotate_row, if_neg h1, if_neg h2]

theorem rotate_column_other (cube : Cube_t N) (col : Nat) (dir : CubeDirection_t)
    (h1 : dir ≠ CUBE_DIRECTION_UP) (h2 : dir ≠ CUBE_DIRECTION_DOWN) :
    rotate_column cube col dir = some cube := by
  simp only [rotate_column, if_neg h1, if_neg h2]

theorem cube_rotate_front_face_other (cube : Cube_t N) (dir : CubeDirection_t)
    (h1 : dir ≠ CUBE_DIRECTION_CW) (h2 : dir ≠ CUBE_DIRECTION_CCW) :
    cube_rotate_front_face cube dir = cube := by
  simp only [cube_rotate_front_face, if_neg h1, if_neg h2]

theorem cube_rotate_other (cube : Cube_t N) (dir : CubeDirection_t)
    (h1 : dir ≠ CUBE_DIRECTION_UP) (h2 : dir ≠ CUBE_DIRECTION_DOWN)
    (h3 : dir ≠ CUBE_DIRECTION_LEFT) (h4 : dir ≠ CUBE_DIRECTION_RIGHT) :
    cube_rotate cube dir = cube := by
  simp only [cube_rotate, if_neg h1, if_neg h2, if_neg h3, if_neg h4]

theorem cube_move_cursor_other (cube : Cube_t N) (dir : CubeDirection_t)
    (h1 : dir ≠ CUBE_DIRECTION_UP) (h2 : dir ≠ CUBE_DIRECTION_DOWN)
    (h3 : dir ≠ CUBE_DIRECTION_LEFT) (h4 : dir ≠ CUBE_DIRECTION_RIGHT) :
    cube_move_cursor cube dir = cube := by
  simp only [cube_move_cursor, if_neg h1, if_neg h2, if_neg h3, if_neg h4]

/-- C25: unrecognised directions are no-ops.  For every cube (whatever its cursor) and
every direction value, values outside the enumeration included, the cube is returned
completely unchanged by `rotate_face` with a direction other than `CW`/`CCW`, by
`rotate_row` and `cube_rotate_row` with a direction other than `LEFT`/`RIGHT`, by
`rotate_column` and `cube_rotate_column` with a direction other than `UP`/`DOWN`, by
`cube_rotate` and `cube_move_cursor` with a direction other than
`UP`/`DOWN`/`LEFT`/`RIGHT`, and by `cube_rotate_front_face` with a direction other than
`CW`/`CCW`. -/
theorem unrecognised_directions_are_noops (cube : Cube_t N) (face : CubeFace_t N)
    (dir : CubeDirection_t) :
    (dir ≠ CUBE_DIRECTION_CW → dir ≠ CUBE_DIRECTION_CCW → rotate_face face dir = face) ∧
    (dir ≠ CUBE_DIRECTION_LEFT → dir ≠ CUBE_DIRECTION_RIGHT →
      cube_rotate_row cube dir = some cube ∧ ∀ row : Nat, rotate_row cube row dir = some cube) ∧
    (dir ≠ CUBE_DIRECTION_UP → dir ≠ CUBE_DIRECTION_DOWN →
      cube_rotate_column cube dir = some cube ∧
      ∀ col : Nat, rotate_column cube col dir = some cube) ∧
    (dir ≠ CUBE_DIRECTION_UP → dir ≠ CUBE_DIRECTION_DOWN → dir ≠ CUBE_DIRECTION_LEFT →
      dir ≠ CUBE_DIRECTION_RIGHT →
      cube_rotate cube dir = cube ∧ cube_move_cursor cube dir = cube) ∧
    (dir ≠ CUBE_DIRECTION_CW → dir ≠ CUBE_DIRECTION_CCW →
      cube_rotate_front_face cube dir = cube) :=
  ⟨fun h1 h2 => rotate_face_other face dir h1 h2,
    fun h1 h2 => ⟨rotate_row_other cube _ dir h1 h2, fun row => rotate_row_other cube row dir h1 h2⟩,
    fun h1 h2 =>
      ⟨rotate_column_other cube _ dir h1 h2, fun col => rotate_column_other cube col dir h1 h2⟩,
    fun h1 h2 h3 h4 => ⟨cube_rotate_other cube dir h1 h2 h3 h4,
      cube_move_cursor_other cube dir h1 h2 h3 h4⟩,
    fun h1 h2 => cube_rotate_front_face_other cube dir h1 h2⟩

/-- C25 at concrete inputs: the value `CUBE_DIRECTION_COUNT` and the value `-1`, both
outside the enumeration, on the cube `twisted3`. -/
theorem unrecognised_directions_are_noops_witness :
    cube_rotate twisted3 CUBE_DIRECTION_COUNT = twisted3 ∧
    cube_move_cursor twisted3 CUBE_DIRECTION_COUNT = twisted3 ∧
    cube_rotate_row twisted3 (-1) = some twisted3 ∧
    cube_rotate_column twisted3 (-1) = some twisted3 ∧
    cube_rotate_front_face twisted3 (-1) = twisted3 ∧
    rotate_face (twisted3.face CUBE_SIDE_FRONT) CUBE_DIRECTION_UP =
      twisted3.face CUBE_SIDE_FRONT :=
  ⟨((unrecognised_directions_are_noops twisted3 (twisted3.face CUBE_SIDE_FRONT)
      CUBE_DIRECTION_COUNT).2.2.2.1 (by decide) (by decide) (by decide) (by decide)).1,
    ((unrecognised_directions_are_noops twisted3 (twisted3.face CUBE_SIDE_FRONT)
      CUBE_DIRECTION_COUNT).2.2.2.1 (by decide) (by decide) (by decide) (by decide)).2,
    ((unrecognised_directions_are_noops twisted3 (twisted3.face CUBE_SIDE_FRONT)
      (-1)).2.1 (by decide) (by decide)).1,
    ((unrecognised_directions_are_noops twisted3 (twisted3.face CUBE_SIDE_FRONT)
      (-1)).2.2.1 (by decide) (by decide)).1,
    (unrecognised_directions_are_noops twisted3 (twisted3.face CUBE_SIDE_FRONT)
      (-1)).2.2.2.2 (by decide) (by decide),
    (unrecognised_directions_are_noops twisted3 (twisted3.face CUBE_SIDE_FRONT)
      CUBE_DIRECTION_UP).1 (by decide) (by decide)⟩

/-! ## Column rotation touches only its slice -/

theorem colSlot_off_ring (col : Fin N) (s : CubeSide_t) (a b : Fin N) (ha : a ≠ col) :
    colSlot col (s, a, b) = none := by
  cases s <;> simp [colSlot, ha]

theorem rotate_column_src_other_column (col : Fin N) (dir : CubeDirection_t)
    (s : CubeSide_t) (a b : Fin N) (ha : a ≠ col)
    (hs : s = CUBE_SIDE_TOP ∨ s = CUBE_SIDE_FRONT ∨ s = CUBE_SIDE_BOTTOM ∨ s = CUBE_SIDE_BACK) :
    rotate_column_src col dir (s, a, b) = (s, a, b) := by
  refine rotate_column_src_off_ring col dir _ (colSlot_off_ring col s a b ha) ?_ ?_ <;>
    rcases hs with rfl | rfl | rfl | rfl <;> simp

theorem rotate_column_frame_dir (cube : Cube_t N) (col : Fin N) (dir : CubeDirection_t) :
    ∃ c, rotate_column cube col.val dir = some c ∧
      (∀ a b : Fin N, a ≠ col →
        c.get CUBE_SIDE_TOP a b = cube.get CUBE_SIDE_TOP a b ∧
        c.get CUBE_SIDE_FRONT a b = cube.get CUBE_SIDE_FRONT a b ∧
        c.get CUBE_SIDE_BOTTOM a b = cube.get CUBE_SIDE_BOTTOM a b ∧
        c.get CUBE_SIDE_BACK a b = cube.get CUBE_SIDE_BACK a b) ∧
      c.row = cube.row ∧ c.col = cube.col := by
  refine ⟨_, rotate_column_eq_remap cube col.val col.isLt dir, ?_, rfl, rfl⟩
  intro a b ha
  simp only [get_remap, Fin.eta]
  rw [rotate_column_src_other_column col dir _ a b ha (Or.inl rfl),
    rotate_column_src_other_column col dir _ a b ha (Or.inr (Or.inl rfl)),
    rotate_column_src_other_column col dir _ a b ha (Or.inr (Or.inr (Or.inl rfl))),
    rotate_column_src_other_column col dir _ a b ha (Or.inr (Or.inr (Or.inr rfl)))]
  exact ⟨rfl, rfl, rfl, rfl⟩

/-- C30: column rotation touches only its slice.  For every cube, every column in
`[0, N-1]` and each of the directions `UP` and `DOWN`, `rotate_column` leaves unchanged
every block of Top, Front, Bottom and Back whose first index is not `col` and leaves the
cursor unchanged; and it uses the same un-mirrored index `[col][i]` on all four ring faces,
Back included: after `UP`, `Back[col][i]` holds the old `Top[col][i]` and `Bottom[col][i]`
the old `Back[col][i]`; after `DOWN`, `Back[col][i]` holds the old `Bottom[col][i]` and
`Top[col][i]` the old `Back[col][i]`. -/
theorem rotate_column_touches_only_its_slice (cube : Cube_t N) (col : Fin N) :
    (∃ c, rotate_column cube col.val CUBE_DIRECTION_UP = some c ∧
      (∀ a b : Fin N, a ≠ col →
        c.get CUBE_SIDE_TOP a b = cube.get CUBE_SIDE_TOP a b ∧
        c.get CUBE_SIDE_FRONT a b = cube.get CUBE_SIDE_FRONT a b ∧
        c.get CUBE_SIDE_BOTTOM a b = cube.get CUBE_SIDE_BOTTOM a b ∧
        c.get CUBE_SIDE_BACK a b = cube.get CUBE_SIDE_BACK a b) ∧
      (∀ i : Fin N,
        c.get CUBE_SIDE_BACK col i = cube.get CUBE_SIDE_TOP col i ∧
        c.get CUBE_SIDE_BOTTOM col i = cube.get CUBE_SIDE_BACK col i) ∧
      c.row = cube.row ∧ c.col = cube.col) ∧
    (∃ c, rotate_column cube col.val CUBE_DIRECTION_DOWN = some c ∧
      (∀ a b : Fin N, a ≠ col →
        c.get CUBE_SIDE_TOP a b = cube.get CUBE_SIDE_TOP a b ∧
        c.get CUBE_SIDE_FRONT a b = cube.get CUBE_SIDE_FRONT a b ∧
        c.get CUBE_SIDE_BOTTOM a b = cube.get CUBE_SIDE_BOTTOM a b ∧
        c.get CUBE_SIDE_BACK a b = cube.get CUBE_SIDE_BACK a b) ∧
      (∀ i : Fin N,
        c.get CUBE_SIDE_BACK col i = cube.get CUBE_SIDE_BOTTOM col i ∧
        c.get CUBE_SIDE_TOP col i = cube.get CUBE_SIDE_BACK col i) ∧
      c.row = cube.row ∧ c.col = cube.col) := by
  constructor
  · obtain ⟨c, h, hf, hr, hc⟩ := rotate_column_frame_dir cube col CUBE_DIRECTION_UP
    refine ⟨c, h, hf, ?_, hr, hc⟩
    have e := rotate_column_eq_remap cube col.val col.isLt CUBE_DIRECTION_UP
    rw [h] at e
    cases Option.some.inj e
    intro i
    have h3 := rotate_column_src_up_ring col 3 i
    have h2 := rotate_column_src_up_ring col 2 i
    simp only [get_remap]
    exact ⟨congrArg cube.colorAt h3, congrArg cube.colorAt h2⟩
  · obtain ⟨c, h, hf, hr, hc⟩ := rotate_column_frame_dir cube col CUBE_DIRECTION_DOWN
    refine ⟨c, h, hf, ?_, hr, hc⟩
    have e := rotate_column_eq_remap cube col.val col.isLt CUBE_DIRECTION_DOWN
    rw [h] at e
    cases Option.some.inj e
    intro i
    have h3 := rotate_column_src_down_ring col 3 i
    have h0 := rotate_column_src_down_ring col 0 i
    simp only [get_remap]
    exact ⟨congrArg cube.colorAt h3, congrArg cube.colorAt h0⟩

/-! ## Shuffle (`cube_shuffle`) -/

theorem applyMoves_append (cube : Cube_t N) (l1 l2 : List (LegalMove N)) :
    applyMoves cube (l1 ++ l2) = (applyMoves cube l1).bind fun c => applyMoves c l2 := by
  induction l1 generalizing cube with
  | nil => rfl
  | cons m ms ih =>
    show (applyMove cube m).bind (fun c => applyMoves c (ms ++ l2)) =
      ((applyMove cube m).bind fun c => applyMoves c ms).bind fun c => applyMoves c l2
    cases applyMove cube m with
    | none => rfl
    | some c => simp only [Option.some_bind, ih]

/-- A legal move re-indexes the cube by a bijection of positions. -/
theorem applyMove_eq_remap (cube : Cube_t N) (m : LegalMove N) :
    ∃ src : Pos N → Pos N, Function.Bijective src ∧ applyMove cube m = some (cube.remap src) := by
  cases m with
  | row r dir => exact ⟨_, rotate_row_src_bijective r dir, rotate_row_eq_remap cube r.val r.isLt dir⟩
  | column c dir =>
    exact ⟨_, rotate_column_src_bijective c dir, rotate_column_eq_remap cube c.val c.isLt dir⟩
  | front dir =>
    exact ⟨_, cube_rotate_front_face_src_bijective dir, by
      rw [applyMove, cube_rotate_front_face_eq_remap]⟩

/-- Legal moves keep the colour census and the cursor. -/
theorem applyMoves_keeps (moves : List (LegalMove N)) (cube c : Cube_t N)
    (h : applyMoves cube moves = some c) :
    (∀ k, c.count k = cube.count k) ∧ c.row = cube.row ∧ c.col = cube.col := by
  induction moves generalizing cube with
  | nil =>
    cases Option.some.inj h
    exact ⟨fun _ => rfl, rfl, rfl⟩
  | cons m ms ih =>
    obtain ⟨src, hb, hm⟩ := applyMove_eq_remap cube m
    simp only [applyMoves, hm, Option.some_bind] at h
    obtain ⟨h1, h2, h3⟩ := ih _ h
    exact ⟨fun k => by rw [h1, count_remap _ _ hb], h2, h3⟩

/-- One pass of the inner loop with indices within the face is three legal moves. -/
theorem shuffle_pass_legal (cube : Cube_t N) (row col : Nat) (hr : row < N) (hc : col < N)
    (dir : CubeDirection_t) :
    ∃ c, shuffle_pass cube row col dir = some c ∧
      applyMoves cube [LegalMove.row ⟨row, hr⟩ dir, LegalMove.column ⟨col, hc⟩ dir,
        LegalMove.front dir] = some c := by
  refine ⟨cube_rotate_front_face ((cube.remap (rotate_row_src ⟨row, hr⟩ dir)).remap
    (rotate_column_src ⟨col, hc⟩ dir)) dir, ?_, ?_⟩
  · simp only [shuffle_pass, rotate_row_eq_remap cube row hr dir,
      rotate_column_eq_remap _ col hc dir]
  · simp only [applyMoves, applyMove, rotate_row_eq_remap cube row hr dir,
      rotate_column_eq_remap _ col hc dir, Option.some_bind]

/-- The inner loop ends and amounts to a sequence of legal moves. -/
theorem shuffle_inner_legal (rand : Nat → Nat) (hN : 2 ≤ N) (row col : Nat) (hr : row < N)
    (hc : col < N) (dir : CubeDirection_t) (n : Nat) :
    ∀ (j k : Nat) (cube : Cube_t N), N - 1 - j ≤ n →
      ∃ (c : Cube_t N) (k1 : Nat) (moves : List (LegalMove N)),
        shuffle_inner rand hN row col dir j k cube = some (c, k1) ∧
        applyMoves cube moves = some c := by
  induction n with
  | zero =>
    intro j k cube hj
    have hr := Nat.mod_lt (rand k) (show 0 < N - 1 by omega)
    have hcond : ¬ j < rand k % (N - 1) := by omega
    rw [shuffle_inner, if_neg hcond]
    exact ⟨cube, k + 1, [], rfl, rfl⟩
  | succ n ih =>
    intro j k cube hj
    rw [shuffle_inner]
    by_cases hcond : j < rand k % (N - 1)
    · rw [if_pos hcond]
      obtain ⟨c1, h1, m1⟩ := shuffle_pass_legal cube row col hr hc dir
      obtain ⟨c2, k2, moves, h2, m2⟩ := ih (j + 1) (k + 1) c1 (by omega)
      refine ⟨c2, k2, [LegalMove.row ⟨row, hr⟩ dir, LegalMove.column ⟨col, hc⟩ dir,
        LegalMove.front dir] ++ moves, ?_, ?_⟩
      · simp only [h1, h2]
      · rw [applyMoves_append, m1, Option.some_bind, m2]
    · rw [if_neg hcond]
      exact ⟨cube, k + 1, [], rfl, rfl⟩

/-- The outer loop ends and amounts to a sequence of legal moves. -/
theorem shuffle_outer_legal (rand : Nat → Nat) (hN : 2 ≤ N) (n : Nat) :
    ∀ (k : Nat) (cube : Cube_t N),
      ∃ (c : Cube_t N) (k1 : Nat) (moves : List (LegalMove N)),
        shuffle_outer rand hN n k cube = some (c, k1) ∧ applyMoves cube moves = some c := by
  induction n with
  | zero =>
    intro k cube
    exact ⟨cube, k, [], rfl, rfl⟩
  | succ n ih =>
    intro k cube
    have h1 := Nat.mod_lt (rand k) (show 0 < N - 1 by omega)
    have h2 := Nat.mod_lt (rand (k + 1)) (show 0 < N - 1 by omega)
    have h3 := Nat.mod_le (rand k % (N - 1)) 256
    have h4 := Nat.mod_le (rand (k + 1) % (N - 1)) 256
    obtain ⟨c1, k1, m1, e1, a1⟩ := shuffle_inner_legal rand hN (rand k % (N - 1) % 256)
      (rand (k + 1) % (N - 1) % 256) (by omega) (by omega)
      ((rand (k + 2) % 5 : Nat) : Int) (N - 1) 0 (k + 3) cube (by omega)
    obtain ⟨c2, k2, m2, e2, a2⟩ := ih k1 c1
    refine ⟨c2, k2, m1 ++ m2, ?_, ?_⟩
    · simp only [shuffle_outer, e1, e2]
    · rw [applyMoves_append, a1, Option.some_bind, a2]

/-- `cube_shuffle` returns a cube reached by legal moves, for every size from 2. -/
theorem cube_shuffle_legal (hN : 2 ≤ N) (rand : Nat → Nat) (cube : Cube_t N) :
    ∃ (c : Cube_t N) (moves : List (LegalMove N)),
      cube_shuffle rand cube = some c ∧ applyMoves cube moves = some c := by
  obtain ⟨c, k1, moves, e, a⟩ := shuffle_outer_legal rand hN 1000 0 cube
  exact ⟨c, moves, by simp only [cube_shuffle, dif_pos hN, e, Option.map_some'], a⟩

/-- C26: shuffle only applies legal moves.  For every input cube (`N ≥ 2`) and every
sequence of values returned by `rand()`, `cube_shuffle` returns, and the cube it produces
is the input cube transformed by some finite sequence of calls to `rotate_row` (row in
`[0, N-1]`), `rotate_column` (column in `[0, N-1]`) and `cube_rotate_front_face`;
consequently the number of facelets of each colour and the cursor are the same before and
after `cube_shuffle`. -/
theorem shuffle_applies_legal_moves (hN : 2 ≤ N) (rand : Nat → Nat) (cube : Cube_t N) :
    ∃ (c : Cube_t N) (moves : List (LegalMove N)),
      cube_shuffle rand cube = some c ∧ applyMoves cube moves = some c ∧
      (∀ k : CubeColor_t, c.count k = cube.count k) ∧ c.row = cube.row ∧ c.col = cube.col := by
  obtain ⟨c, moves, e, a⟩ := cube_shuffle_legal hN rand cube
  exact ⟨c, moves, e, a, applyMoves_keeps moves cube c a⟩

/-- C26 at a concrete input: the reset 3×3×3 cube and the sequence `rand() = k*k + 1` at
the `k`-th call. -/
theorem shuffle_applies_legal_moves_witness :
    2 ≤ 3 ∧
    ∃ (c : Cube_t 3) (moves : List (LegalMove 3)),
      cube_shuffle (fun k => k * k + 1) solved3 = some c ∧ applyMoves solved3 moves = some c ∧
      (∀ k : CubeColor_t, c.count k = solved3.count k) ∧ c.row = solved3.row ∧
      c.col = solved3.col :=
  ⟨by decide, shuffle_applies_legal_moves (by decide) _ _⟩

/-! ## Game layer (`reset_game`, `cube_game_init`, `cube_game_run`) -/

theorem reset_game_some (hN : 2 ≤ N) (game : CubeGame_t N) (rand : Nat → Nat) (now : Nat) :
    ∃ g, reset_game game rand now = some g ∧ g.isSolved = false ∧ g.turns = 0 ∧
      g.time = now ∧ g.cube.row = 0 ∧ g.cube.col = 0 := by
  obtain ⟨c, moves, e, a⟩ := cube_shuffle_legal hN rand (cube_reset game.cube)
  obtain ⟨_, hr, hc⟩ := applyMoves_keeps moves _ c a
  exact ⟨{ game with cube := c, turns := 0, time := now, isSolved := false },
    by simp only [reset_game, e], rfl, rfl, rfl, hr, hc⟩

theorem reset_game_isSolved (game g : CubeGame_t N) (rand : Nat → Nat) (now : Nat)
    (h : reset_game game rand now = some g) : g.isSolved = false := by
  unfold reset_game at h
  cases hc : cube_shuffle rand (cube_reset game.cube) with
  | none =>
    rw [hc] at h
    exact Option.noConfusion h
  | some c =>
    rw [hc] at h
    rw [← Option.some.inj h]

/-- With the cursor within the face the second switch of `cube_game_run` always returns. -/
theorem game_control_switch_some (game : CubeGame_t N) (c : CubeGameControl_t)
    (hr : game.cube.row < N) (hc : game.cube.col < N) :
    ∃ g, game_control_switch game c = some g := by
  unfold game_control_switch
  by_cases h0 : c = GAME_CONTROL_MOVE_CURSOR_UP
  · rw [if_pos h0]
    exact ⟨_, rfl⟩
  rw [if_neg h0]
  by_cases h1 : c = GAME_CONTROL_MOVE_CURSOR_DOWN
  · rw [if_pos h1]
    exact ⟨_, rfl⟩
  rw [if_neg h1]
  by_cases h2 : c = GAME_CONTROL_MOVE_CURSOR_LEFT
  · rw [if_pos h2]
    exact ⟨_, rfl⟩
  rw [if_neg h2]
  by_cases h3 : c = GAME_CONTROL_MOVE_CURSOR_RIGHT
  · rw [if_pos h3]
    exact ⟨_, rfl⟩
  rw [if_neg h3]
  by_cases h4 : c = GAME_CONTROL_ROTATE_CUBE_UP
  · rw [if_pos h4]
    exact ⟨_, rfl⟩
  rw [if_neg h4]
  by_cases h5 : c = GAME_CONTROL_ROTATE_CUBE_DOWN
  · rw [if_pos h5]
    exact ⟨_, rfl⟩
  rw [if_neg h5]
  by_cases h6 : c = GAME_CONTROL_ROTATE_CUBE_LEFT
  · rw [if_pos h6]
    exact ⟨_, rfl⟩
  rw [if_neg h6]
  by_cases h7 : c = GAME_CONTROL_ROTATE_CUBE_RIGHT
  · rw [if_pos h7]
    exact ⟨_, rfl⟩
  rw [if_neg h7]
  by_cases h8 : c = GAME_CONTROL_ROTATE_COL_UP
  · rw [if_pos h8, cube_rotate_column, rotate_column_eq_remap _ _ hc]
    exact ⟨_, rfl⟩
  rw [if_neg h8]
  by_cases h9 : c = GAME_CONTROL_ROTATE_COL_DOWN
  · rw [if_pos h9, cube_rotate_column, rotate_column_eq_remap _ _ hc]
    exact ⟨_, rfl⟩
  rw [if_neg h9]
  by_cases h10 : c = GAME_CONTROL_ROTATE_ROW_LEFT
  · rw [if_pos h10, cube_rotate_row, rotate_row_eq_remap _ _ hr]
    exact ⟨_, rfl⟩
  rw [if_neg h10]
  by_cases h11 : c = GAME_CONTROL_ROTATE_ROW_RIGHT
  · rw [if_pos h11, cube_rotate_row, rotate_row_eq_remap _ _ hr]
    exact ⟨_, rfl⟩
  rw [if_neg h11]
  by_cases h12 : c = GAME_CONTROL_ROTATE_FRONT_FACE_CCW
  · rw [if_pos h12]
    exact ⟨_, rfl⟩
  rw [if_neg h12]
  by_cases h13 : c = GAME_CONTROL_ROTATE_FRONT_FACE_CW
  · rw [if_pos h13]
    exact ⟨_, rfl⟩
  rw [if_neg h13]
  exact ⟨_, rfl⟩

/-- The six turn controls increment `turns`. -/
theorem game_control_switch_turn (game : CubeGame_t N) (c : CubeGameControl_t)
    (hr : game.cube.row < N) (hc : game.cube.col < N)
    (h : c = GAME_CONTROL_ROTATE_ROW_LEFT ∨ c = GAME_CONTROL_ROTATE_ROW_RIGHT ∨
      c = GAME_CONTROL_ROTATE_COL_UP ∨ c = GAME_CONTROL_ROTATE_COL_DOWN ∨
      c = GAME_CONTROL_ROTATE_FRONT_FACE_CW ∨ c = GAME_CONTROL_ROTATE_FRONT_FACE_CCW) :
    ∃ g, game_control_switch game c = some g ∧ g.turns = (game.turns + 1) % 2 ^ 32 := by
  unfold game_control_switch
  rcases h with rfl | rfl | rfl | rfl | rfl | rfl <;>
    simp only [GAME_CONTROL_NEW, GAME_CONTROL_EXIT, GAME_CONTROL_MOVE_CURSOR_UP,
      GAME_CONTROL_MOVE_CURSOR_DOWN, GAME_CONTROL_MOVE_CURSOR_LEFT, GAME_CONTROL_MOVE_CURSOR_RIGHT,
      GAME_CONTROL_ROTATE_ROW_LEFT, GAME_CONTROL_ROTATE_ROW_RIGHT, GAME_CONTROL_ROTATE_COL_UP,
      GAME_CONTROL_ROTATE_COL_DOWN, GAME_CONTROL_ROTATE_CUBE_UP, GAME_CONTROL_ROTATE_CUBE_DOWN,
      GAME_CONTROL_ROTATE_CUBE_LEFT, GAME_CONTROL_ROTATE_CUBE_RIGHT,
      GAME_CONTROL_ROTATE_FRONT_FACE_CW, GAME_CONTROL_ROTATE_FRONT_FACE_CCW, GAME_CONTROL_UNKNOWN,
      Int.reduceEq, if_true, if_false, cube_rotate_row, cube_rotate_column,
      rotate_row_eq_remap _ _ hr, rotate_column_eq_remap _ _ hc] <;>
    exact ⟨_, rfl, by with_reducible rfl⟩

/-- Cursor moves, whole-cube rotations and the unknown control leave `turns` alone. -/
theorem game_control_switch_free (game : CubeGame_t N) (c : CubeGameControl_t)
    (h : c = GAME_CONTROL_MOVE_CURSOR_UP ∨ c = GAME_CONTROL_MOVE_CURSOR_DOWN ∨
      c = GAME_CONTROL_MOVE_CURSOR_LEFT ∨ c = GAME_CONTROL_MOVE_CURSOR_RIGHT ∨
      c = GAME_CONTROL_ROTATE_CUBE_UP ∨ c = GAME_CONTROL_ROTATE_CUBE_DOWN ∨
      c = GAME_CONTROL_ROTATE_CUBE_LEFT ∨ c = GAME_CONTROL_ROTATE_CUBE_RIGHT ∨
      c = GAME_CONTROL_UNKNOWN) :
    ∃ g, game_control_switch game c = some g ∧ g.turns = game.turns := by
  unfold game_control_switch
  rcases h with rfl | rfl | rfl | rfl | rfl | rfl | rfl | rfl | rfl <;>
    simp only [GAME_CONTROL_NEW, GAME_CONTROL_EXIT, GAME_CONTROL_MOVE_CURSOR_UP,
      GAME_CONTROL_MOVE_CURSOR_DOWN, GAME_CONTROL_MOVE_CURSOR_LEFT, GAME_CONTROL_MOVE_CURSOR_RIGHT,
      GAME_CONTROL_ROTATE_ROW_LEFT, GAME_CONTROL_ROTATE_ROW_RIGHT, GAME_CONTROL_ROTATE_COL_UP,
      GAME_CONTROL_ROTATE_COL_DOWN, GAME_CONTROL_ROTATE_CUBE_UP, GAME_CONTROL_ROTATE_CUBE_DOWN,
      GAME_CONTROL_ROTATE_CUBE_LEFT, GAME_CONTROL_ROTATE_CUBE_RIGHT,
      GAME_CONTROL_ROTATE_FRONT_FACE_CW, GAME_CONTROL_ROTATE_FRONT_FACE_CCW, GAME_CONTROL_UNKNOWN,
      Int.reduceEq, if_true, if_false] <;>
    exact ⟨_, rfl, by with_reducible rfl⟩

/-- The controls other than `NEW` and `EXIT` go straight to the rest of the function. -/
theorem cube_game_run_eq_rest (game : CubeGame_t N) (c : CubeGameControl_t)
    (rand : Nat → Nat) (now : Nat) (h1 : c ≠ GAME_CONTROL_NEW) (h2 : c ≠ GAME_CONTROL_EXIT) :
    cube_game_run game c rand now =
      cube_game_run_rest game c
        [DriverCall.drawCube, DriverCall.printStatistics game.turns game.time,
          DriverCall.inputGet] := by
  simp only [cube_game_run, if_neg h1, if_neg h2]

/-- Whatever the rest of `cube_game_run` returns, it returns `true`, the flag agrees with
the cube, and the solved notification is added only for a solved cube. -/
theorem cube_game_run_rest_spec (game : CubeGame_t N) (c : CubeGameControl_t)
    (calls : List DriverCall) (res : RunResult N)
    (hinv : game.isSolved = true → cube_is_solved game.cube = true)
    (h : cube_game_run_rest game c calls = some res) :
    res.ret = true ∧ res.game.isSolved = cube_is_solved res.game.cube ∧
      (res.calls = calls ∨
        (res.calls = calls ++ [DriverCall.cubeSolved] ∧
          cube_is_solved res.game.cube = true)) := by
  unfold cube_game_run_rest at h
  by_cases hs : game.isSolved = true
  · rw [if_pos hs] at h
    cases Option.some.inj h
    exact ⟨rfl, by rw [hs, hinv hs], Or.inl rfl⟩
  · rw [if_neg hs] at h
    cases hg : game_control_switch game c with
    | none =>
      rw [hg] at h
      exact Option.noConfusion h
    | some g =>
      rw [hg] at h
      dsimp only at h
      by_cases hsol : cube_is_solved g.cube = true
      · rw [if_pos hsol] at h
        cases Option.some.inj h
        exact ⟨rfl, rfl, Or.inr ⟨rfl, hsol⟩⟩
      · rw [if_neg hsol] at h
        cases Option.some.inj h
        exact ⟨rfl, rfl, Or.inl rfl⟩

/-- From an unsolved game, the rest of `cube_game_run` returns what the switch leaves, with
the solved flag recomputed. -/
theorem cube_game_run_rest_of_switch (game g : CubeGame_t N) (c : CubeGameControl_t)
    (calls : List DriverCall) (hs : game.isSolved = false)
    (h : game_control_switch game c = some g) :
    ∃ res, cube_game_run_rest game c calls = some res ∧ res.ret = true ∧
      res.game.turns = g.turns ∧ res.game.cube = g.cube := by
  unfold cube_game_run_rest
  rw [if_neg (by rw [hs]; exact Bool.false_ne_true), h]
  dsimp only
  by_cases hsol : cube_is_solved g.cube = true
  · rw [if_pos hsol]
    exact ⟨_, rfl, rfl, rfl, rfl⟩
  · rw [if_neg hsol]
    exact ⟨_, rfl, rfl, rfl, rfl⟩

/-- With the cursor within the face the rest of `cube_game_run` always returns. -/
theorem cube_game_run_rest_some (game : CubeGame_t N) (c : CubeGameControl_t)
    (calls : List DriverCall) (hr : game.cube.row < N) (hc : game.cube.col < N) :
    ∃ res, cube_game_run_rest game c calls = some res := by
  cases hs : game.isSolved with
  | true => exact ⟨⟨true, game, calls⟩, by simp only [cube_game_run_rest, hs, if_true]⟩
  | false =>
    obtain ⟨g, hg⟩ := game_control_switch_some game c hr hc
    obtain ⟨res, h, _⟩ := cube_game_run_rest_of_switch game g c calls hs hg
    exact ⟨res, h⟩

/-- With a size from 2 and the cursor within the face `cube_game_run` always returns. -/
theorem cube_game_run_some (hN : 2 ≤ N) (game : CubeGame_t N) (c : CubeGameControl_t)
    (rand : Nat → Nat) (now : Nat) (hr : game.cube.row < N) (hc : game.cube.col < N) :
    ∃ res, cube_game_run game c rand now = some res := by
  unfold cube_game_run
  by_cases h1 : c = GAME_CONTROL_NEW
  · rw [if_pos h1]
    obtain ⟨g, hg, _, _, _, hr0, hc0⟩ := reset_game_some hN game rand now
    rw [hg]
    exact cube_game_run_rest_some g c _ (by omega) (by omega)
  · rw [if_neg h1]
    by_cases h2 : c = GAME_CONTROL_EXIT
    · rw [if_pos h2]
      exact ⟨_, rfl⟩
    · rw [if_neg h2]
      exact cube_game_run_rest_some game c _ hr hc

theorem cube_game_run_rest_ret (game : CubeGame_t N) (c : CubeGameControl_t)
    (calls : List DriverCall) (res : RunResult N)
    (h : cube_game_run_rest game c calls = some res) : res.ret = true := by
  unfold cube_game_run_rest at h
  by_cases hs : game.isSolved = true
  · rw [if_pos hs] at h
    cases Option.some.inj h
    rfl
  · rw [if_neg hs] at h
    cases hg : game_control_switch game c with
    | none =>
      rw [hg] at h
      exact Option.noConfusion h
    | some g =>
      rw [hg] at h
      dsimp only at h
      by_cases hsol : cube_is_solved g.cube = true
      · rw [if_pos hsol] at h
        cases Option.some.inj h
        rfl
      · rw [if_neg hsol] at h
        cases Option.some.inj h
        rfl

/-- The row turn controls increment `turns` (cursor row within the face). -/
theorem game_control_switch_row (game : CubeGame_t N) (c : CubeGameControl_t)
    (hr : game.cube.row < N)
    (h : c = GAME_CONTROL_ROTATE_ROW_LEFT ∨ c = GAME_CONTROL_ROTATE_ROW_RIGHT) :
    ∃ g, game_control_switch game c = some g ∧ g.turns = (game.turns + 1) % 2 ^ 32 := by
  unfold game_control_switch
  rcases h with rfl | rfl <;>
    simp only [GAME_CONTROL_NEW, GAME_CONTROL_EXIT, GAME_CONTROL_MOVE_CURSOR_UP,
      GAME_CONTROL_MOVE_CURSOR_DOWN, GAME_CONTROL_MOVE_CURSOR_LEFT, GAME_CONTROL_MOVE_CURSOR_RIGHT,
      GAME_CONTROL_ROTATE_ROW_LEFT, GAME_CONTROL_ROTATE_ROW_RIGHT, GAME_CONTROL_ROTATE_COL_UP,
      GAME_CONTROL_ROTATE_COL_DOWN, GAME_CONTROL_ROTATE_CUBE_UP, GAME_CONTROL_ROTATE_CUBE_DOWN,
      GAME_CONTROL_ROTATE_CUBE_LEFT, GAME_CONTROL_ROTATE_CUBE_RIGHT,
      GAME_CONTROL_ROTATE_FRONT_FACE_CW, GAME_CONTROL_ROTATE_FRONT_FACE_CCW, GAME_CONTROL_UNKNOWN,
      Int.reduceEq, if_true, if_false, cube_rotate_row, rotate_row_eq_remap _ _ hr] <;>
    exact ⟨_, rfl, by with_reducible rfl⟩

/-- The column turn controls increment `turns` (cursor column within the face). -/
theorem game_control_switch_col (game : CubeGame_t N) (c : CubeGameControl_t)
    (hc : game.cube.col < N)
    (h : c = GAME_CONTROL_ROTATE_COL_UP ∨ c = GAME_CONTROL_ROTATE_COL_DOWN) :
    ∃ g, game_control_switch game c = some g ∧ g.turns = (game.turns + 1) % 2 ^ 32 := by
  unfold game_control_switch
  rcases h with rfl | rfl <;>
    simp only [GAME_CONTROL_NEW, GAME_CONTROL_EXIT, GAME_CONTROL_MOVE_CURSOR_UP,
      GAME_CONTROL_MOVE_CURSOR_DOWN, GAME_CONTROL_MOVE_CURSOR_LEFT, GAME_CONTROL_MOVE_CURSOR_RIGHT,
      GAME_CONTROL_ROTATE_ROW_LEFT, GAME_CONTROL_ROTATE_ROW_RIGHT, GAME_CONTROL_ROTATE_COL_UP,
      GAME_CONTROL_ROTATE_COL_DOWN, GAME_CONTROL_ROTATE_CUBE_UP, GAME_CONTROL_ROTATE_CUBE_DOWN,
      GAME_CONTROL_ROTATE_CUBE_LEFT, GAME_CONTROL_ROTATE_CUBE_RIGHT,
      GAME_CONTROL_ROTATE_FRONT_FACE_CW, GAME_CONTROL_ROTATE_FRONT_FACE_CCW, GAME_CONTROL_UNKNOWN,
      Int.reduceEq, if_true, if_false, cube_rotate_column, rotate_column_eq_remap _ _ hc] <;>
    exact ⟨_, rfl, by with_reducible rfl⟩

/-- The front twist controls increment `turns`. -/
theorem game_control_switch_front (game : CubeGame_t N) (c : CubeGameControl_t)
    (h : c = GAME_CONTROL_ROTATE_FRONT_FACE_CW ∨ c = GAME_CONTROL_ROTATE_FRONT_FACE_CCW) :
    ∃ g, game_control_switch game c = some g ∧ g.turns = (game.turns + 1) % 2 ^ 32 := by
  unfold game_control_switch
  rcases h with rfl | rfl <;>
    simp only [GAME_CONTROL_NEW, GAME_CONTROL_EXIT, GAME_CONTROL_MOVE_CURSOR_UP,
      GAME_CONTROL_MOVE_CURSOR_DOWN, GAME_CONTROL_MOVE_CURSOR_LEFT, GAME_CONTROL_MOVE_CURSOR_RIGHT,
      GAME_CONTROL_ROTATE_ROW_LEFT, GAME_CONTROL_ROTATE_ROW_RIGHT, GAME_CONTROL_ROTATE_COL_UP,
      GAME_CONTROL_ROTATE_COL_DOWN, GAME_CONTROL_ROTATE_CUBE_UP, GAME_CONTROL_ROTATE_CUBE_DOWN,
      GAME_CONTROL_ROTATE_CUBE_LEFT, GAME_CONTROL_ROTATE_CUBE_RIGHT,
      GAME_CONTROL_ROTATE_FRONT_FACE_CW, GAME_CONTROL_ROTATE_FRONT_FACE_CCW, GAME_CONTROL_UNKNOWN,
      Int.reduceEq, if_true, if_false] <;>
    exact ⟨_, rfl, by with_reducible rfl⟩

/-- From an unsolved game and a control other than `NEW` and `EXIT`, `cube_game_run`
returns `true` with the turn counter the switch leaves. -/
theorem cube_game_run_of_switch (game g : CubeGame_t N) (c : CubeGameControl_t)
    (rand : Nat → Nat) (now : Nat) (hs : game.isSolved = false)
    (h1 : c ≠ GAME_CONTROL_NEW) (h2 : c ≠ GAME_CONTROL_EXIT)
    (hg : game_control_switch game c = some g) :
    ∃ res, cube_game_run game c rand now = some res ∧ res.ret = true ∧
      res.game.turns = g.turns := by
  obtain ⟨res, hres, hret, hturns, _⟩ := cube_game_run_rest_of_switch game g c
    [DriverCall.drawCube, DriverCall.printStatistics game.turns game.time,
      DriverCall.inputGet] hs hg
  exact ⟨res, by rw [cube_game_run_eq_rest game c rand now h1 h2, hres], hret, hturns⟩

/-- C27: turn counting.  For every game state with `isSolved = false` on entry,
`cube_game_run` increases `turns` by exactly 1 modulo 2^32 when the control is one of
`ROTATE_ROW_LEFT`, `ROTATE_ROW_RIGHT` (cursor row within the face), `ROTATE_COL_UP`,
`ROTATE_COL_DOWN` (cursor column within the face), `ROTATE_FRONT_FACE_CW`,
`ROTATE_FRONT_FACE_CCW`, and leaves `turns` unchanged when the control is a cursor move, a
whole-cube rotation or `UNKNOWN`. -/
theorem turn_counting (game : CubeGame_t N) (c : CubeGameControl_t) (rand : Nat → Nat)
    (now : Nat) (hs : game.isSolved = false) :
    ((c = GAME_CONTROL_ROTATE_ROW_LEFT ∨ c = GAME_CONTROL_ROTATE_ROW_RIGHT) →
      game.cube.row < N →
      ∃ res, cube_game_run game c rand now = some res ∧ res.ret = true ∧
        res.game.turns = (game.turns + 1) % 2 ^ 32) ∧
    ((c = GAME_CONTROL_ROTATE_COL_UP ∨ c = GAME_CONTROL_ROTATE_COL_DOWN) →
      game.cube.col < N →
      ∃ res, cube_game_run game c rand now = some res ∧ res.ret = true ∧
        res.game.turns = (game.turns + 1) % 2 ^ 32) ∧
    ((c = GAME_CONTROL_ROTATE_FRONT_FACE_CW ∨ c = GAME_CONTROL_ROTATE_FRONT_FACE_CCW) →
      ∃ res, cube_game_run game c rand now = some res ∧ res.ret = true ∧
        res.game.turns = (game.turns + 1) % 2 ^ 32) ∧
    ((c = GAME_CONTROL_MOVE_CURSOR_UP ∨ c = GAME_CONTROL_MOVE_CURSOR_DOWN ∨
        c = GAME_CONTROL_MOVE_CURSOR_LEFT ∨ c = GAME_CONTROL_MOVE_CURSOR_RIGHT ∨
        c = GAME_CONTROL_ROTATE_CUBE_UP ∨ c = GAME_CONTROL_ROTATE_CUBE_DOWN ∨
        c = GAME_CONTROL_ROTATE_CUBE_LEFT ∨ c = GAME_CONTROL_ROTATE_CUBE_RIGHT ∨
        c = GAME_CONTROL_UNKNOWN) →
      ∃ res, cube_game_run game c rand now = some res ∧ res.ret = true ∧
        res.game.turns = game.turns) := by
  refine ⟨?_, ?_, ?_, ?_⟩
  · intro h hr
    have h1 : c ≠ GAME_CONTROL_NEW := by rcases h with rfl | rfl <;> decide
    have h2 : c ≠ GAME_CONTROL_EXIT := by rcases h with rfl | rfl <;> decide
    obtain ⟨g, hg, ht⟩ := game_control_switch_row game c hr h
    obtain ⟨res, hres, hret, hturns⟩ := cube_game_run_of_switch game g c rand now hs h1 h2 hg
    exact ⟨res, hres, hret, by rw [hturns, ht]⟩
  · intro h hc
    have h1 : c ≠ GAME_CONTROL_NEW := by rcases h with rfl | rfl <;> decide
    have h2 : c ≠ GAME_CONTROL_EXIT := by rcases h with rfl | rfl <;> decide
    obtain ⟨g, hg, ht⟩ := game_control_switch_col game c hc h
    obtain ⟨res, hres, hret, hturns⟩ := cube_game_run_of_switch game g c rand now hs h1 h2 hg
    exact ⟨res, hres, hret, by rw [hturns, ht]⟩
  · intro h
    have h1 : c ≠ GAME_CONTROL_NEW := by rcases h with rfl | rfl <;> decide
    have h2 : c ≠ GAME_CONTROL_EXIT := by rcases h with rfl | rfl <;> decide
    obtain ⟨g, hg, ht⟩ := game_control_switch_front game c h
    obtain ⟨res, hres, hret, hturns⟩ := cube_game_run_of_switch game g c rand now hs h1 h2 hg
    exact ⟨res, hres, hret, by rw [hturns, ht]⟩
  · intro h
    have h1 : c ≠ GAME_CONTROL_NEW := by
      rcases h with rfl | rfl | rfl | rfl | rfl | rfl | rfl | rfl | rfl <;> decide
    have h2 : c ≠ GAME_CONTROL_EXIT := by
      rcases h with rfl | rfl | rfl | rfl | rfl | rfl | rfl | rfl | rfl <;> decide
    obtain ⟨g, hg, ht⟩ := game_control_switch_free game c h
    obtain ⟨res, hres, hret, hturns⟩ := cube_game_run_of_switch game g c rand now hs h1 h2 hg
    exact ⟨res, hres, hret, by rw [hturns, ht]⟩

/-- C27 at a concrete input: the game `sampleGame` with 41 turns; a row turn gives 42, a
cursor move leaves 41. -/
theorem turn_counting_witness :
    sampleGame.isSolved = false ∧
    (∃ res, cube_game_run sampleGame GAME_CONTROL_ROTATE_ROW_LEFT (fun k => k) 0 = some res ∧
      res.ret = true ∧ res.game.turns = 42) ∧
    (∃ res, cube_game_run sampleGame GAME_CONTROL_MOVE_CURSOR_DOWN (fun k => k) 0 = some res ∧
      res.ret = true ∧ res.game.turns = 41) :=
  ⟨rfl,
    (turn_counting sampleGame GAME_CONTROL_ROTATE_ROW_LEFT (fun k => k) 0 rfl).1 (Or.inl rfl)
      (by decide),
    (turn_counting sampleGame GAME_CONTROL_MOVE_CURSOR_DOWN (fun k => k) 0 rfl).2.2.2
      (Or.inr (Or.inl rfl))⟩

/-- C28: exit signalling.  For every game state and control: with `GAME_CONTROL_EXIT`
`cube_game_run` returns `false` and leaves the game (cube, turn counter, `isSolved`)
unchanged; whatever it returns, it returns `false` if and only if the control is
`GAME_CONTROL_EXIT`; and for every other control (size from 2, cursor within the face) it
returns, and returns `true`. -/
theorem exit_signalling (game : CubeGame_t N) (c : CubeGameControl_t) (rand : Nat → Nat)
    (now : Nat) :
    (c = GAME_CONTROL_EXIT →
      ∃ res, cube_game_run game c rand now = some res ∧ res.ret = false ∧ res.game = game) ∧
    (∀ res, cube_game_run game c rand now = some res →
      (res.ret = false ↔ c = GAME_CONTROL_EXIT)) ∧
    (2 ≤ N → game.cube.row < N → game.cube.col < N → c ≠ GAME_CONTROL_EXIT →
      ∃ res, cube_game_run game c rand now = some res ∧ res.ret = true) := by
  have key : ∀ res, cube_game_run game c rand now = some res →
      (res.ret = false ↔ c = GAME_CONTROL_EXIT) := by
    intro res h
    unfold cube_game_run at h
    by_cases h1 : c = GAME_CONTROL_NEW
    · rw [if_pos h1] at h
      have hne : c ≠ GAME_CONTROL_EXIT := by rw [h1]; decide
      cases hg : reset_game game rand now with
      | none =>
        rw [hg] at h
        exact Option.noConfusion h
      | some g =>
        rw [hg] at h
        have := cube_game_run_rest_ret g c _ res h
        simp only [this, hne]
        decide
    · rw [if_neg h1] at h
      by_cases h2 : c = GAME_CONTROL_EXIT
      · rw [if_pos h2] at h
        cases Option.some.inj h
        simp only [h2]
      · rw [if_neg h2] at h
        have := cube_game_run_rest_ret game c _ res h
        simp only [this, h2]
        decide
  refine ⟨?_, key, ?_⟩
  · intro h
    have hne : c ≠ GAME_CONTROL_NEW := by rw [h]; decide
    exact ⟨⟨false, game, [DriverCall.drawCube, DriverCall.printStatistics game.turns game.time,
      DriverCall.inputGet]⟩, by simp only [cube_game_run, if_neg hne, if_pos h], rfl, rfl⟩
  · intro hN hr hc hne
    obtain ⟨res, h⟩ := cube_game_run_some hN game c rand now hr hc
    refine ⟨res, h, ?_⟩
    have := (key res h).not.mpr hne
    simpa using this

/-- C28 at concrete inputs: `EXIT` and a control outside the enumeration on
`sampleGame`. -/
theorem exit_signalling_witness :
    (∃ res, cube_game_run sampleGame GAME_CONTROL_EXIT (fun k => k) 0 = some res ∧
      res.ret = false ∧ res.game = sampleGame) ∧
    (∃ res, cube_game_run sampleGame 99 (fun k => k) 0 = some res ∧ res.ret = true) :=
  ⟨(exit_signalling sampleGame GAME_CONTROL_EXIT (fun k => k) 0).1 rfl,
    (exit_signalling sampleGame 99 (fun k => k) 0).2.2 (by decide) (by decide) (by decide)
      (by decide)⟩

theorem cubeSolved_not_mem_base (t tm : Nat) :
    DriverCall.cubeSolved ∉
      [DriverCall.drawCube, DriverCall.printStatistics t tm, DriverCall.inputGet] := by
  simp

theorem cube_game_init_isSolved (game g : CubeGame_t N) (rand : Nat → Nat) (now : Nat)
    (calls : List DriverCall) (h : cube_game_init game rand now = some (g, calls)) :
    g.isSolved = false := by
  unfold cube_game_init at h
  cases hg : reset_game game rand now with
  | none =>
    rw [hg] at h
    exact Option.noConfusion h
  | some g1 =>
    rw [hg] at h
    have e := Option.some.inj h
    have e1 : g1 = g := congrArg Prod.fst e
    rw [← e1]
    exact reset_game_isSolved game g1 rand now hg

/-- C29: the solved flag tracks the cube.  For every game state in which `isSolved = true`
implies `cube_is_solved(cube)`, after any call of `cube_game_run` that returns `true` the
flag `isSolved` equals `cube_is_solved` of the resulting cube, and the solved-notification
callback is invoked in that call only if the resulting cube is solved.  The call does
return for a size from 2 and a cursor within the face, and the state `cube_game_init`
leaves has `isSolved = false`, so it satisfies the premise. -/
theorem solved_flag_tracks_cube (game : CubeGame_t N) (c : CubeGameControl_t)
    (rand : Nat → Nat) (now : Nat)
    (hinv : game.isSolved = true → cube_is_solved game.cube = true) :
    (∀ res, cube_game_run game c rand now = some res → res.ret = true →
      res.game.isSolved = cube_is_solved res.game.cube ∧
      (DriverCall.cubeSolved ∈ res.calls → cube_is_solved res.game.cube = true)) ∧
    (2 ≤ N → game.cube.row < N → game.cube.col < N →
      ∃ res, cube_game_run game c rand now = some res) ∧
    (∀ (g0 g : CubeGame_t N) (rand0 : Nat → Nat) (now0 : Nat) (calls : List DriverCall),
      cube_game_init g0 rand0 now0 = some (g, calls) →
        (g.isSolved = true → cube_is_solved g.cube = true)) := by
  refine ⟨?_, fun hN hr hc => cube_game_run_some hN game c rand now hr hc, ?_⟩
  · intro res h hret
    have fin : ∀ (g : CubeGame_t N),
        (g.isSolved = true → cube_is_solved g.cube = true) →
        cube_game_run_rest g c [DriverCall.drawCube,
          DriverCall.printStatistics game.turns game.time, DriverCall.inputGet] = some res →
        res.game.isSolved = cube_is_solved res.game.cube ∧
          (DriverCall.cubeSolved ∈ res.calls → cube_is_solved res.game.cube = true) := by
      intro g hg hrest
      obtain ⟨_, hflag, hcalls⟩ := cube_game_run_rest_spec g c _ res hg hrest
      refine ⟨hflag, ?_⟩
      intro hmem
      rcases hcalls with hc1 | ⟨_, hsol⟩
      · rw [hc1] at hmem
        exact absurd hmem (cubeSolved_not_mem_base _ _)
      · exact hsol
    unfold cube_game_run at h
    by_cases h1 : c = GAME_CONTROL_NEW
    · rw [if_pos h1] at h
      cases hg : reset_game game rand now with
      | none =>
        rw [hg] at h
        exact Option.noConfusion h
      | some g =>
        rw [hg] at h
        have hfalse := reset_game_isSolved game g rand now hg
        exact fin g (fun ht => by rw [hfalse] at ht; exact Bool.noConfusion ht) h
    · rw [if_neg h1] at h
      by_cases h2 : c = GAME_CONTROL_EXIT
      · rw [if_pos h2] at h
        cases Option.some.inj h
        exact Bool.noConfusion hret
      · rw [if_neg h2] at h
        exact fin game hinv h
  · intro g0 g rand0 now0 calls h ht
    rw [cube_game_init_isSolved g0 g rand0 now0 calls h] at ht
    exact Bool.noConfusion ht

/-- C29 at a concrete input: `nearlySolvedGame` and the counter-clockwise front twist that
solves its cube. -/
theorem solved_flag_tracks_cube_witness :
    (nearlySolvedGame.isSolved = true → cube_is_solved nearlySolvedGame.cube = true) ∧
    (∀ res, cube_game_run nearlySolvedGame GAME_CONTROL_ROTATE_FRONT_FACE_CCW (fun k => k) 0 =
        some res → res.ret = true →
      res.game.isSolved = cube_is_solved res.game.cube ∧
      (DriverCall.cubeSolved ∈ res.calls → cube_is_solved res.game.cube = true)) ∧
    (∃ res, cube_game_run nearlySolvedGame GAME_CONTROL_ROTATE_FRONT_FACE_CCW (fun k => k) 0 =
        some res) ∧
    ((cube_game_run nearlySolvedGame GAME_CONTROL_ROTATE_FRONT_FACE_CCW (fun k => k) 0).map
      fun res => (res.ret, res.game.isSolved, res.calls)) =
      some (true, true, [DriverCall.drawCube, DriverCall.printStatistics 7 0,
        DriverCall.inputGet, DriverCall.cubeSolved]) :=
  ⟨fun h => Bool.noConfusion h,
    (solved_flag_tracks_cube nearlySolvedGame GAME_CONTROL_ROTATE_FRONT_FACE_CCW (fun k => k) 0
      (fun h => Bool.noConfusion h)).1,
    (solved_flag_tracks_cube nearlySolvedGame GAME_CONTROL_ROTATE_FRONT_FACE_CCW (fun k => k) 0
      (fun h => Bool.noConfusion h)).2.1 (by decide) (by decide) (by decide),
    by decide⟩

/-! ## Whole-cube rotation as a turn of every layer -/

/-- Composition of position maps indexed by distinct layers, at a position that only the
layer `c0` moves: the composition acts like the map of `c0` alone. -/
theorem foldr_single_layer (f : Fin N → Pos N → Pos N) (c0 : Fin N) (q q1 : Pos N)
    (hq : f c0 q = q1) (h1 : ∀ c, c ≠ c0 → f c q = q) (h2 : ∀ c, c ≠ c0 → f c q1 = q1)
    (l : List (Fin N)) (hnd : l.Nodup) :
    l.foldr f q = if c0 ∈ l then q1 else q := by
  induction l with
  | nil => simp
  | cons c l ih =>
    rw [List.nodup_cons] at hnd
    rw [List.foldr_cons, ih hnd.2]
    by_cases hc : c = c0
    · subst hc
      rw [if_neg hnd.1, if_pos (List.mem_cons_self _ _), hq]
    · by_cases hm : c0 ∈ l
      · rw [if_pos hm, if_pos (List.mem_cons_of_mem _ hm), h2 c hc]
      · have hm2 : c0 ∉ c :: l := by
          intro h
          rcases List.mem_cons.mp h with h | h
          · exact hc h.symm
          · exact hm h
        rw [if_neg hm, if_neg hm2, h1 c hc]

theorem turn_columns_eq_remap (dir : CubeDirection_t) (l : List (Fin N)) :
    ∀ cube : Cube_t N, turn_columns cube dir l =
      some (cube.remap fun q => l.foldr (fun c p => rotate_column_src c dir p) q) := by
  induction l with
  | nil =>
    intro cube
    simp only [turn_columns, List.foldr_nil]
    rw [remap_id cube _ (fun _ => rfl)]
  | cons c cs ih =>
    intro cube
    simp only [turn_columns, rotate_column_eq_remap cube c.val c.isLt dir, Option.some_bind, ih,
      remap_remap, List.foldr_cons, Fin.eta]

theorem turn_rows_eq_remap (dir : CubeDirection_t) (l : List (Fin N)) :
    ∀ cube : Cube_t N, turn_rows cube dir l =
      some (cube.remap fun q => l.foldr (fun r p => rotate_row_src r dir p) q) := by
  induction l with
  | nil =>
    intro cube
    simp only [turn_rows, List.foldr_nil]
    rw [remap_id cube _ (fun _ => rfl)]
  | cons c cs ih =>
    intro cube
    simp only [turn_rows, rotate_row_eq_remap cube c.val c.isLt dir, Option.some_bind, ih,
      remap_remap, List.foldr_cons, Fin.eta]

/-- A column turn leaves a block of top, front, bottom or back in another column where it
is. -/
theorem rotate_column_src_fixed_ring (c : Fin N) (dir : CubeDirection_t) (s : CubeSide_t)
    (a b : Fin N) (hc : c ≠ a)
    (hs : s = CUBE_SIDE_TOP ∨ s = CUBE_SIDE_FRONT ∨ s = CUBE_SIDE_BOTTOM ∨ s = CUBE_SIDE_BACK) :
    rotate_column_src c dir (s, a, b) = (s, a, b) :=
  rotate_column_src_other_column c dir s a b (Ne.symm hc) hs

/-- A column turn of a column other than 0 leaves the left face as it is. -/
theorem rotate_column_src_fixed_left (c : Fin N) (dir : CubeDirection_t) (a b : Fin N)
    (hc : c.val ≠ 0) :
    rotate_column_src c dir (CUBE_SIDE_LEFT, a, b) = (CUBE_SIDE_LEFT, a, b) := by
  by_cases h1 : dir = CUBE_DIRECTION_UP
  · rw [h1, rotate_column_src_up_left, if_neg hc]
  by_cases h2 : dir = CUBE_DIRECTION_DOWN
  · rw [h2, rotate_column_src_down_left, if_neg hc]
  simp only [rotate_column_src, if_neg h1, if_neg h2]

/-- A column turn of a column other than `N-1` leaves the right face as it is. -/
theorem rotate_column_src_fixed_right (c : Fin N) (dir : CubeDirection_t) (a b : Fin N)
    (hc : c.val ≠ N - 1) :
    rotate_column_src c dir (CUBE_SIDE_RIGHT, a, b) = (CUBE_SIDE_RIGHT, a, b) := by
  by_cases h1 : dir = CUBE_DIRECTION_UP
  · rw [h1, rotate_column_src_up_right, if_neg hc]
  by_cases h2 : dir = CUBE_DIRECTION_DOWN
  · rw [h2, rotate_column_src_down_right, if_neg hc]
  simp only [rotate_column_src, if_neg h1, if_neg h2]

/-- A row turn leaves a block of left, front or right in another row where it is. -/
theorem rotate_row_src_fixed_ring (r : Fin N) (dir : CubeDirection_t) (s : CubeSide_t)
    (a b : Fin N) (hr : r ≠ b)
    (hs : s = CUBE_SIDE_LEFT ∨ s = CUBE_SIDE_FRONT ∨ s = CUBE_SIDE_RIGHT) :
    rotate_row_src r dir (s, a, b) = (s, a, b) := by
  refine rotate_row_src_off_ring r dir _ (rowSlot_off_ring r s a b hs (Ne.symm hr)) ?_ ?_ <;>
    rcases hs with rfl | rfl | rfl <;> simp

/-- A row turn leaves a block of the back face in another (mirrored) row where it is. -/
theorem rotate_row_src_fixed_back (r : Fin N) (dir : CubeDirection_t) (a b : Fin N)
    (hr : r ≠ mirror b) :
    rotate_row_src r dir (CUBE_SIDE_BACK, a, b) = (CUBE_SIDE_BACK, a, b) := by
  have hb : b ≠ mirror r := by
    intro h
    apply hr
    rw [h, mirror_mirror]
  refine rotate_row_src_off_ring r dir _ (rowSlot_off_ring_back r a b hb) ?_ ?_ <;> simp

/-- A row turn of a row other than 0 leaves the top face as it is. -/
theorem rotate_row_src_fixed_top (r : Fin N) (dir : CubeDirection_t) (a b : Fin N)
    (hr : r.val ≠ 0) :
    rotate_row_src r dir (CUBE_SIDE_TOP, a, b) = (CUBE_SIDE_TOP, a, b) := by
  by_cases h1 : dir = CUBE_DIRECTION_LEFT
  · rw [h1, rotate_row_src_left_top, if_neg hr]
  by_cases h2 : dir = CUBE_DIRECTION_RIGHT
  · rw [h2, rotate_row_src_right_top, if_neg hr]
  simp only [rotate_row_src, if_neg h1, if_neg h2]

/-- A row turn of a row other than `N-1` leaves the bottom face as it is. -/
theorem rotate_row_src_fixed_bottom (r : Fin N) (dir : CubeDirection_t) (a b : Fin N)
    (hr : r.val ≠ N - 1) :
    rotate_row_src r dir (CUBE_SIDE_BOTTOM, a, b) = (CUBE_SIDE_BOTTOM, a, b) := by
  by_cases h1 : dir = CUBE_DIRECTION_LEFT
  · rw [h1, rotate_row_src_left_bottom, if_neg hr]
  by_cases h2 : dir = CUBE_DIRECTION_RIGHT
  · rw [h2, rotate_row_src_right_bottom, if_neg hr]
  simp only [rotate_row_src, if_neg h1, if_neg h2]

theorem fin_ne_of_val_ne {a b : Fin N} (h : a ≠ b) : a.val ≠ b.val :=
  fun e => h (Fin.ext e)

/-- Turning the columns of a list that holds every column once, up or down, moves every
block as the whole-cube rotation in that direction does. -/
theorem turn_columns_src (dir : CubeDirection_t)
    (hd : dir = CUBE_DIRECTION_UP ∨ dir = CUBE_DIRECTION_DOWN) (l : List (Fin N))
    (hnd : l.Nodup) (hall : ∀ c : Fin N, c ∈ l) (q : Pos N) :
    l.foldr (fun c p => rotate_column_src c dir p) q = cube_rotate_src dir q := by
  obtain ⟨s, a, b⟩ := q
  have hlo : (0 : Nat) < N := a.pos
  have hhi : N - 1 < N := by omega
  have ring : ∀ (s1 : CubeSide_t),
      (s = CUBE_SIDE_TOP ∨ s = CUBE_SIDE_FRONT ∨ s = CUBE_SIDE_BOTTOM ∨ s = CUBE_SIDE_BACK) →
      (s1 = CUBE_SIDE_TOP ∨ s1 = CUBE_SIDE_FRONT ∨ s1 = CUBE_SIDE_BOTTOM ∨
        s1 = CUBE_SIDE_BACK) →
      rotate_column_src a dir (s, a, b) = (s1, a, b) →
      l.foldr (fun c p => rotate_column_src c dir p) (s, a, b) = (s1, a, b) := by
    intro s1 hs hs1 hq
    rw [foldr_single_layer (fun c p => rotate_column_src c dir p) a (s, a, b) (s1, a, b) hq
      (fun c hc => rotate_column_src_fixed_ring c dir s a b hc hs)
      (fun c hc => rotate_column_src_fixed_ring c dir s1 a b hc hs1) l hnd, if_pos (hall a)]
  have left : ∀ (a1 b1 : Fin N),
      s = CUBE_SIDE_LEFT →
      rotate_column_src ⟨0, hlo⟩ dir (CUBE_SIDE_LEFT, a, b) = (CUBE_SIDE_LEFT, a1, b1) →
      l.foldr (fun c p => rotate_column_src c dir p) (s, a, b) = (CUBE_SIDE_LEFT, a1, b1) := by
    intro a1 b1 hs hq
    subst hs
    rw [foldr_single_layer (fun c p => rotate_column_src c dir p) ⟨0, hlo⟩ _ _ hq
      (fun c hc => rotate_column_src_fixed_left c dir a b (fin_ne_of_val_ne hc))
      (fun c hc => rotate_column_src_fixed_left c dir a1 b1 (fin_ne_of_val_ne hc)) l hnd,
      if_pos (hall _)]
  have right : ∀ (a1 b1 : Fin N),
      s = CUBE_SIDE_RIGHT →
      rotate_column_src ⟨N - 1, hhi⟩ dir (CUBE_SIDE_RIGHT, a, b) = (CUBE_SIDE_RIGHT, a1, b1) →
      l.foldr (fun c p => rotate_column_src c dir p) (s, a, b) = (CUBE_SIDE_RIGHT, a1, b1) := by
    intro a1 b1 hs hq
    subst hs
    rw [foldr_single_layer (fun c p => rotate_column_src c dir p) ⟨N - 1, hhi⟩ _ _ hq
      (fun c hc => rotate_column_src_fixed_right c dir a b (fin_ne_of_val_ne hc))
      (fun c hc => rotate_column_src_fixed_right c dir a1 b1 (fin_ne_of_val_ne hc)) l hnd,
      if_pos (hall _)]
  rcases hd with rfl | rfl
  · cases s
    · exact ring CUBE_SIDE_BOTTOM (by simp) (by simp) (rotate_column_src_up_ring a 1 b)
    · exact ring CUBE_SIDE_TOP (by simp) (by simp) (rotate_column_src_up_ring a 3 b)
    · exact ring CUBE_SIDE_FRONT (by simp) (by simp) (rotate_column_src_up_ring a 0 b)
    · exact ring CUBE_SIDE_BACK (by simp) (by simp) (rotate_column_src_up_ring a 2 b)
    · exact left (mirror b) a rfl
        (by rw [rotate_column_src_up_left, if_pos rfl])
    · exact right b (mirror a) rfl
        (by rw [rotate_column_src_up_right, if_pos rfl])
  · cases s
    · exact ring CUBE_SIDE_TOP (by simp) (by simp) (rotate_column_src_down_ring a 1 b)
    · exact ring CUBE_SIDE_BOTTOM (by simp) (by simp) (rotate_column_src_down_ring a 3 b)
    · exact ring CUBE_SIDE_BACK (by simp) (by simp) (rotate_column_src_down_ring a 0 b)
    · exact ring CUBE_SIDE_FRONT (by simp) (by simp) (rotate_column_src_down_ring a 2 b)
    · exact left b (mirror a) rfl
        (by rw [rotate_column_src_down_left, if_pos rfl])
    · exact right (mirror b) a rfl
        (by rw [rotate_column_src_down_right, if_pos rfl])


/-- The back blocks on the ring of a row, read with the indices of the back face. -/
theorem rowPos_back (a b : Fin N) :
    rowPos (mirror b) 3 (mirror a) = (CUBE_SIDE_BACK, a, b) := by
  show (CUBE_SIDE_BACK, mirror (mirror a), mirror (mirror b)) = _
  rw [mirror_mirror, mirror_mirror]

/-- Turning the rows of a list that holds every row once, left or right, moves every block
as the whole-cube rotation in that direction does. -/
theorem turn_rows_src (dir : CubeDirection_t)
    (hd : dir = CUBE_DIRECTION_LEFT ∨ dir = CUBE_DIRECTION_RIGHT) (l : List (Fin N))
    (hnd : l.Nodup) (hall : ∀ r : Fin N, r ∈ l) (q : Pos N) :
    l.foldr (fun r p => rotate_row_src r dir p) q = cube_rotate_src dir q := by
  obtain ⟨s, a, b⟩ := q
  have hlo : (0 : Nat) < N := a.pos
  have hhi : N - 1 < N := by omega
  have key : ∀ (r0 : Fin N) (q q1 : Pos N), rotate_row_src r0 dir q = q1 →
      (∀ r, r ≠ r0 → rotate_row_src r dir q = q) →
      (∀ r, r ≠ r0 → rotate_row_src r dir q1 = q1) →
      l.foldr (fun r p => rotate_row_src r dir p) q = q1 := by
    intro r0 q q1 hq h1 h2
    rw [foldr_single_layer (fun r p => rotate_row_src r dir p) r0 q q1 hq h1 h2 l hnd,
      if_pos (hall r0)]
  have fr : ∀ (s1 : CubeSide_t) (a1 : Fin N),
      s1 = CUBE_SIDE_LEFT ∨ s1 = CUBE_SIDE_FRONT ∨ s1 = CUBE_SIDE_RIGHT →
      ∀ r, r ≠ b → rotate_row_src r dir (s1, a1, b) = (s1, a1, b) :=
    fun s1 a1 hs r hr => rotate_row_src_fixed_ring r dir s1 a1 b hr hs
  have frm : ∀ (s1 : CubeSide_t) (a1 : Fin N),
      s1 = CUBE_SIDE_LEFT ∨ s1 = CUBE_SIDE_FRONT ∨ s1 = CUBE_SIDE_RIGHT →
      ∀ r, r ≠ mirror b → rotate_row_src r dir (s1, a1, mirror b) = (s1, a1, mirror b) :=
    fun s1 a1 hs r hr => rotate_row_src_fixed_ring r dir s1 a1 (mirror b) hr hs
  have fb : ∀ (a1 : Fin N) r, r ≠ mirror b →
      rotate_row_src r dir (CUBE_SIDE_BACK, a1, b) = (CUBE_SIDE_BACK, a1, b) :=
    fun a1 r hr => rotate_row_src_fixed_back r dir a1 b hr
  have fbm : ∀ (a1 : Fin N) r, r ≠ b →
      rotate_row_src r dir (CUBE_SIDE_BACK, a1, mirror b) = (CUBE_SIDE_BACK, a1, mirror b) :=
    fun a1 r hr => rotate_row_src_fixed_back r dir a1 (mirror b)
      (by rw [mirror_mirror]; exact hr)
  have ft : ∀ (a1 b1 : Fin N) (r : Fin N), r ≠ ⟨0, hlo⟩ →
      rotate_row_src r dir (CUBE_SIDE_TOP, a1, b1) = (CUBE_SIDE_TOP, a1, b1) :=
    fun a1 b1 r hr => rotate_row_src_fixed_top r dir a1 b1 (fin_ne_of_val_ne hr)
  have fbt : ∀ (a1 b1 : Fin N) (r : Fin N), r ≠ ⟨N - 1, hhi⟩ →
      rotate_row_src r dir (CUBE_SIDE_BOTTOM, a1, b1) = (CUBE_SIDE_BOTTOM, a1, b1) :=
    fun a1 b1 r hr => rotate_row_src_fixed_bottom r dir a1 b1 (fin_ne_of_val_ne hr)
  rcases hd with rfl | rfl
  · cases s
    · exact key b _ (CUBE_SIDE_RIGHT, a, b) (rotate_row_src_left_ring b 1 a)
        (fr _ _ (by simp)) (fr _ _ (by simp))
    · refine key (mirror b) _ (CUBE_SIDE_LEFT, mirror a, mirror b) ?_ (fb _)
        (frm _ _ (by simp))
      have h := rotate_row_src_left_ring (mirror b) 3 (mirror a)
      rw [rowPos_back] at h
      exact h
    · exact key ⟨0, hlo⟩ _ (CUBE_SIDE_TOP, b, mirror a)
        (by rw [rotate_row_src_left_top, if_pos rfl]) (ft _ _) (ft _ _)
    · exact key ⟨N - 1, hhi⟩ _ (CUBE_SIDE_BOTTOM, mirror b, a)
        (by rw [rotate_row_src_left_bottom, if_pos rfl]) (fbt _ _) (fbt _ _)
    · exact key b _ (CUBE_SIDE_FRONT, a, b) (rotate_row_src_left_ring b 0 a)
        (fr _ _ (by simp)) (fr _ _ (by simp))
    · exact key b _ (CUBE_SIDE_BACK, mirror a, mirror b) (rotate_row_src_left_ring b 2 a)
        (fr _ _ (by simp)) (fbm _)
  · cases s
    · exact key b _ (CUBE_SIDE_LEFT, a, b) (rotate_row_src_right_ring b 1 a)
        (fr _ _ (by simp)) (fr _ _ (by simp))
    · refine key (mirror b) _ (CUBE_SIDE_RIGHT, mirror a, mirror b) ?_ (fb _)
        (frm _ _ (by simp))
      have h := rotate_row_src_right_ring (mirror b) 3 (mirror a)
      rw [rowPos_back] at h
      exact h
    · exact key ⟨0, hlo⟩ _ (CUBE_SIDE_TOP, mirror b, a)
        (by rw [rotate_row_src_right_top, if_pos rfl]) (ft _ _) (ft _ _)
    · exact key ⟨N - 1, hhi⟩ _ (CUBE_SIDE_BOTTOM, b, mirror a)
        (by rw [rotate_row_src_right_bottom, if_pos rfl]) (fbt _ _) (fbt _ _)
    · exact key b _ (CUBE_SIDE_BACK, mirror a, mirror b) (rotate_row_src_right_ring b 0 a)
        (fr _ _ (by simp)) (fbm _)
    · exact key b _ (CUBE_SIDE_FRONT, a, b) (rotate_row_src_right_ring b 2 a)
        (fr _ _ (by simp)) (fr _ _ (by simp))

theorem turn_columns_all (cube : Cube_t N) (dir : CubeDirection_t)
    (hd : dir = CUBE_DIRECTION_UP ∨ dir = CUBE_DIRECTION_DOWN) (l : List (Fin N))
    (hl : l.Perm (List.finRange N)) : turn_columns cube dir l = some (cube_rotate cube dir) := by
  rw [turn_columns_eq_remap, cube_rotate_eq_remap]
  exact congrArg some (remap_congr cube _ _ (turn_columns_src dir hd l
    (hl.nodup_iff.mpr (List.nodup_finRange N)) (fun c => hl.mem_iff.mpr (List.mem_finRange c))))

theorem turn_rows_all (cube : Cube_t N) (dir : CubeDirection_t)
    (hd : dir = CUBE_DIRECTION_LEFT ∨ dir = CUBE_DIRECTION_RIGHT) (l : List (Fin N))
    (hl : l.Perm (List.finRange N)) : turn_rows cube dir l = some (cube_rotate cube dir) := by
  rw [turn_rows_eq_remap, cube_rotate_eq_remap]
  exact congrArg some (remap_congr cube _ _ (turn_rows_src dir hd l
    (hl.nodup_iff.mpr (List.nodup_finRange N)) (fun c => hl.mem_iff.mpr (List.mem_finRange c))))

/-- C31: whole-cube rotation equals turning every layer.  For every cube and every list
`l` that holds each index `0 .. N-1` once (the layers in any order, among them the
ascending order), `cube_rotate(UP)` yields the same cube as `rotate_column(c,UP)` applied
for every `c` of `l`, `cube_rotate(DOWN)` the same as `rotate_column(c,DOWN)` for every
`c`, `cube_rotate(LEFT)` the same as `rotate_row(r,LEFT)` for every `r`, and
`cube_rotate(RIGHT)` the same as `rotate_row(r,RIGHT)` for every `r`. -/
theorem cube_rotate_equals_turning_every_layer (cube : Cube_t N) (l : List (Fin N))
    (hl : l.Perm (List.finRange N)) :
    turn_columns cube CUBE_DIRECTION_UP l = some (cube_rotate cube CUBE_DIRECTION_UP) ∧
    turn_columns cube CUBE_DIRECTION_DOWN l = some (cube_rotate cube CUBE_DIRECTION_DOWN) ∧
    turn_rows cube CUBE_DIRECTION_LEFT l = some (cube_rotate cube CUBE_DIRECTION_LEFT) ∧
    turn_rows cube CUBE_DIRECTION_RIGHT l = some (cube_rotate cube CUBE_DIRECTION_RIGHT) :=
  ⟨turn_columns_all cube _ (Or.inl rfl) l hl, turn_columns_all cube _ (Or.inr rfl) l hl,
    turn_rows_all cube _ (Or.inl rfl) l hl, turn_rows_all cube _ (Or.inr rfl) l hl⟩

/-- C31 at a concrete input: the cube `twisted3` and its three layers in ascending
order. -/
theorem cube_rotate_equals_turning_every_layer_witness :
    List.Perm [(0 : Fin 3), 1, 2] (List.finRange 3) ∧
    turn_columns twisted3 CUBE_DIRECTION_UP [0, 1, 2] =
      some (cube_rotate twisted3 CUBE_DIRECTION_UP) ∧
    turn_columns twisted3 CUBE_DIRECTION_DOWN [0, 1, 2] =
      some (cube_rotate twisted3 CUBE_DIRECTION_DOWN) ∧
    turn_rows twisted3 CUBE_DIRECTION_LEFT [0, 1, 2] =
      some (cube_rotate twisted3 CUBE_DIRECTION_LEFT) ∧
    turn_rows twisted3 CUBE_DIRECTION_RIGHT [0, 1, 2] =
      some (cube_rotate twisted3 CUBE_DIRECTION_RIGHT) :=
  ⟨List.Perm.refl _, cube_rotate_equals_turning_every_layer twisted3 [0, 1, 2] (List.Perm.refl _)⟩

/-! ## The front twist as a row turn of the rotated cube -/

/-- The position map of `cube_rotate(cube,UP); rotate_row(cube,0,LEFT);
cube_rotate(cube,DOWN)` is the position map of the clockwise front twist. -/
theorem front_twist_src_cw (h : 0 < N) (q : Pos N) :
    cube_rotate_src CUBE_DIRECTION_UP
        (rotate_row_src ⟨0, h⟩ CUBE_DIRECTION_LEFT
          (cube_rotate_src CUBE_DIRECTION_DOWN q)) =
      cube_rotate_front_face_src CUBE_DIRECTION_CW q := by
  obtain ⟨s, a, b⟩ := q
  have hhi : N - 1 < N := by omega
  cases s
  · rw [front_src_cw_front]
    show cube_rotate_src CUBE_DIRECTION_UP
      (rotate_row_src ⟨0, h⟩ CUBE_DIRECTION_LEFT (CUBE_SIDE_TOP, a, b)) = _
    rw [rotate_row_src_left_top, if_pos rfl]
    rfl
  · rw [front_src_off_ring _ _ (frontSlot_off_ring _ a b (Or.inl rfl)) (by simp)]
    show cube_rotate_src CUBE_DIRECTION_UP
      (rotate_row_src ⟨0, h⟩ CUBE_DIRECTION_LEFT (CUBE_SIDE_BOTTOM, a, b)) = _
    rw [rotate_row_src_left_bottom]
    by_cases h1 : (0 : Nat) = N - 1
    · rw [if_pos h1]
      have sub : ∀ x y : Fin N, x = y :=
        fun x y => Fin.ext (by have := x.isLt; have := y.isLt; omega)
      show ((CUBE_SIDE_BACK, _, _) : Pos N) = (CUBE_SIDE_BACK, a, b)
      exact Prod.ext rfl (Prod.ext (sub _ _) (sub _ _))
    · rw [if_neg h1]
      rfl
  · show cube_rotate_src CUBE_DIRECTION_UP
      (rotate_row_src ⟨0, h⟩ CUBE_DIRECTION_LEFT (CUBE_SIDE_BACK, a, b)) = _
    by_cases hb : b.val = N - 1
    · have e1 : ((CUBE_SIDE_BACK, a, b) : Pos N) = rowPos ⟨0, h⟩ 3 (mirror a) := by
        show _ = (CUBE_SIDE_BACK, mirror (mirror a), mirror ⟨0, h⟩)
        rw [mirror_mirror, show b = mirror ⟨0, h⟩ from Fin.ext hb]
      have e2 : ((CUBE_SIDE_TOP, a, b) : Pos N) = frontPos 0 a := by
        show _ = (CUBE_SIDE_TOP, a, (⟨N - 1, _⟩ : Fin N))
        rw [show b = ⟨N - 1, hhi⟩ from Fin.ext hb]
      rw [e1, e2, rotate_row_src_left_ring, front_src_cw_ring]
      rfl
    · rw [front_src_off_ring _ _ (frontSlot_off_ring _ a b (Or.inr (Or.inl ⟨rfl, hb⟩)))
        (by simp)]
      rw [rotate_row_src_off_ring _ _ _ (rowSlot_off_ring_back ⟨0, h⟩ a b
        (fun e => hb (congrArg Fin.val e))) (by simp) (by simp)]
      rfl
  · show cube_rotate_src CUBE_DIRECTION_UP
      (rotate_row_src ⟨0, h⟩ CUBE_DIRECTION_LEFT (CUBE_SIDE_FRONT, a, b)) = _
    by_cases hb : b.val = 0
    · have e1 : ((CUBE_SIDE_FRONT, a, b) : Pos N) = rowPos ⟨0, h⟩ 1 a := by
        show _ = (CUBE_SIDE_FRONT, a, (⟨0, h⟩ : Fin N))
        rw [show b = ⟨0, h⟩ from Fin.ext hb]
      have e2 : ((CUBE_SIDE_BOTTOM, a, b) : Pos N) = frontPos 2 (mirror a) := by
        show _ = (CUBE_SIDE_BOTTOM, mirror (mirror a), (⟨0, _⟩ : Fin N))
        rw [mirror_mirror, show b = ⟨0, h⟩ from Fin.ext hb]
      rw [e1, e2, rotate_row_src_left_ring, front_src_cw_ring]
      rfl
    · rw [front_src_off_ring _ _ (frontSlot_off_ring _ a b
        (Or.inr (Or.inr (Or.inr (Or.inl ⟨rfl, hb⟩))))) (by simp)]
      rw [rotate_row_src_off_ring _ _ _ (rowSlot_off_ring ⟨0, h⟩ CUBE_SIDE_FRONT a b
        (Or.inr (Or.inl rfl)) (fun e => hb (congrArg Fin.val e))) (by simp) (by simp)]
      rfl
  · show cube_rotate_src CUBE_DIRECTION_UP
      (rotate_row_src ⟨0, h⟩ CUBE_DIRECTION_LEFT (CUBE_SIDE_LEFT, b, mirror a)) = _
    by_cases ha : a.val = N - 1
    · have e0 : mirror a = ⟨0, h⟩ := Fin.ext (by simp only [mirror_val]; omega)
      have e1 : ((CUBE_SIDE_LEFT, b, mirror a) : Pos N) = rowPos ⟨0, h⟩ 0 b := by
        show _ = (CUBE_SIDE_LEFT, b, (⟨0, h⟩ : Fin N))
        rw [e0]
      have e2 : ((CUBE_SIDE_LEFT, a, b) : Pos N) = frontPos 3 (mirror b) := by
        show _ = (CUBE_SIDE_LEFT, (⟨N - 1, _⟩ : Fin N), mirror (mirror b))
        rw [mirror_mirror, show a = ⟨N - 1, hhi⟩ from Fin.ext ha]
      rw [e1, e2, rotate_row_src_left_ring, front_src_cw_ring]
      show _ = ((CUBE_SIDE_BOTTOM, mirror (mirror b), (⟨0, _⟩ : Fin N)) : Pos N)
      rw [mirror_mirror]
      rfl
    · have hne : mirror a ≠ ⟨0, h⟩ := by
        intro e
        have e1 := congrArg Fin.val e
        have := a.isLt
        simp only [mirror_val] at e1
        omega
      rw [front_src_off_ring _ _ (frontSlot_off_ring _ a b
        (Or.inr (Or.inr (Or.inr (Or.inr ⟨rfl, ha⟩))))) (by simp)]
      rw [rotate_row_src_off_ring _ _ _ (rowSlot_off_ring ⟨0, h⟩ CUBE_SIDE_LEFT b (mirror a)
        (Or.inl rfl) hne) (by simp) (by simp)]
      show ((CUBE_SIDE_LEFT, mirror (mirror a), b) : Pos N) = _
      rw [mirror_mirror]
  · show cube_rotate_src CUBE_DIRECTION_UP
      (rotate_row_src ⟨0, h⟩ CUBE_DIRECTION_LEFT (CUBE_SIDE_RIGHT, mirror b, a)) = _
    by_cases ha : a.val = 0
    · have e1 : ((CUBE_SIDE_RIGHT, mirror b, a) : Pos N) = rowPos ⟨0, h⟩ 2 (mirror b) := by
        show _ = (CUBE_SIDE_RIGHT, mirror b, (⟨0, h⟩ : Fin N))
        rw [show a = ⟨0, h⟩ from Fin.ext ha]
      have e2 : ((CUBE_SIDE_RIGHT, a, b) : Pos N) = frontPos 1 b := by
        show _ = (CUBE_SIDE_RIGHT, (⟨0, _⟩ : Fin N), b)
        rw [show a = ⟨0, h⟩ from Fin.ext ha]
      rw [e1, e2, rotate_row_src_left_ring, front_src_cw_ring]
      show ((CUBE_SIDE_TOP, mirror (mirror b), mirror ⟨0, h⟩) : Pos N) = _
      rw [mirror_mirror]
      rfl
    · rw [front_src_off_ring _ _ (frontSlot_off_ring _ a b
        (Or.inr (Or.inr (Or.inl ⟨rfl, ha⟩)))) (by simp)]
      rw [rotate_row_src_off_ring _ _ _ (rowSlot_off_ring ⟨0, h⟩ CUBE_SIDE_RIGHT (mirror b) a
        (Or.inr (Or.inr rfl)) (fun e => ha (congrArg Fin.val e))) (by simp) (by simp)]
      show ((CUBE_SIDE_RIGHT, a, mirror (mirror b)) : Pos N) = _
      rw [mirror_mirror]

/-- The position map of `cube_rotate(cube,UP); rotate_row(cube,0,RIGHT);
cube_rotate(cube,DOWN)` is the position map of the counter-clockwise front twist. -/
theorem front_twist_src_ccw (h : 0 < N) (q : Pos N) :
    cube_rotate_src CUBE_DIRECTION_UP
        (rotate_row_src ⟨0, h⟩ CUBE_DIRECTION_RIGHT
          (cube_rotate_src CUBE_DIRECTION_DOWN q)) =
      cube_rotate_front_face_src CUBE_DIRECTION_CCW q := by
  obtain ⟨s, a, b⟩ := q
  have hhi : N - 1 < N := by omega
  cases s
  · rw [front_src_ccw_front]
    show cube_rotate_src CUBE_DIRECTION_UP
      (rotate_row_src ⟨0, h⟩ CUBE_DIRECTION_RIGHT (CUBE_SIDE_TOP, a, b)) = _
    rw [rotate_row_src_right_top, if_pos rfl]
    rfl
  · rw [front_src_off_ring _ _ (frontSlot_off_ring _ a b (Or.inl rfl)) (by simp)]
    show cube_rotate_src CUBE_DIRECTION_UP
      (rotate_row_src ⟨0, h⟩ CUBE_DIRECTION_RIGHT (CUBE_SIDE_BOTTOM, a, b)) = _
    rw [rotate_row_src_right_bottom]
    by_cases h1 : (0 : Nat) = N - 1
    · rw [if_pos h1]
      have sub : ∀ x y : Fin N, x = y :=
        fun x y => Fin.ext (by have := x.isLt; have := y.isLt; omega)
      show ((CUBE_SIDE_BACK, _, _) : Pos N) = (CUBE_SIDE_BACK, a, b)
      exact Prod.ext rfl (Prod.ext (sub _ _) (sub _ _))
    · rw [if_neg h1]
      rfl
  · show cube_rotate_src CUBE_DIRECTION_UP
      (rotate_row_src ⟨0, h⟩ CUBE_DIRECTION_RIGHT (CUBE_SIDE_BACK, a, b)) = _
    by_cases hb : b.val = N - 1
    · have e1 : ((CUBE_SIDE_BACK, a, b) : Pos N) = rowPos ⟨0, h⟩ 3 (mirror a) := by
        show _ = (CUBE_SIDE_BACK, mirror (mirror a), mirror ⟨0, h⟩)
        rw [mirror_mirror, show b = mirror ⟨0, h⟩ from Fin.ext hb]
      have e2 : ((CUBE_SIDE_TOP, a, b) : Pos N) = frontPos 0 a := by
        show _ = (CUBE_SIDE_TOP, a, (⟨N - 1, _⟩ : Fin N))
        rw [show b = ⟨N - 1, hhi⟩ from Fin.ext hb]
      rw [e1, e2, rotate_row_src_right_ring, front_src_ccw_ring]
      show ((CUBE_SIDE_RIGHT, (⟨0, h⟩ : Fin N), mirror (mirror a)) : Pos N) = _
      rw [mirror_mirror]
      rfl
    · rw [front_src_off_ring _ _ (frontSlot_off_ring _ a b (Or.inr (Or.inl ⟨rfl, hb⟩)))
        (by simp)]
      rw [rotate_row_src_off_ring _ _ _ (rowSlot_off_ring_back ⟨0, h⟩ a b
        (fun e => hb (congrArg Fin.val e))) (by simp) (by simp)]
      rfl
  · show cube_rotate_src CUBE_DIRECTION_UP
      (rotate_row_src ⟨0, h⟩ CUBE_DIRECTION_RIGHT (CUBE_SIDE_FRONT, a, b)) = _
    by_cases hb : b.val = 0
    · have e1 : ((CUBE_SIDE_FRONT, a, b) : Pos N) = rowPos ⟨0, h⟩ 1 a := by
        show _ = (CUBE_SIDE_FRONT, a, (⟨0, h⟩ : Fin N))
        rw [show b = ⟨0, h⟩ from Fin.ext hb]
      have e2 : ((CUBE_SIDE_BOTTOM, a, b) : Pos N) = frontPos 2 (mirror a) := by
        show _ = (CUBE_SIDE_BOTTOM, mirror (mirror a), (⟨0, _⟩ : Fin N))
        rw [mirror_mirror, show b = ⟨0, h⟩ from Fin.ext hb]
      rw [e1, e2, rotate_row_src_right_ring, front_src_ccw_ring]
      show _ = ((CUBE_SIDE_LEFT, (⟨N - 1, _⟩ : Fin N), mirror (mirror a)) : Pos N)
      rw [mirror_mirror]
      rfl
    · rw [front_src_off_ring _ _ (frontSlot_off_ring _ a b
        (Or.inr (Or.inr (Or.inr (Or.inl ⟨rfl, hb⟩))))) (by simp)]
      rw [rotate_row_src_off_ring _ _ _ (rowSlot_off_ring ⟨0, h⟩ CUBE_SIDE_FRONT a b
        (Or.inr (Or.inl rfl)) (fun e => hb (congrArg Fin.val e))) (by simp) (by simp)]
      rfl
  · show cube_rotate_src CUBE_DIRECTION_UP
      (rotate_row_src ⟨0, h⟩ CUBE_DIRECTION_RIGHT (CUBE_SIDE_LEFT, b, mirror a)) = _
    by_cases ha : a.val = N - 1
    · have e0 : mirror a = ⟨0, h⟩ := Fin.ext (by simp only [mirror_val]; omega)
      have e1 : ((CUBE_SIDE_LEFT, b, mirror a) : Pos N) = rowPos ⟨0, h⟩ 0 b := by
        show _ = (CUBE_SIDE_LEFT, b, (⟨0, h⟩ : Fin N))
        rw [e0]
      have e2 : ((CUBE_SIDE_LEFT, a, b) : Pos N) = frontPos 3 (mirror b) := by
        show _ = (CUBE_SIDE_LEFT, (⟨N - 1, _⟩ : Fin N), mirror (mirror b))
        rw [mirror_mirror, show a = ⟨N - 1, hhi⟩ from Fin.ext ha]
      rw [e1, e2, rotate_row_src_right_ring, front_src_ccw_ring]
      rfl
    · have hne : mirror a ≠ ⟨0, h⟩ := by
        intro e
        have e1 := congrArg Fin.val e
        have := a.isLt
        simp only [mirror_val] at e1
        omega
      rw [front_src_off_ring _ _ (frontSlot_off_ring _ a b
        (Or.inr (Or.inr (Or.inr (Or.inr ⟨rfl, ha⟩))))) (by simp)]
      rw [rotate_row_src_off_ring _ _ _ (rowSlot_off_ring ⟨0, h⟩ CUBE_SIDE_LEFT b (mirror a)
        (Or.inl rfl) hne) (by simp) (by simp)]
      show ((CUBE_SIDE_LEFT, mirror (mirror a), b) : Pos N) = _
      rw [mirror_mirror]
  · show cube_rotate_src CUBE_DIRECTION_UP
      (rotate_row_src ⟨0, h⟩ CUBE_DIRECTION_RIGHT (CUBE_SIDE_RIGHT, mirror b, a)) = _
    by_cases ha : a.val = 0
    · have e1 : ((CUBE_SIDE_RIGHT, mirror b, a) : Pos N) = rowPos ⟨0, h⟩ 2 (mirror b) := by
        show _ = (CUBE_SIDE_RIGHT, mirror b, (⟨0, h⟩ : Fin N))
        rw [show a = ⟨0, h⟩ from Fin.ext ha]
      have e2 : ((CUBE_SIDE_RIGHT, a, b) : Pos N) = frontPos 1 b := by
        show _ = (CUBE_SIDE_RIGHT, (⟨0, _⟩ : Fin N), b)
        rw [show a = ⟨0, h⟩ from Fin.ext ha]
      rw [e1, e2, rotate_row_src_right_ring, front_src_ccw_ring]
      rfl
    · rw [front_src_off_ring _ _ (frontSlot_off_ring _ a b
        (Or.inr (Or.inr (Or.inl ⟨rfl, ha⟩)))) (by simp)]
      rw [rotate_row_src_off_ring _ _ _ (rowSlot_off_ring ⟨0, h⟩ CUBE_SIDE_RIGHT (mirror b) a
        (Or.inr (Or.inr rfl)) (fun e => ha (congrArg Fin.val e))) (by simp) (by simp)]
      show ((CUBE_SIDE_RIGHT, a, mirror (mirror b)) : Pos N) = _
      rw [mirror_mirror]


theorem front_twist_by_row_turn_cw (h : 0 < N) (cube : Cube_t N) :
    front_twist_by_row_turn cube CUBE_DIRECTION_LEFT =
      some (cube_rotate_front_face cube CUBE_DIRECTION_CW) := by
  simp only [front_twist_by_row_turn, rotate_row_eq_remap _ 0 h, cube_rotate_eq_remap,
    cube_rotate_front_face_eq_remap, remap_remap]
  exact congrArg some (remap_congr cube _ _ (front_twist_src_cw h))

theorem front_twist_by_row_turn_ccw (h : 0 < N) (cube : Cube_t N) :
    front_twist_by_row_turn cube CUBE_DIRECTION_RIGHT =
      some (cube_rotate_front_face cube CUBE_DIRECTION_CCW) := by
  simp only [front_twist_by_row_turn, rotate_row_eq_remap _ 0 h, cube_rotate_eq_remap,
    cube_rotate_front_face_eq_remap, remap_remap]
  exact congrArg some (remap_congr cube _ _ (front_twist_src_ccw h))

/-- C32: the front twist is consistent with the layer turns.  For every cube (of a size
`N ≥ 1`, the sizes a C array admits), `cube_rotate_front_face(CW)` yields the same cube as
`cube_rotate(UP)`, then `rotate_row(0,LEFT)`, then `cube_rotate(DOWN)`; and
`cube_rotate_front_face(CCW)` yields the same cube as `cube_rotate(UP)`, then
`rotate_row(0,RIGHT)`, then `cube_rotate(DOWN)`. -/
theorem front_twist_consistent_with_layer_turns (h : 0 < N) (cube : Cube_t N) :
    front_twist_by_row_turn cube CUBE_DIRECTION_LEFT =
      some (cube_rotate_front_face cube CUBE_DIRECTION_CW) ∧
    front_twist_by_row_turn cube CUBE_DIRECTION_RIGHT =
      some (cube_rotate_front_face cube CUBE_DIRECTION_CCW) :=
  ⟨front_twist_by_row_turn_cw h cube, front_twist_by_row_turn_ccw h cube⟩

/-- C32 at a concrete input: the cube `twisted3`. -/
theorem front_twist_consistent_with_layer_turns_witness :
    0 < 3 ∧
    front_twist_by_row_turn twisted3 CUBE_DIRECTION_LEFT =
      some (cube_rotate_front_face twisted3 CUBE_DIRECTION_CW) ∧
    front_twist_by_row_turn twisted3 CUBE_DIRECTION_RIGHT =
      some (cube_rotate_front_face twisted3 CUBE_DIRECTION_CCW) :=
  ⟨by decide, front_twist_consistent_with_layer_turns (by decide) twisted3⟩

/-! ## Whole-cube rotations: inverse pairs and solvedness -/

theorem cube_rotate_up_down (cube : Cube_t N) :
    cube_rotate (cube_rotate cube CUBE_DIRECTION_UP) CUBE_DIRECTION_DOWN = cube := by
  rw [cube_rotate_eq_remap, cube_rotate_eq_remap, remap_remap]
  exact remap_id cube _ cube_rotate_src_up_down

theorem cube_rotate_down_up (cube : Cube_t N) :
    cube_rotate (cube_rotate cube CUBE_DIRECTION_DOWN) CUBE_DIRECTION_UP = cube := by
  rw [cube_rotate_eq_remap, cube_rotate_eq_remap, remap_remap]
  exact remap_id cube _ cube_rotate_src_down_up

theorem cube_rotate_left_right (cube : Cube_t N) :
    cube_rotate (cube_rotate cube CUBE_DIRECTION_LEFT) CUBE_DIRECTION_RIGHT = cube := by
  rw [cube_rotate_eq_remap, cube_rotate_eq_remap, remap_remap]
  exact remap_id cube _ cube_rotate_src_left_right

theorem cube_rotate_right_left (cube : Cube_t N) :
    cube_rotate (cube_rotate cube CUBE_DIRECTION_RIGHT) CUBE_DIRECTION_LEFT = cube := by
  rw [cube_rotate_eq_remap, cube_rotate_eq_remap, remap_remap]
  exact remap_id cube _ cube_rotate_src_right_left

/-- C33: whole-cube rotations in opposite directions cancel.  For every cube,
`cube_rotate(UP)` followed by `cube_rotate(DOWN)`, `DOWN` followed by `UP`, `LEFT` followed
by `RIGHT`, and `RIGHT` followed by `LEFT` each return exactly the original cube (faces
and cursor). -/
theorem cube_rotate_opposite_cancel (cube : Cube_t N) :
    cube_rotate (cube_rotate cube CUBE_DIRECTION_UP) CUBE_DIRECTION_DOWN = cube ∧
    cube_rotate (cube_rotate cube CUBE_DIRECTION_DOWN) CUBE_DIRECTION_UP = cube ∧
    cube_rotate (cube_rotate cube CUBE_DIRECTION_LEFT) CUBE_DIRECTION_RIGHT = cube ∧
    cube_rotate (cube_rotate cube CUBE_DIRECTION_RIGHT) CUBE_DIRECTION_LEFT = cube :=
  ⟨cube_rotate_up_down cube, cube_rotate_down_up cube, cube_rotate_left_right cube,
    cube_rotate_right_left cube⟩

/-- The face a whole-cube rotation takes a block from depends on the face of the block
only. -/
theorem cube_rotate_src_face (dir : CubeDirection_t) (s : CubeSide_t) (a b c d : Fin N) :
    (cube_rotate_src dir (s, a, b)).1 = (cube_rotate_src dir (s, c, d)).1 := by
  unfold cube_rotate_src
  by_cases h1 : dir = CUBE_DIRECTION_UP
  · simp only [if_pos h1]; cases s <;> rfl
  by_cases h2 : dir = CUBE_DIRECTION_DOWN
  · simp only [if_neg h1, if_pos h2]; cases s <;> rfl
  by_cases h3 : dir = CUBE_DIRECTION_LEFT
  · simp only [if_neg h1, if_neg h2, if_pos h3]; cases s <;> rfl
  by_cases h4 : dir = CUBE_DIRECTION_RIGHT
  · simp only [if_neg h1, if_neg h2, if_neg h3, if_pos h4]; cases s <;> rfl
  · simp only [if_neg h1, if_neg h2, if_neg h3, if_neg h4]

/-- A cube is solved exactly when blocks of the same face have the same colour. -/
theorem cube_is_solved_iff_colorAt (cube : Cube_t N) :
    cube_is_solved cube = true ↔
      ∀ p q : Pos N, p.1 = q.1 → cube.colorAt p = cube.colorAt q := by
  rw [cube_is_solved_iff_uniform]
  constructor
  · rintro h ⟨s, a, b⟩ ⟨t, c, d⟩ hst
    cases (hst : s = t)
    show (cube.face s).blocks a b = (cube.face s).blocks c d
    rw [h s a b, h s c d]
  · intro h s i j
    exact h (s, i, j) (s, ⟨0, i.pos⟩, ⟨0, i.pos⟩) rfl

/-- A whole-cube rotation of a solved cube is solved. -/
theorem cube_is_solved_cube_rotate_of_solved (cube : Cube_t N) (dir : CubeDirection_t)
    (h : cube_is_solved cube = true) : cube_is_solved (cube_rotate cube dir) = true := by
  rw [cube_is_solved_iff_colorAt] at h ⊢
  rintro ⟨s, a, b⟩ ⟨t, c, d⟩ hst
  cases (hst : s = t)
  rw [cube_rotate_eq_remap, colorAt_remap, colorAt_remap]
  exact h _ _ (cube_rotate_src_face dir s a b c d)

theorem cube_is_solved_cube_rotate (cube : Cube_t N) (dir : CubeDirection_t) :
    cube_is_solved (cube_rotate cube dir) = cube_is_solved cube := by
  have back : cube_is_solved (cube_rotate cube dir) = true → cube_is_solved cube = true := by
    intro h
    by_cases h1 : dir = CUBE_DIRECTION_UP
    · have := cube_is_solved_cube_rotate_of_solved _ CUBE_DIRECTION_DOWN h
      rwa [h1, cube_rotate_up_down] at this
    by_cases h2 : dir = CUBE_DIRECTION_DOWN
    · have := cube_is_solved_cube_rotate_of_solved _ CUBE_DIRECTION_UP h
      rwa [h2, cube_rotate_down_up] at this
    by_cases h3 : dir = CUBE_DIRECTION_LEFT
    · have := cube_is_solved_cube_rotate_of_solved _ CUBE_DIRECTION_RIGHT h
      rwa [h3, cube_rotate_left_right] at this
    by_cases h4 : dir = CUBE_DIRECTION_RIGHT
    · have := cube_is_solved_cube_rotate_of_solved _ CUBE_DIRECTION_LEFT h
      rwa [h4, cube_rotate_right_left] at this
    · rwa [cube_rotate_other cube dir h1 h2 h3 h4] at h
  have fwd := cube_is_solved_cube_rotate_of_solved cube dir
  cases hA : cube_is_solved (cube_rotate cube dir) <;> cases hB : cube_is_solved cube
  · rfl
  · rw [fwd hB] at hA; exact Bool.noConfusion hA
  · rw [back hA] at hB; exact Bool.noConfusion hB
  · rfl

/-- C34: whole-cube rotation never changes solvedness.  For every cube and every direction
value `d` (inside or outside the enumeration),
`cube_is_solved(cube_rotate(cube,d))` equals `cube_is_solved(cube)`. -/
theorem cube_rotate_preserves_solvedness (cube : Cube_t N) (d : CubeDirection_t) :
    cube_is_solved (cube_rotate cube d) = cube_is_solved cube :=
  cube_is_solved_cube_rotate cube d

/-- C35: a solved game is frozen.  For every game state with `isSolved = true` on entry
and every control other than `GAME_CONTROL_NEW` and `GAME_CONTROL_EXIT`, `cube_game_run`
returns `true` and leaves the cube (faces and cursor), the turn counter and `isSolved`
unchanged (indeed the whole game state), and the solved-notification callback is not among
the driver calls it makes: those are the draw, the statistics and the input read only. -/
theorem solved_game_is_frozen (game : CubeGame_t N) (c : CubeGameControl_t)
    (rand : Nat → Nat) (now : Nat) (hs : game.isSolved = true)
    (h1 : c ≠ GAME_CONTROL_NEW) (h2 : c ≠ GAME_CONTROL_EXIT) :
    ∃ res, cube_game_run game c rand now = some res ∧ res.ret = true ∧
      res.game.cube = game.cube ∧ res.game.turns = game.turns ∧
      res.game.isSolved = true ∧ res.game = game ∧
      DriverCall.cubeSolved ∉ res.calls ∧
      res.calls = [DriverCall.drawCube, DriverCall.printStatistics game.turns game.time,
        DriverCall.inputGet] := by
  refine ⟨⟨true, game, [DriverCall.drawCube, DriverCall.printStatistics game.turns game.time,
    DriverCall.inputGet]⟩, ?_, rfl, rfl, rfl, hs, rfl, cubeSolved_not_mem_base _ _, rfl⟩
  rw [cube_game_run_eq_rest game c rand now h1 h2, cube_game_run_rest, if_pos hs]

/-- C35 at a concrete input: `solvedGame` and the control that turns the row to the
left. -/
theorem solved_game_is_frozen_witness :
    solvedGame.isSolved = true ∧ GAME_CONTROL_ROTATE_ROW_LEFT ≠ GAME_CONTROL_NEW ∧
    GAME_CONTROL_ROTATE_ROW_LEFT ≠ GAME_CONTROL_EXIT ∧
    ∃ res, cube_game_run solvedGame GAME_CONTROL_ROTATE_ROW_LEFT (fun k => k) 5 = some res ∧
      res.ret = true ∧ res.game.cube = solvedGame.cube ∧ res.game.turns = solvedGame.turns ∧
      res.game.isSolved = true ∧ res.game = solvedGame ∧
      DriverCall.cubeSolved ∉ res.calls ∧
      res.calls = [DriverCall.drawCube,
        DriverCall.printStatistics solvedGame.turns solvedGame.time, DriverCall.inputGet] :=
  ⟨rfl, by decide, by decide,
    solved_game_is_frozen solvedGame GAME_CONTROL_ROTATE_ROW_LEFT (fun k => k) 5 rfl
      (by decide) (by decide)⟩

/-! ## The passes of `cube_shuffle` -/

theorem run_passes_append (l1 l2 : List ShufflePass) :
    ∀ cube : Cube_t N, run_passes cube (l1 ++ l2) =
      (run_passes cube l1).bind fun c => run_passes c l2 := by
  induction l1 with
  | nil => intro cube; rfl
  | cons p ps ih =>
    intro cube
    show (shuffle_pass cube p.row p.col p.dir).bind (fun c => run_passes c (ps ++ l2)) =
      ((shuffle_pass cube p.row p.col p.dir).bind fun c => run_passes c ps).bind
        fun c => run_passes c l2
    cases shuffle_pass cube p.row p.col p.dir with
    | none => rfl
    | some c => exact ih c

/-- The inner loop of `cube_shuffle` performs the passes listed for it. -/
theorem shuffle_inner_eq_run (rand : Nat → Nat) (hN : 2 ≤ N) (row col : Nat)
    (dir : CubeDirection_t) (n : Nat) :
    ∀ (j k : Nat) (cube : Cube_t N), N - 1 - j ≤ n →
      shuffle_inner rand hN row col dir j k cube =
        (run_passes cube (shuffle_inner_passes rand hN row col dir j k).1).map
          fun c => (c, (shuffle_inner_passes rand hN row col dir j k).2) := by
  induction n with
  | zero =>
    intro j k cube hj
    have hr := Nat.mod_lt (rand k) (show 0 < N - 1 by omega)
    have hcond : ¬ j < rand k % (N - 1) := by omega
    rw [shuffle_inner, shuffle_inner_passes, if_neg hcond, if_neg hcond]
    rfl
  | succ n ih =>
    intro j k cube hj
    rw [shuffle_inner, shuffle_inner_passes]
    by_cases hcond : j < rand k % (N - 1)
    · rw [if_pos hcond, if_pos hcond]
      show _ = ((shuffle_pass cube row col dir).bind fun c => run_passes c _).map _
      cases hp : shuffle_pass cube row col dir with
      | none => rfl
      | some c =>
        show shuffle_inner rand hN row col dir (j + 1) (k + 1) c = _
        rw [ih (j + 1) (k + 1) c (by omega)]
        rfl
    · rw [if_neg hcond, if_neg hcond]
      rfl

/-- The outer loop of `cube_shuffle` performs the passes listed for it. -/
theorem shuffle_outer_eq_run (rand : Nat → Nat) (hN : 2 ≤ N) (n : Nat) :
    ∀ (k : Nat) (cube : Cube_t N),
      (shuffle_outer rand hN n k cube).map Prod.fst =
        run_passes cube (shuffle_outer_passes rand hN n k).flatten := by
  induction n with
  | zero => intro k cube; rfl
  | succ n ih =>
    intro k cube
    simp only [shuffle_outer, shuffle_outer_passes, List.flatten_cons, run_passes_append]
    rw [shuffle_inner_eq_run rand hN _ _ _ (N - 1) 0 (k + 3) cube (by omega)]
    cases run_passes cube (shuffle_inner_passes rand hN (rand k % (N - 1) % 256)
      (rand (k + 1) % (N - 1) % 256) ((rand (k + 2) % 5 : Nat) : Int) 0 (k + 3)).1 with
    | none => rfl
    | some c => exact ih _ c

theorem cube_shuffle_eq_run (rand : Nat → Nat) (hN : 2 ≤ N) (cube : Cube_t N) :
    cube_shuffle rand cube = run_passes cube (shuffle_passes rand hN).flatten := by
  rw [cube_shuffle, dif_pos hN]
  exact shuffle_outer_eq_run rand hN 1000 0 cube

theorem shuffle_outer_passes_length (rand : Nat → Nat) (hN : 2 ≤ N) (n : Nat) :
    ∀ k, (shuffle_outer_passes rand hN n k).length = n := by
  induction n with
  | zero => intro k; rfl
  | succ n ih =>
    intro k
    simp only [shuffle_outer_passes, List.length_cons, ih]

/-- The inner loop entered with counter `j` makes at most `N-2-j` passes, each with the
`row`, `col` and `dir` of the outer iteration. -/
theorem shuffle_inner_passes_spec (rand : Nat → Nat) (hN : 2 ≤ N) (row col : Nat)
    (dir : CubeDirection_t) (n : Nat) :
    ∀ (j k : Nat), N - 1 - j ≤ n →
      (shuffle_inner_passes rand hN row col dir j k).1.length ≤ N - 2 - j ∧
      ∀ p ∈ (shuffle_inner_passes rand hN row col dir j k).1, p = ⟨row, col, dir⟩ := by
  induction n with
  | zero =>
    intro j k hj
    have hr := Nat.mod_lt (rand k) (show 0 < N - 1 by omega)
    have hcond : ¬ j < rand k % (N - 1) := by omega
    rw [shuffle_inner_passes, if_neg hcond]
    exact ⟨Nat.zero_le _, fun p hp => absurd hp (List.not_mem_nil p)⟩
  | succ n ih =>
    intro j k hj
    have hr := Nat.mod_lt (rand k) (show 0 < N - 1 by omega)
    rw [shuffle_inner_passes]
    by_cases hcond : j < rand k % (N - 1)
    · rw [if_pos hcond]
      obtain ⟨hlen, hmem⟩ := ih (j + 1) (k + 1) (by omega)
      refine ⟨?_, ?_⟩
      · show (shuffle_inner_passes rand hN row col dir (j + 1) (k + 1)).1.length + 1 ≤ _
        omega
      · intro p hp
        rcases List.mem_cons.mp hp with h | h
        · exact h
        · exact hmem p h
    · rw [if_neg hcond]
      exact ⟨Nat.zero_le _, fun p hp => absurd hp (List.not_mem_nil p)⟩

/-- Every outer iteration makes at most `N-2` passes, with indices up to `N-2` and a
direction value below 5. -/
theorem shuffle_outer_passes_spec (rand : Nat → Nat) (hN : 2 ≤ N) (n : Nat) :
    ∀ k, ∀ it ∈ shuffle_outer_passes rand hN n k,
      it.length ≤ N - 2 ∧
      ∀ p ∈ it, p.row ≤ N - 2 ∧ p.col ≤ N - 2 ∧ ∃ d : Nat, d < 5 ∧ p.dir = (d : Int) := by
  induction n with
  | zero => intro k it hit; exact absurd hit (List.not_mem_nil it)
  | succ n ih =>
    intro k it hit
    simp only [shuffle_outer_passes, List.mem_cons] at hit
    rcases hit with h | h
    · obtain ⟨hlen, hmem⟩ := shuffle_inner_passes_spec rand hN (rand k % (N - 1) % 256)
        (rand (k + 1) % (N - 1) % 256) ((rand (k + 2) % 5 : Nat) : Int) (N - 1) 0 (k + 3)
        (by omega)
      rw [h]
      refine ⟨by omega, ?_⟩
      intro p hp
      rw [hmem p hp]
      have h1 := Nat.mod_lt (rand k) (show 0 < N - 1 by omega)
      have h2 := Nat.mod_lt (rand (k + 1)) (show 0 < N - 1 by omega)
      have h3 := Nat.mod_le (rand k % (N - 1)) 256
      have h4 := Nat.mod_le (rand (k + 1) % (N - 1)) 256
      exact ⟨by show rand k % (N - 1) % 256 ≤ N - 2; omega,
        by show rand (k + 1) % (N - 1) % 256 ≤ N - 2; omega,
        rand (k + 2) % 5, Nat.mod_lt _ (by decide), rfl⟩
    · exact ih _ it h


/-- For a direction left or right the pass is its row turn: the column turn and the front
twist return at once. -/
theorem shuffle_pass_row_only (dir : CubeDirection_t)
    (hd : dir = CUBE_DIRECTION_LEFT ∨ dir = CUBE_DIRECTION_RIGHT) (row col : Nat)
    (c : Cube_t N) :
    shuffle_pass c row col dir = rotate_row c row dir ∧
      rotate_column c col dir = some c ∧ cube_rotate_front_face c dir = c := by
  have h1 : dir ≠ CUBE_DIRECTION_UP := by rcases hd with rfl | rfl <;> decide
  have h2 : dir ≠ CUBE_DIRECTION_DOWN := by rcases hd with rfl | rfl <;> decide
  have h3 : dir ≠ CUBE_DIRECTION_CW := by rcases hd with rfl | rfl <;> decide
  have h4 : dir ≠ CUBE_DIRECTION_CCW := by rcases hd with rfl | rfl <;> decide
  refine ⟨?_, rotate_column_other c col dir h1 h2, cube_rotate_front_face_other c dir h3 h4⟩
  unfold shuffle_pass
  cases rotate_row c row dir with
  | none => rfl
  | some c1 =>
    show (match rotate_column c1 col dir with
      | none => none
      | some cube => some (cube_rotate_front_face cube dir)) = some c1
    rw [rotate_column_other c1 col dir h1 h2]
    show some (cube_rotate_front_face c1 dir) = some c1
    rw [cube_rotate_front_face_other c1 dir h3 h4]

/-- For a direction up or down the pass is its column turn: the row turn and the front
twist return at once. -/
theorem shuffle_pass_column_only (dir : CubeDirection_t)
    (hd : dir = CUBE_DIRECTION_UP ∨ dir = CUBE_DIRECTION_DOWN) (row col : Nat)
    (c : Cube_t N) :
    shuffle_pass c row col dir = rotate_column c col dir ∧
      rotate_row c row dir = some c ∧ cube_rotate_front_face c dir = c := by
  have h1 : dir ≠ CUBE_DIRECTION_LEFT := by rcases hd with rfl | rfl <;> decide
  have h2 : dir ≠ CUBE_DIRECTION_RIGHT := by rcases hd with rfl | rfl <;> decide
  have h3 : dir ≠ CUBE_DIRECTION_CW := by rcases hd with rfl | rfl <;> decide
  have h4 : dir ≠ CUBE_DIRECTION_CCW := by rcases hd with rfl | rfl <;> decide
  refine ⟨?_, rotate_row_other c row dir h1 h2, cube_rotate_front_face_other c dir h3 h4⟩
  unfold shuffle_pass
  rw [rotate_row_other c row dir h1 h2]
  show (match rotate_column c col dir with
    | none => none
    | some cube => some (cube_rotate_front_face cube dir)) = rotate_column c col dir
  cases rotate_column c col dir with
  | none => rfl
  | some c1 =>
    show some (cube_rotate_front_face c1 dir) = some c1
    rw [cube_rotate_front_face_other c1 dir h3 h4]

/-- For the clockwise direction the pass is its front twist: the row turn and the column
turn return at once. -/
theorem shuffle_pass_front_only (dir : CubeDirection_t) (hd : dir = CUBE_DIRECTION_CW)
    (row col : Nat) (c : Cube_t N) :
    shuffle_pass c row col dir = some (cube_rotate_front_face c dir) ∧
      rotate_row c row dir = some c ∧ rotate_column c col dir = some c := by
  have h1 : dir ≠ CUBE_DIRECTION_LEFT := by rw [hd]; decide
  have h2 : dir ≠ CUBE_DIRECTION_RIGHT := by rw [hd]; decide
  have h3 : dir ≠ CUBE_DIRECTION_UP := by rw [hd]; decide
  have h4 : dir ≠ CUBE_DIRECTION_DOWN := by rw [hd]; decide
  refine ⟨?_, rotate_row_other c row dir h1 h2, rotate_column_other c col dir h3 h4⟩
  unfold shuffle_pass
  rw [rotate_row_other c row dir h1 h2]
  show (match rotate_column c col dir with
    | none => none
    | some cube => some (cube_rotate_front_face cube dir)) = _
  rw [rotate_column_other c col dir h3 h4]

/-- A row turn left or right changes the reset cube: the front block of the row takes the
colour of a side face. -/
theorem rotate_row_changes_reset (cube : Cube_t N) (row : Nat) (h : row < N)
    (dir : CubeDirection_t) (hd : dir = CUBE_DIRECTION_LEFT ∨ dir = CUBE_DIRECTION_RIGHT) :
    rotate_row (cube_reset cube) row dir ≠ some (cube_reset cube) := by
  intro e
  rw [rotate_row_eq_remap _ row h dir] at e
  have e1 := congrArg
    (fun c : Cube_t N => c.colorAt (CUBE_SIDE_FRONT, ⟨0, by omega⟩, ⟨row, h⟩))
    (Option.some.inj e)
  simp only [colorAt_remap, colorAt_cube_reset] at e1
  rcases hd with rfl | rfl
  · have hs : rotate_row_src ⟨row, h⟩ CUBE_DIRECTION_LEFT
        (CUBE_SIDE_FRONT, ⟨0, by omega⟩, ⟨row, h⟩) = (CUBE_SIDE_RIGHT, ⟨0, by omega⟩, ⟨row, h⟩) :=
      rotate_row_src_left_ring ⟨row, h⟩ 1 ⟨0, by omega⟩
    rw [hs] at e1
    have e2 : resetColors CUBE_SIDE_RIGHT = resetColors CUBE_SIDE_FRONT := e1
    exact absurd e2 (by decide)
  · have hs : rotate_row_src ⟨row, h⟩ CUBE_DIRECTION_RIGHT
        (CUBE_SIDE_FRONT, ⟨0, by omega⟩, ⟨row, h⟩) = (CUBE_SIDE_LEFT, ⟨0, by omega⟩, ⟨row, h⟩) :=
      rotate_row_src_right_ring ⟨row, h⟩ 1 ⟨0, by omega⟩
    rw [hs] at e1
    have e2 : resetColors CUBE_SIDE_LEFT = resetColors CUBE_SIDE_FRONT := e1
    exact absurd e2 (by decide)

/-- A column turn up or down changes the reset cube: the front block of the column takes
the colour of the bottom or the top face. -/
theorem rotate_column_changes_reset (cube : Cube_t N) (col : Nat) (h : col < N)
    (dir : CubeDirection_t) (hd : dir = CUBE_DIRECTION_UP ∨ dir = CUBE_DIRECTION_DOWN) :
    rotate_column (cube_reset cube) col dir ≠ some (cube_reset cube) := by
  intro e
  rw [rotate_column_eq_remap _ col h dir] at e
  have e1 := congrArg
    (fun c : Cube_t N => c.colorAt (CUBE_SIDE_FRONT, ⟨col, h⟩, ⟨0, by omega⟩))
    (Option.some.inj e)
  simp only [colorAt_remap, colorAt_cube_reset] at e1
  rcases hd with rfl | rfl
  · have hs : rotate_column_src ⟨col, h⟩ CUBE_DIRECTION_UP
        (CUBE_SIDE_FRONT, ⟨col, h⟩, ⟨0, by omega⟩) =
          (CUBE_SIDE_BOTTOM, ⟨col, h⟩, ⟨0, by omega⟩) :=
      rotate_column_src_up_ring ⟨col, h⟩ 1 ⟨0, by omega⟩
    rw [hs] at e1
    have e2 : resetColors CUBE_SIDE_BOTTOM = resetColors CUBE_SIDE_FRONT := e1
    exact absurd e2 (by decide)
  · have hs : rotate_column_src ⟨col, h⟩ CUBE_DIRECTION_DOWN
        (CUBE_SIDE_FRONT, ⟨col, h⟩, ⟨0, by omega⟩) =
          (CUBE_SIDE_TOP, ⟨col, h⟩, ⟨0, by omega⟩) :=
      rotate_column_src_down_ring ⟨col, h⟩ 1 ⟨0, by omega⟩
    rw [hs] at e1
    have e2 : resetColors CUBE_SIDE_TOP = resetColors CUBE_SIDE_FRONT := e1
    exact absurd e2 (by decide)

/-- The clockwise front twist changes the reset cube: the top block next to the front face
takes the colour of the left face. -/
theorem front_twist_cw_changes_reset (cube : Cube_t N) (h : 0 < N) :
    cube_rotate_front_face (cube_reset cube) CUBE_DIRECTION_CW ≠ cube_reset cube := by
  intro e
  rw [cube_rotate_front_face_eq_remap] at e
  have e1 := congrArg (fun c : Cube_t N => c.colorAt (frontPos 0 ⟨0, h⟩)) e
  simp only [colorAt_remap, colorAt_cube_reset, front_src_cw_ring] at e1
  have e2 : resetColors CUBE_SIDE_LEFT = resetColors CUBE_SIDE_TOP := e1
  exact absurd e2 (by decide)

/-- C36: shuffle's move set and index safety.  For every sequence of values returned by
`rand()` and every size `N ≥ 2`, `cube_shuffle` performs exactly the passes of
`shuffle_passes`, one list for each of its 1000 outer iterations; each outer iteration
makes at most `N-2` inner passes; every row and column index handed to `rotate_row` and
`rotate_column` lies in `[0, N-2]` (within the arrays, never the last row or column
`N-1`); every direction lies in {LEFT, RIGHT, UP, DOWN, CW} and is never CCW; and in each
pass exactly one of the three calls acts, the other two returning the cube as it is: the
row turn for LEFT / RIGHT, the column turn for UP / DOWN, the front twist for CW, and the
acting call is a real change (it changes the reset cube). -/
theorem shuffle_move_set_and_index_safety (hN : 2 ≤ N) (rand : Nat → Nat)
    (cube : Cube_t N) :
    cube_shuffle rand cube = run_passes cube (shuffle_passes rand hN).flatten ∧
    (shuffle_passes rand hN).length = 1000 ∧
    ∀ it ∈ shuffle_passes rand hN,
      it.length ≤ N - 2 ∧
      ∀ p ∈ it,
        p.row ≤ N - 2 ∧ p.col ≤ N - 2 ∧ p.row < N ∧ p.col < N ∧
        (p.dir = CUBE_DIRECTION_LEFT ∨ p.dir = CUBE_DIRECTION_RIGHT ∨
          p.dir = CUBE_DIRECTION_UP ∨ p.dir = CUBE_DIRECTION_DOWN ∨
          p.dir = CUBE_DIRECTION_CW) ∧
        p.dir ≠ CUBE_DIRECTION_CCW ∧
        ((p.dir = CUBE_DIRECTION_LEFT ∨ p.dir = CUBE_DIRECTION_RIGHT) →
          (∀ c : Cube_t N, shuffle_pass c p.row p.col p.dir = rotate_row c p.row p.dir ∧
            rotate_column c p.col p.dir = some c ∧ cube_rotate_front_face c p.dir = c) ∧
          rotate_row (cube_reset cube) p.row p.dir ≠ some (cube_reset cube)) ∧
        ((p.dir = CUBE_DIRECTION_UP ∨ p.dir = CUBE_DIRECTION_DOWN) →
          (∀ c : Cube_t N, shuffle_pass c p.row p.col p.dir = rotate_column c p.col p.dir ∧
            rotate_row c p.row p.dir = some c ∧ cube_rotate_front_face c p.dir = c) ∧
          rotate_column (cube_reset cube) p.col p.dir ≠ some (cube_reset cube)) ∧
        (p.dir = CUBE_DIRECTION_CW →
          (∀ c : Cube_t N,
            shuffle_pass c p.row p.col p.dir = some (cube_rotate_front_face c p.dir) ∧
            rotate_row c p.row p.dir = some c ∧ rotate_column c p.col p.dir = some c) ∧
          cube_rotate_front_face (cube_reset cube) p.dir ≠ cube_reset cube) := by
  refine ⟨cube_shuffle_eq_run rand hN cube, shuffle_outer_passes_length rand hN 1000 0, ?_⟩
  intro it hit
  obtain ⟨hlen, hmem⟩ := shuffle_outer_passes_spec rand hN 1000 0 it hit
  refine ⟨hlen, ?_⟩
  intro p hp
  obtain ⟨hr, hc, d, hd, hdir⟩ := hmem p hp
  have hrN : p.row < N := by omega
  have hcN : p.col < N := by omega
  refine ⟨hr, hc, hrN, hcN, ?_, ?_, ?_, ?_, ?_⟩
  · rw [hdir]
    interval_cases d
    · exact Or.inl rfl
    · exact Or.inr (Or.inl rfl)
    · exact Or.inr (Or.inr (Or.inl rfl))
    · exact Or.inr (Or.inr (Or.inr (Or.inl rfl)))
    · exact Or.inr (Or.inr (Or.inr (Or.inr rfl)))
  · rw [hdir]
    interval_cases d <;> decide
  · intro h
    exact ⟨fun c => shuffle_pass_row_only p.dir h p.row p.col c,
      rotate_row_changes_reset cube p.row hrN p.dir h⟩
  · intro h
    exact ⟨fun c => shuffle_pass_column_only p.dir h p.row p.col c,
      rotate_column_changes_reset cube p.col hcN p.dir h⟩
  · intro h
    exact ⟨fun c => shuffle_pass_front_only p.dir h p.row p.col c,
      by rw [h]; exact front_twist_cw_changes_reset cube (by omega)⟩

/-- C36 at a concrete input: size 3, the sequence `rand() = k` at the `k`-th call, and the
cube `twisted3`. -/
theorem shuffle_move_set_and_index_safety_witness :
    2 ≤ 3 ∧
    (cube_shuffle (fun k => k) twisted3 =
      run_passes twisted3 (shuffle_passes (fun k => k) (show 2 ≤ 3 by decide)).flatten ∧
    (shuffle_passes (fun k => k) (show 2 ≤ 3 by decide)).length = 1000 ∧
    ∀ it ∈ shuffle_passes (fun k => k) (show 2 ≤ 3 by decide),
      it.length ≤ 3 - 2 ∧
      ∀ p ∈ it,
        p.row ≤ 3 - 2 ∧ p.col ≤ 3 - 2 ∧ p.row < 3 ∧ p.col < 3 ∧
        (p.dir = CUBE_DIRECTION_LEFT ∨ p.dir = CUBE_DIRECTION_RIGHT ∨
          p.dir = CUBE_DIRECTION_UP ∨ p.dir = CUBE_DIRECTION_DOWN ∨
          p.dir = CUBE_DIRECTION_CW) ∧
        p.dir ≠ CUBE_DIRECTION_CCW ∧
        ((p.dir = CUBE_DIRECTION_LEFT ∨ p.dir = CUBE_DIRECTION_RIGHT) →
          (∀ c : Cube_t 3, shuffle_pass c p.row p.col p.dir = rotate_row c p.row p.dir ∧
            rotate_column c p.col p.dir = some c ∧ cube_rotate_front_face c p.dir = c) ∧
          rotate_row (cube_reset twisted3) p.row p.dir ≠ some (cube_reset twisted3)) ∧
        ((p.dir = CUBE_DIRECTION_UP ∨ p.dir = CUBE_DIRECTION_DOWN) →
          (∀ c : Cube_t 3, shuffle_pass c p.row p.col p.dir = rotate_column c p.col p.dir ∧
            rotate_row c p.row p.dir = some c ∧ cube_rotate_front_face c p.dir = c) ∧
          rotate_column (cube_reset twisted3) p.col p.dir ≠ some (cube_reset twisted3)) ∧
        (p.dir = CUBE_DIRECTION_CW →
          (∀ c : Cube_t 3,
            shuffle_pass c p.row p.col p.dir = some (cube_rotate_front_face c p.dir) ∧
            rotate_row c p.row p.dir = some c ∧ rotate_column c p.col p.dir = some c) ∧
          cube_rotate_front_face (cube_reset twisted3) p.dir ≠ cube_reset twisted3)) :=
  ⟨by decide, shuffle_move_set_and_index_safety (by decide) (fun k => k) twisted3⟩

end RubicsCube
